import Mathlib

/-!
Verification development for the ant2api gateway.

The definitions below are shallow embeddings of the corresponding Rust
functions (file and line references in each doc comment).  Machine integers
(`i32`, `i64`, `u32`) are modelled as unbounded `Int`/`Nat`; none of the
verified properties exercises wrap-around behaviour.  Timestamps are
millisecond integers, async state is passed explicitly, and network / disk
effects are represented by explicit oracle parameters and result flags.
-/

namespace Ant2Api

/-- `Account` from `src/credential/types.rs` (lines 4-23).  `created_at` is a
millisecond UTC timestamp; the Go zero time `0001-01-01T00:00:00Z` used by the
`year() == 1` check corresponds to the millisecond range of year 1. -/
structure Account where
  access_token : String
  refresh_token : String
  expires_in : Int
  timestamp : Int
  project_id : String
  email : String
  enable : Bool
  created_at : Int
  session_id : String
deriving Repr, DecidableEq

/-- `Account::is_expired` from `src/credential/types.rs` lines 26-33:
zero `timestamp` or `expires_in` is always expired, otherwise compare `now`
against expiry minus the 5-minute safety margin. -/
def Account.isExpired (a : Account) (nowMs : Int) : Bool :=
  if a.timestamp = 0 || a.expires_in = 0 then true
  else decide (nowMs ≥ a.timestamp + a.expires_in * 1000 - 300000)

/-- A concrete account whose token metadata is uninitialised
(`timestamp = 0`), as produced for freshly added accounts. -/
def zeroTimestampAccount : Account :=
  { access_token := "tok", refresh_token := "", expires_in := 3600,
    timestamp := 0, project_id := "", email := "", enable := true,
    created_at := 0, session_id := "s1" }

/-- C6 counterexample: the claimed equivalence
`is_expired(now) ⇔ now ≥ issued_at_ms + expires_in·1000 − 300000` fails for an
account with `timestamp = 0` and `expires_in = 3600` at `now = 0`: the code
reports expired, the formula does not. -/
theorem c6_is_expired_counterexample :
    zeroTimestampAccount.isExpired 0 = true ∧
      ¬ ((0 : Int) ≥ zeroTimestampAccount.timestamp +
          zeroTimestampAccount.expires_in * 1000 - 300000) := by
  constructor
  · rfl
  · decide

/-- C6 (amended): `is_expired(now)` holds iff `timestamp = 0` or
`expires_in = 0` (uninitialised token metadata) or
`now ≥ issued_at_ms + expires_in·1000 − 300000`. -/
theorem c6_is_expired_iff (a : Account) (now : Int) :
    a.isExpired now = true ↔
      a.timestamp = 0 ∨ a.expires_in = 0 ∨
        now ≥ a.timestamp + a.expires_in * 1000 - 300000 := by
  unfold Account.isExpired
  by_cases h : a.timestamp = 0 ∨ a.expires_in = 0
  · rcases h with h | h <;> simp [h]
  · push_neg at h
    simp [h.1, h.2]

instance : Inhabited Account :=
  ⟨{ access_token := "", refresh_token := "", expires_in := 0, timestamp := 0,
     project_id := "", email := "", enable := false, created_at := 0,
     session_id := "" }⟩

/-- The mutable part of `Store` from `src/credential/store.rs` that the token
pickers touch: the account list and the round-robin cursor (`State`,
lines 40-44). -/
structure StoreState where
  accounts : List Account
  currentIndex : Nat
deriving Repr, DecidableEq

def noAccountsMsg : String := "没有可用的账号"

def noTokensMsg : String := "没有可用的 token"

/-- An entry is skipped by `get_token_excluding` when its session id is
excluded or the account is disabled (store.rs lines 218-223). -/
def skipAcc (exclude : List String) (a : Account) : Bool :=
  exclude.contains a.session_id || !a.enable

/-- The `for _ in 0..len` loop of `Store::get_token_excluding`
(store.rs lines 206-233): read the entry under the cursor, advance the cursor
by one mod the list length, skip excluded and disabled entries, return the
first acceptable entry together with the new cursor.  `fuel` is the number of
remaining iterations; an out-of-range cursor (impossible from a cursor below
the length) yields `none`. -/
def getTokenLoop (accounts : List Account) (exclude : List String) :
    Nat → Nat → Option (Account × Nat)
  | _, 0 => none
  | cur, fuel+1 =>
    match accounts[cur]? with
    | none => none
    | some a =>
      let next := (cur + 1) % accounts.length
      if exclude.contains a.session_id then getTokenLoop accounts exclude next fuel
      else if !a.enable then getTokenLoop accounts exclude next fuel
      else some (a, next)

/-- `Store::get_token_excluding` (store.rs lines 199-236): empty store errors
immediately, otherwise run the round-robin loop for `len` iterations.  The
loop's inner emptiness re-check (lines 210-212) is unreachable in this
sequential model because `accounts` cannot change mid-call, and the
`is_expired` branch (lines 225-230) only emits a log line, so the expired
account is returned unchanged. -/
def StoreState.getTokenExcluding (st : StoreState) (exclude : List String) :
    Except String (Account × StoreState) :=
  if st.accounts.length = 0 then .error noAccountsMsg
  else
    match getTokenLoop st.accounts exclude st.currentIndex st.accounts.length with
    | some (a, cur') => .ok (a, { st with currentIndex := cur' })
    | none => .error noTokensMsg

/-- `Store::get_token` (store.rs lines 101-135) is textually the same loop as
`get_token_excluding` minus the exclusion test, i.e. the `exclude = []`
instance. -/
def StoreState.getToken (st : StoreState) : Except String (Account × StoreState) :=
  st.getTokenExcluding []

theorem getTokenLoop_none_skip (accounts : List Account) (exclude : List String) :
    ∀ fuel cur, cur < accounts.length →
      getTokenLoop accounts exclude cur fuel = none →
      ∀ j < fuel,
        skipAcc exclude (accounts.getD ((cur + j) % accounts.length) default) = true := by
  intro fuel
  induction fuel with
  | zero => intro cur _ _ j hj; omega
  | succ fuel ih =>
    intro cur hcur hnone j hj
    have hlen : 0 < accounts.length := by omega
    have hidx : accounts[cur]? = some accounts[cur] := List.getElem?_eq_getElem hcur
    unfold getTokenLoop at hnone
    rw [hidx] at hnone
    simp only at hnone
    have hnext : (cur + 1) % accounts.length < accounts.length := Nat.mod_lt _ hlen
    by_cases h1 : exclude.contains accounts[cur].session_id
    · rw [if_pos h1] at hnone
      cases j with
      | zero =>
        have : (cur + 0) % accounts.length = cur := by
          simp [Nat.mod_eq_of_lt hcur]
        rw [this]
        have : accounts.getD cur default = accounts[cur] := List.getD_eq_getElem _ _ hcur
        rw [this]
        simp only [skipAcc, h1, Bool.true_or]
      | succ j' =>
        have hrw : (cur + (j' + 1)) % accounts.length =
            ((cur + 1) % accounts.length + j') % accounts.length := by
          rw [Nat.mod_add_mod]
          ring_nf
        rw [hrw]
        exact ih _ hnext hnone j' (by omega)
    · rw [if_neg h1] at hnone
      by_cases h2 : accounts[cur].enable
      · simp [h2] at hnone
      · simp only [h2, Bool.not_false, if_true] at hnone
        cases j with
        | zero =>
          have : (cur + 0) % accounts.length = cur := by
            simp [Nat.mod_eq_of_lt hcur]
          rw [this]
          have : accounts.getD cur default = accounts[cur] := List.getD_eq_getElem _ _ hcur
          rw [this]
          simp only [skipAcc, eq_false_of_ne_true h2, Bool.not_false, Bool.or_true]
        | succ j' =>
          have hrw : (cur + (j' + 1)) % accounts.length =
              ((cur + 1) % accounts.length + j') % accounts.length := by
            rw [Nat.mod_add_mod]
            ring_nf
          rw [hrw]
          exact ih _ hnext hnone j' (by omega)

theorem getTokenLoop_some_spec (accounts : List Account) (exclude : List String) :
    ∀ fuel cur a cur', cur < accounts.length →
      getTokenLoop accounts exclude cur fuel = some (a, cur') →
      ∃ k, k < fuel ∧
        (∀ j < k,
          skipAcc exclude (accounts.getD ((cur + j) % accounts.length) default) = true) ∧
        a = accounts.getD ((cur + k) % accounts.length) default ∧
        skipAcc exclude a = false ∧
        cur' = (cur + k + 1) % accounts.length := by
  intro fuel
  induction fuel with
  | zero => intro cur a cur' _ h; simp [getTokenLoop] at h
  | succ fuel ih =>
    intro cur a cur' hcur hsome
    have hlen : 0 < accounts.length := by omega
    have hidx : accounts[cur]? = some accounts[cur] := List.getElem?_eq_getElem hcur
    have hcurD : accounts.getD cur default = accounts[cur] := List.getD_eq_getElem _ _ hcur
    have hcur0 : (cur + 0) % accounts.length = cur := by
      simp [Nat.mod_eq_of_lt hcur]
    unfold getTokenLoop at hsome
    rw [hidx] at hsome
    simp only at hsome
    have hnext : (cur + 1) % accounts.length < accounts.length := Nat.mod_lt _ hlen
    by_cases h1 : exclude.contains accounts[cur].session_id
    · rw [if_pos h1] at hsome
      obtain ⟨k, hk, hskip, ha, hnoskip, hcur'⟩ := ih _ a cur' hnext hsome
      refine ⟨k + 1, by omega, ?_, ?_, hnoskip, ?_⟩
      · intro j hj
        cases j with
        | zero => rw [hcur0, hcurD]; simp only [skipAcc, h1, Bool.true_or]
        | succ j' =>
          have hrw : (cur + (j' + 1)) % accounts.length =
              ((cur + 1) % accounts.length + j') % accounts.length := by
            rw [Nat.mod_add_mod]; ring_nf
          rw [hrw]
          exact hskip j' (by omega)
      · rw [ha]
        congr 1
        rw [Nat.mod_add_mod]
        ring_nf
      · rw [hcur']
        rw [show (cur + 1) % accounts.length + k + 1 =
            (cur + 1) % accounts.length + (k + 1) by ring, Nat.mod_add_mod]
        ring_nf
    · rw [if_neg h1] at hsome
      by_cases h2 : accounts[cur].enable
      · simp only [h2, Bool.not_true, if_false] at hsome
        have hpair := Option.some_inj.mp hsome
        have ha : a = accounts[cur] := (congrArg Prod.fst hpair).symm
        have hc : cur' = (cur + 1) % accounts.length := (congrArg Prod.snd hpair).symm
        refine ⟨0, by omega, by omega, ?_, ?_, ?_⟩
        · rw [hcur0, hcurD]; exact ha
        · rw [ha]
          simp only [skipAcc, h2, Bool.not_true, Bool.or_false]
          exact eq_false_of_ne_true h1
        · simpa using hc
      · simp only [h2, Bool.not_false, if_true] at hsome
        obtain ⟨k, hk, hskip, ha, hnoskip, hcur'⟩ := ih _ a cur' hnext hsome
        refine ⟨k + 1, by omega, ?_, ?_, hnoskip, ?_⟩
        · intro j hj
          cases j with
          | zero =>
            rw [hcur0, hcurD]
            simp only [skipAcc, eq_false_of_ne_true h2, Bool.not_false, Bool.or_true]
          | succ j' =>
            have hrw : (cur + (j' + 1)) % accounts.length =
                ((cur + 1) % accounts.length + j') % accounts.length := by
              rw [Nat.mod_add_mod]; ring_nf
            rw [hrw]
            exact hskip j' (by omega)
        · rw [ha]
          congr 1
          rw [Nat.mod_add_mod]
          ring_nf
        · rw [hcur']
          rw [show (cur + 1) % accounts.length + k + 1 =
              (cur + 1) % accounts.length + (k + 1) by ring, Nat.mod_add_mod]
          ring_nf

theorem round_robin_coverage (len cur i : Nat) (hcur : cur < len) (hi : i < len) :
    ∃ j, j < len ∧ (cur + j) % len = i := by
  refine ⟨(i + len - cur) % len, Nat.mod_lt _ (by omega), ?_⟩
  have h1 : (cur + (i + len - cur) % len) % len = (cur + (i + len - cur)) % len :=
    Nat.add_mod_mod cur (i + len - cur) len
  have h2 : cur + (i + len - cur) = i + len := by omega
  rw [h1, h2, Nat.add_mod_right, Nat.mod_eq_of_lt hi]

theorem getTokenExcluding_ok_spec (st : StoreState) (exclude : List String)
    (hcur : st.currentIndex < st.accounts.length) (a : Account) (st' : StoreState)
    (hok : st.getTokenExcluding exclude = .ok (a, st')) :
    ∃ k, k < st.accounts.length ∧
      (∀ j < k, skipAcc exclude
        (st.accounts.getD ((st.currentIndex + j) % st.accounts.length) default) = true) ∧
      a = st.accounts.getD ((st.currentIndex + k) % st.accounts.length) default ∧
      skipAcc exclude a = false ∧
      st'.accounts = st.accounts ∧
      st'.currentIndex = (st.currentIndex + k + 1) % st.accounts.length := by
  have hlen0 : ¬ st.accounts.length = 0 := by omega
  unfold StoreState.getTokenExcluding at hok
  rw [if_neg hlen0] at hok
  cases hloop : getTokenLoop st.accounts exclude st.currentIndex st.accounts.length with
  | none => rw [hloop] at hok; exact absurd hok (by simp)
  | some p =>
    obtain ⟨a0, cur'⟩ := p
    rw [hloop] at hok
    simp only [Except.ok.injEq, Prod.mk.injEq] at hok
    obtain ⟨ha0, hst'⟩ := hok
    obtain ⟨k, hk, hskip, haeq, hnoskip, hc⟩ :=
      getTokenLoop_some_spec st.accounts exclude _ _ a0 cur' hcur hloop
    subst ha0
    refine ⟨k, hk, hskip, haeq, hnoskip, ?_, ?_⟩
    · rw [← hst']
    · rw [← hst', ← hc]

theorem getTokenExcluding_error_spec (st : StoreState) (exclude : List String)
    (hcur : st.currentIndex < st.accounts.length)
    (herr : st.getTokenExcluding exclude = .error noTokensMsg) :
    ∀ a ∈ st.accounts, skipAcc exclude a = true := by
  have hlen0 : ¬ st.accounts.length = 0 := by omega
  unfold StoreState.getTokenExcluding at herr
  rw [if_neg hlen0] at herr
  cases hloop : getTokenLoop st.accounts exclude st.currentIndex st.accounts.length with
  | some p => rw [hloop] at herr; exact absurd herr (by simp)
  | none =>
    intro a ha
    obtain ⟨i, hi, haeq⟩ := List.mem_iff_getElem.mp ha
    obtain ⟨j, hj, hmod⟩ := round_robin_coverage st.accounts.length st.currentIndex i hcur hi
    have hskip := getTokenLoop_none_skip st.accounts exclude _ _ hcur hloop j hj
    rw [hmod] at hskip
    rw [List.getD_eq_getElem _ _ hi, haeq] at hskip
    exact hskip

/-- C4: hot-path token selection (`Store::get_token`, store.rs lines 101-135,
and `Store::get_token_excluding`, lines 199-236): a returned account is
enabled and not excluded and is handed back exactly as stored (no refresh —
expired accounts included — and the account list is untouched); the
no-tokens-available error is produced only after the loop has examined the
full list, i.e. only when every stored account is disabled or excluded. -/
theorem c4_hot_path_selection (st : StoreState) (exclude : List String)
    (hcur : st.currentIndex < st.accounts.length) :
    (∀ a st', st.getTokenExcluding exclude = .ok (a, st') →
      a.enable = true ∧ exclude.contains a.session_id = false ∧
      a ∈ st.accounts ∧ st'.accounts = st.accounts) ∧
    (st.getTokenExcluding exclude = .error noTokensMsg →
      ∀ a ∈ st.accounts, a.enable = false ∨ a.session_id ∈ exclude) ∧
    (∀ a st', st.getToken = .ok (a, st') →
      a.enable = true ∧ a ∈ st.accounts ∧ st'.accounts = st.accounts) ∧
    (st.getToken = .error noTokensMsg → ∀ a ∈ st.accounts, a.enable = false) := by
  have hmem : ∀ (excl : List String) (a : Account) (st' : StoreState),
      st.getTokenExcluding excl = .ok (a, st') →
      a.enable = true ∧ excl.contains a.session_id = false ∧
      a ∈ st.accounts ∧ st'.accounts = st.accounts := by
    intro excl a st' hok
    obtain ⟨k, hk, _, haeq, hnoskip, hacc, _⟩ :=
      getTokenExcluding_ok_spec st excl hcur a st' hok
    have hidx : (st.currentIndex + k) % st.accounts.length < st.accounts.length :=
      Nat.mod_lt _ (by omega)
    have hmem : a ∈ st.accounts := by
      rw [haeq, List.getD_eq_getElem _ _ hidx]
      exact List.getElem_mem hidx
    unfold skipAcc at hnoskip
    have hpair := Bool.or_eq_false_iff.mp hnoskip
    refine ⟨?_, hpair.1, hmem, hacc⟩
    have := hpair.2
    simp at this
    exact this
  have herr : ∀ (excl : List String),
      st.getTokenExcluding excl = .error noTokensMsg →
      ∀ a ∈ st.accounts, a.enable = false ∨ a.session_id ∈ excl := by
    intro excl h a ha
    have hskip := getTokenExcluding_error_spec st excl hcur h a ha
    unfold skipAcc at hskip
    rcases Bool.or_eq_true_iff.mp hskip with h1 | h2
    · exact Or.inr (List.mem_of_elem_eq_true h1)
    · simp at h2
      exact Or.inl h2
  refine ⟨fun a st' h => hmem exclude a st' h, herr exclude, ?_, ?_⟩
  · intro a st' h
    obtain ⟨h1, _, h3, h4⟩ := hmem [] a st' h
    exact ⟨h1, h3, h4⟩
  · intro h a ha
    rcases herr [] h a ha with h1 | h2
    · exact h1
    · simp at h2

def enabledAccount : Account :=
  { access_token := "tokA", refresh_token := "r1", expires_in := 3600,
    timestamp := 1, project_id := "", email := "a@x", enable := true,
    created_at := 0, session_id := "e" }

def disabledAccount : Account :=
  { enabledAccount with session_id := "d", enable := false }

def oneAccountStore : StoreState :=
  { accounts := [enabledAccount], currentIndex := 0 }

def skipThenPickStore : StoreState :=
  { accounts := [disabledAccount, enabledAccount], currentIndex := 0 }

theorem c4_hot_path_selection_witness :
    oneAccountStore.currentIndex < oneAccountStore.accounts.length ∧
      ((∀ a st', oneAccountStore.getTokenExcluding [] = .ok (a, st') →
        a.enable = true ∧ List.contains [] a.session_id = false ∧
        a ∈ oneAccountStore.accounts ∧ st'.accounts = oneAccountStore.accounts) ∧
      (oneAccountStore.getTokenExcluding [] = .error noTokensMsg →
        ∀ a ∈ oneAccountStore.accounts,
          a.enable = false ∨ a.session_id ∈ ([] : List String)) ∧
      (∀ a st', oneAccountStore.getToken = .ok (a, st') →
        a.enable = true ∧ a ∈ oneAccountStore.accounts ∧
          st'.accounts = oneAccountStore.accounts) ∧
      (oneAccountStore.getToken = .error noTokensMsg →
        ∀ a ∈ oneAccountStore.accounts, a.enable = false)) :=
  ⟨by decide, c4_hot_path_selection oneAccountStore [] (by decide)⟩

/-- C9 counterexample: with accounts `[disabled, enabled]` and cursor `0`,
`get_token_excluding` returns the enabled account but the cursor ends at `0`,
having advanced twice (once per examined entry), not at
`(0 + 1) % 2 = 1` as the claim states. -/
theorem c9_cursor_counterexample :
    skipThenPickStore.getTokenExcluding [] =
      .ok (enabledAccount,
        { accounts := skipThenPickStore.accounts, currentIndex := 0 }) ∧
    (0 : Nat) ≠ (skipThenPickStore.currentIndex + 1) % skipThenPickStore.accounts.length := by
  constructor
  · rfl
  · decide

/-- C9 (amended): a successful pick advances the cursor once per *examined*
entry: when the returned account is found after skipping `k` disabled or
excluded entries, the new cursor is `old + k + 1` (mod list length) — so only
for `k = 0` does it advance by exactly one. -/
theorem c9_cursor_advance_per_examined (st : StoreState) (exclude : List String)
    (hcur : st.currentIndex < st.accounts.length) (a : Account) (st' : StoreState)
    (hok : st.getTokenExcluding exclude = .ok (a, st')) :
    ∃ k, k < st.accounts.length ∧
      (∀ j < k, skipAcc exclude
        (st.accounts.getD ((st.currentIndex + j) % st.accounts.length) default) = true) ∧
      skipAcc exclude a = false ∧
      st'.currentIndex = (st.currentIndex + k + 1) % st.accounts.length := by
  obtain ⟨k, hk, hskip, _, hnoskip, _, hc⟩ :=
    getTokenExcluding_ok_spec st exclude hcur a st' hok
  exact ⟨k, hk, hskip, hnoskip, hc⟩

theorem c9_cursor_advance_witness :
    (skipThenPickStore.currentIndex < skipThenPickStore.accounts.length ∧
      skipThenPickStore.getTokenExcluding [] =
        .ok (enabledAccount,
          { accounts := skipThenPickStore.accounts, currentIndex := 0 })) ∧
      (∃ k, k < skipThenPickStore.accounts.length ∧
        (∀ j < k, skipAcc []
          (skipThenPickStore.accounts.getD ((skipThenPickStore.currentIndex + j) %
            skipThenPickStore.accounts.length) default) = true) ∧
        skipAcc [] enabledAccount = false ∧
        (0 : Nat) = (skipThenPickStore.currentIndex + k + 1) %
          skipThenPickStore.accounts.length) :=
  ⟨⟨by decide, by rfl⟩,
    c9_cursor_advance_per_examined skipThenPickStore [] (by decide) enabledAccount
      { accounts := skipThenPickStore.accounts, currentIndex := 0 } (by rfl)⟩

/-- Millisecond timestamp of `0001-01-01T00:00:00Z` (the Go zero time). -/
def year1StartMs : Int := -62135596800000

/-- Millisecond timestamp of `0002-01-01T00:00:00Z` (year 1 has 365 days). -/
def year1EndMs : Int := year1StartMs + 365 * 86400000

/-- chrono's `created_at.year() == 1` (store.rs line 439) for a millisecond
timestamp: the instant lies inside year 1 of the proleptic Gregorian
calendar. -/
def createdAtYearIsOne (t : Int) : Bool :=
  decide (year1StartMs ≤ t) && decide (t < year1EndMs)

/-- The de-duplication test of `Store::add` (store.rs lines 447-450): a
non-empty incoming email equal to the existing one, or a non-empty incoming
refresh token equal to the existing one. -/
def addMatches (incoming existing : Account) : Bool :=
  (decide (¬ incoming.email = "") && decide (existing.email = incoming.email)) ||
  (decide (¬ incoming.refresh_token = "") &&
    decide (existing.refresh_token = incoming.refresh_token))

/-- The `for existing in &mut state.accounts` loop of `Store::add`
(store.rs lines 446-457): overwrite the first matching entry with the incoming
account, keeping the existing `created_at`; report whether a replacement
happened. -/
def replaceFirstMatch (account : Account) : List Account → List Account × Bool
  | [] => ([], false)
  | existing :: rest =>
    if addMatches account existing then
      ({ account with created_at := existing.created_at } :: rest, true)
    else
      let (rest', replaced) := replaceFirstMatch account rest
      (existing :: rest', replaced)

/-- The normalisation prefix of `Store::add` (store.rs lines 438-441): assign
a fresh session id and replace a Go-zero `created_at` with the current
time. -/
def addNormalize (incoming : Account) (newSid : String) (nowMs : Int) : Account :=
  let account := { incoming with session_id := newSid }
  if createdAtYearIsOne account.created_at then { account with created_at := nowMs }
  else account

/-- `Store::add` (store.rs lines 437-465) restricted to its effect on the
account list: normalise the incoming account, overwrite the first duplicate
(preserving its `created_at`) or append. -/
def addAccount (accounts : List Account) (incoming : Account) (newSid : String)
    (nowMs : Int) : List Account :=
  if (replaceFirstMatch (addNormalize incoming newSid nowMs) accounts).2 then
    (replaceFirstMatch (addNormalize incoming newSid nowMs) accounts).1
  else accounts ++ [addNormalize incoming newSid nowMs]

theorem replaceFirstMatch_no_match (account : Account) :
    ∀ accounts : List Account, (∀ x ∈ accounts, addMatches account x = false) →
      replaceFirstMatch account accounts = (accounts, false) := by
  intro accounts
  induction accounts with
  | nil => intro _; rfl
  | cons existing rest ih =>
    intro hall
    have h0 : addMatches account existing = false := hall existing (by simp)
    unfold replaceFirstMatch
    rw [h0]
    simp only [Bool.false_eq_true, if_false]
    rw [ih (fun x hx => hall x (by simp [hx]))]

theorem replaceFirstMatch_first_match (account : Account) :
    ∀ (accounts : List Account) (i : Nat), i < accounts.length →
      addMatches account (accounts.getD i default) = true →
      (∀ j < i, addMatches account (accounts.getD j default) = false) →
      replaceFirstMatch account accounts =
        (accounts.set i { account with
          created_at := (accounts.getD i default).created_at }, true) := by
  intro accounts
  induction accounts with
  | nil => intro i hi; simp at hi
  | cons existing rest ih =>
    intro i hi hmatch hbefore
    cases i with
    | zero =>
      unfold replaceFirstMatch
      simp only [List.getD_cons_zero] at hmatch
      rw [hmatch]
      simp [List.set]
    | succ i' =>
      have h0 : addMatches account existing = false := by
        have := hbefore 0 (by omega)
        simpa using this
      unfold replaceFirstMatch
      rw [h0]
      simp only [Bool.false_eq_true, if_false]
      have hrec := ih i' (by simpa using hi) (by simpa using hmatch)
        (fun j hj => by simpa using hbefore (j + 1) (by omega))
      rw [hrec]
      simp [List.set]

/-- C10: `Store::add` de-duplicates only against the non-empty fields of the
incoming account.  (i) If both incoming `email` and `refresh_token` are empty
the account is always appended; (ii) more generally, when no stored account
matches, the normalised incoming account is appended; (iii) when index `i`
holds the first match, that entry is overwritten with the incoming account
except that the existing `created_at` is preserved. -/
theorem c10_add_dedup (accounts : List Account) (incoming : Account)
    (newSid : String) (nowMs : Int) :
    (incoming.email = "" ∧ incoming.refresh_token = "" →
      addAccount accounts incoming newSid nowMs =
        accounts ++ [addNormalize incoming newSid nowMs]) ∧
    ((∀ x ∈ accounts, addMatches (addNormalize incoming newSid nowMs) x = false) →
      addAccount accounts incoming newSid nowMs =
        accounts ++ [addNormalize incoming newSid nowMs]) ∧
    (∀ i, i < accounts.length →
      addMatches (addNormalize incoming newSid nowMs) (accounts.getD i default) = true →
      (∀ j < i, addMatches (addNormalize incoming newSid nowMs)
        (accounts.getD j default) = false) →
      addAccount accounts incoming newSid nowMs =
        accounts.set i { addNormalize incoming newSid nowMs with
          created_at := (accounts.getD i default).created_at }) := by
  have hfields : (addNormalize incoming newSid nowMs).email = incoming.email ∧
      (addNormalize incoming newSid nowMs).refresh_token = incoming.refresh_token := by
    unfold addNormalize
    by_cases h : createdAtYearIsOne incoming.created_at = true <;> simp [h]
  refine ⟨?_, ?_, ?_⟩
  · intro ⟨he, hr⟩
    have hnone : ∀ x ∈ accounts,
        addMatches (addNormalize incoming newSid nowMs) x = false := by
      intro x _
      unfold addMatches
      rw [hfields.1, hfields.2, he, hr]
      simp
    unfold addAccount
    rw [replaceFirstMatch_no_match _ _ hnone]
    simp
  · intro hnone
    unfold addAccount
    rw [replaceFirstMatch_no_match _ _ hnone]
    simp
  · intro i hi hmatch hbefore
    unfold addAccount
    rw [replaceFirstMatch_first_match _ _ i hi hmatch hbefore]
    simp

theorem c10_add_dedup_witness :
    ((enabledAccount.email = "" ∧ enabledAccount.refresh_token = "" →
      addAccount [] enabledAccount "sid" 5 = [] ++ [addNormalize enabledAccount "sid" 5]) ∧
    ((∀ x ∈ ([] : List Account),
        addMatches (addNormalize enabledAccount "sid" 5) x = false) →
      addAccount [] enabledAccount "sid" 5 = [] ++ [addNormalize enabledAccount "sid" 5]) ∧
    (∀ i, i < ([] : List Account).length →
      addMatches (addNormalize enabledAccount "sid" 5) (([] : List Account).getD i default) = true →
      (∀ j < i, addMatches (addNormalize enabledAccount "sid" 5)
        (([] : List Account).getD j default) = false) →
      addAccount [] enabledAccount "sid" 5 =
        ([] : List Account).set i { addNormalize enabledAccount "sid" 5 with
          created_at := (([] : List Account).getD i default).created_at })) ∧
    addAccount [] enabledAccount "sid" 5 = [addNormalize enabledAccount "sid" 5] :=
  ⟨c10_add_dedup [] enabledAccount "sid" 5,
    (c10_add_dedup [] enabledAccount "sid" 5).2.1 (by intro x hx; cases hx)⟩

/-- Rust `str::trim` (strip leading and trailing whitespace).  Lean's own
`String.trim` is defined by well-founded recursion and does not evaluate
inside the kernel, so the list-based equivalent is used throughout the
embedding. -/
def strTrim (s : String) : String :=
  ⟨((s.data.dropWhile Char.isWhitespace).reverse.dropWhile Char.isWhitespace).reverse⟩

/-- `RefreshSessionOutcome` (store.rs lines 17-27). -/
inductive RefreshOutcome where
  | refreshed
  | skippedAlreadyRefreshing
  | skippedDisabled
  | disabledAfterFailures
deriving Repr, DecidableEq

/-- `MAX_REFRESH_FAILURES` (store.rs line 15). -/
def maxRefreshFailures : Nat := 5

/-- The parts of `Store` touched by `refresh_session`: the account list, the
in-flight refresh set and the in-memory failure counters (a total function
with default `0`, matching `entry().or_insert(0)`). -/
structure CredState where
  accounts : List Account
  refreshing : List String
  refreshFailures : String → Nat

/-- The `enumerate().find` of `Store::find_by_session_id`
(store.rs lines 547-559), with `i` the index of the list head. -/
def findBySessionIdAux (sid : String) : Nat → List Account → Option (Nat × Account)
  | _, [] => none
  | i, a :: rest =>
    if a.session_id = sid then some (i, a) else findBySessionIdAux sid (i + 1) rest

/-- `Store::find_by_session_id` (store.rs lines 547-559). -/
def findBySessionId (accounts : List Account) (sessionId : String) :
    Option (Nat × Account) :=
  if strTrim sessionId = "" then none else findBySessionIdAux (strTrim sessionId) 0 accounts

/-- `Store::record_refresh_failure` (store.rs lines 284-294); the `u32`
`saturating_add` is modelled by `Nat` addition. -/
def recordRefreshFailure (failures : String → Nat) (sessionId : String) :
    (String → Nat) × Nat :=
  if strTrim sessionId = "" then (failures, 0)
  else
    let c := failures (strTrim sessionId) + 1
    (fun s => if s = strTrim sessionId then c else failures s, c)

/-- `Store::clear_refresh_failure` (store.rs lines 297-305). -/
def clearRefreshFailure (failures : String → Nat) (sessionId : String) : String → Nat :=
  if strTrim sessionId = "" then failures
  else fun s => if s = strTrim sessionId then 0 else failures s

/-- The account loop of `Store::disable_by_session_id` (store.rs lines
314-326): flip the first account carrying the session id if it is still
enabled, and report whether anything changed (`changed` drives `save`). -/
def disableLoop (sid : String) : List Account → List Account × Bool
  | [] => ([], false)
  | a :: rest =>
    if a.session_id = sid then
      if a.enable then ({ a with enable := false } :: rest, true) else (a :: rest, false)
    else
      let (rest', changed) := disableLoop sid rest
      (a :: rest', changed)

/-- `Store::disable_by_session_id` (store.rs lines 308-332); the second
component records whether `save` ran. -/
def disableBySessionId (accounts : List Account) (sessionId : String) :
    List Account × Bool :=
  if strTrim sessionId = "" then (accounts, false)
  else disableLoop (strTrim sessionId) accounts

/-- `Store::replace_account` (store.rs lines 538-545). -/
def replaceAccount (accounts : List Account) (index : Nat) (account : Account) :
    Except String (List Account) :=
  if accounts.length ≤ index then .error "索引超出范围"
  else .ok (accounts.set index account)

/-- Observable effect of one `refresh_session` call: the returned value, the
state after the call, whether the OAuth endpoint was contacted, and whether
`accounts.json` was written. -/
structure RefreshStep where
  result : Except String RefreshOutcome
  state : CredState
  networkCalled : Bool
  saved : Bool

/-- `Store::refresh_session` (store.rs lines 337-411).  The network call
`oauth::refresh_token` is the oracle `net`: `.ok a'` is the refreshed
account, `.error e` a refresh failure.  Disk writes always succeed and are
recorded in `saved`. -/
def refreshSession (st : CredState) (sessionId : String)
    (net : Account → Except String Account) : RefreshStep :=
  let sid := strTrim sessionId
  if sid = "" then
    { result := .error "session_id 为空", state := st, networkCalled := false,
      saved := false }
  else if st.refreshing.contains sid then
    { result := .ok .skippedAlreadyRefreshing, state := st, networkCalled := false,
      saved := false }
  else
    let st1 : CredState := { st with refreshing := sid :: st.refreshing }
    let step : RefreshStep :=
      match findBySessionId st1.accounts sid with
      | none =>
        { result := .error "未找到指定 session_id 对应的账号", state := st1,
          networkCalled := false, saved := false }
      | some (idx, account) =>
        if !account.enable then
          { result := .ok .skippedDisabled, state := st1, networkCalled := false,
            saved := false }
        else
          match net account with
          | .ok account' =>
            match replaceAccount st1.accounts idx account' with
            | .ok accounts' =>
              { result := .ok .refreshed,
                state :=
                  { st1 with
                    accounts := accounts',
                    refreshFailures := clearRefreshFailure st1.refreshFailures sid },
                networkCalled := true, saved := true }
            | .error e =>
              { result := .error e, state := st1, networkCalled := true, saved := false }
          | .error e =>
            let recd := recordRefreshFailure st1.refreshFailures sid
            let st2 : CredState := { st1 with refreshFailures := recd.1 }
            if maxRefreshFailures ≤ recd.2 then
              let dis := disableBySessionId st2.accounts sid
              { result := .ok .disabledAfterFailures,
                state := { st2 with accounts := dis.1 },
                networkCalled := true, saved := dis.2 }
            else
              { result := .error e, state := st2, networkCalled := true, saved := false }
    { step with state := { step.state with refreshing := step.state.refreshing.erase sid } }

theorem findBySessionIdAux_bounds (sid : String) :
    ∀ (l : List Account) (i idx : Nat) (a : Account),
      findBySessionIdAux sid i l = some (idx, a) → i ≤ idx ∧ idx < i + l.length := by
  intro l
  induction l with
  | nil => intro i idx a h; simp [findBySessionIdAux] at h
  | cons x rest ih =>
    intro i idx a h
    unfold findBySessionIdAux at h
    by_cases hx : x.session_id = sid
    · rw [if_pos hx] at h
      have hpair := Option.some_inj.mp h
      have h1 : i = idx := congrArg Prod.fst hpair
      constructor
      · omega
      · simp only [List.length_cons]
        omega
    · rw [if_neg hx] at h
      have := ih (i + 1) idx a h
      constructor
      · omega
      · simp only [List.length_cons]
        omega

theorem disableLoop_of_find (sid : String) :
    ∀ (l : List Account) (i idx : Nat) (a : Account),
      findBySessionIdAux sid i l = some (idx, a) → a.enable = true →
      disableLoop sid l = (l.set (idx - i) { a with enable := false }, true) := by
  intro l
  induction l with
  | nil => intro i idx a h; simp [findBySessionIdAux] at h
  | cons x rest ih =>
    intro i idx a h hen
    unfold findBySessionIdAux at h
    by_cases hx : x.session_id = sid
    · rw [if_pos hx] at h
      have hpair := Option.some_inj.mp h
      have hidx : idx = i := (congrArg Prod.fst hpair).symm
      have hax : a = x := (congrArg Prod.snd hpair).symm
      subst hidx
      subst hax
      unfold disableLoop
      rw [if_pos hx, if_pos hen]
      simp [List.set]
    · rw [if_neg hx] at h
      have hge := (findBySessionIdAux_bounds sid rest (i + 1) idx a h).1
      unfold disableLoop
      rw [if_neg hx]
      rw [ih (i + 1) idx a h hen]
      have hsub : idx - i = (idx - (i + 1)) + 1 := by omega
      rw [hsub]
      simp [List.set]

/-- C2: the `refresh_session` outcome contract
(`Store::refresh_session`, store.rs lines 337-411):
(i) a successful refresh clears the failure counter, persists, and returns
`Refreshed`; (ii) a failure that brings the consecutive-failure counter to
the threshold 5 disables the account (persisting the flip) and returns
`DisabledAfterFailures`; (iii) a call targeting a disabled account returns
`SkippedDisabled` without any network request; (iv) a call while the same
session is already refreshing returns `SkippedAlreadyRefreshing` untouched.
Session ids produced by `id::session_id` contain no whitespace, whence the
technical hypothesis that `sessionId` is already trimmed (Rust `str::trim`
is idempotent). -/
theorem c2_refresh_session_contract (st : CredState) (sessionId : String)
    (net : Account → Except String Account)
    (hclean : strTrim sessionId = sessionId) :
    (∀ idx account account', sessionId ≠ "" →
      st.refreshing.contains sessionId = false →
      findBySessionId st.accounts sessionId = some (idx, account) →
      account.enable = true → net account = .ok account' →
      (refreshSession st sessionId net).result = .ok .refreshed ∧
      (refreshSession st sessionId net).saved = true ∧
      (refreshSession st sessionId net).state.refreshFailures sessionId = 0 ∧
      (refreshSession st sessionId net).state.accounts = st.accounts.set idx account') ∧
    (∀ idx account e, sessionId ≠ "" →
      st.refreshing.contains sessionId = false →
      findBySessionId st.accounts sessionId = some (idx, account) →
      account.enable = true → net account = .error e →
      st.refreshFailures sessionId = maxRefreshFailures - 1 →
      (refreshSession st sessionId net).result = .ok .disabledAfterFailures ∧
      (refreshSession st sessionId net).saved = true ∧
      (refreshSession st sessionId net).state.accounts =
        st.accounts.set idx { account with enable := false }) ∧
    (∀ idx account, sessionId ≠ "" →
      st.refreshing.contains sessionId = false →
      findBySessionId st.accounts sessionId = some (idx, account) →
      account.enable = false →
      (refreshSession st sessionId net).result = .ok .skippedDisabled ∧
      (refreshSession st sessionId net).networkCalled = false) ∧
    (sessionId ≠ "" → st.refreshing.contains sessionId = true →
      refreshSession st sessionId net =
        { result := .ok .skippedAlreadyRefreshing, state := st,
          networkCalled := false, saved := false }) := by
  refine ⟨?_, ?_, ?_, ?_⟩
  · intro idx account account' hne hrefl hfind hen hok
    have hidx : idx < st.accounts.length := by
      unfold findBySessionId at hfind
      rw [hclean, if_neg hne] at hfind
      have := (findBySessionIdAux_bounds _ _ _ _ _ hfind).2
      omega
    have hrepl : replaceAccount st.accounts idx account' =
        .ok (st.accounts.set idx account') := by
      unfold replaceAccount
      rw [if_neg (by omega)]
    simp only [refreshSession, hclean, if_neg hne, hrefl, Bool.false_eq_true,
      if_false, hfind, hen, Bool.not_true, hok, hrepl]
    refine ⟨?_, ?_, ?_, ?_⟩ <;>
      first
        | trivial
        | simp [clearRefreshFailure, hclean, if_neg hne]
  · intro idx account e hne hrefl hfind hen herr hcount
    have hfind' : findBySessionIdAux sessionId 0 st.accounts =
        some (idx, account) := by
      unfold findBySessionId at hfind
      rwa [hclean, if_neg hne] at hfind
    have hdis : disableBySessionId st.accounts sessionId =
        (st.accounts.set idx { account with enable := false }, true) := by
      unfold disableBySessionId
      rw [hclean, if_neg hne]
      have := disableLoop_of_find sessionId st.accounts 0 idx account hfind' hen
      simpa using this
    have hcnt : recordRefreshFailure st.refreshFailures sessionId =
        (fun s => if s = sessionId then maxRefreshFailures else st.refreshFailures s,
          maxRefreshFailures) := by
      unfold recordRefreshFailure
      rw [hclean, if_neg hne]
      simp only [hcount, maxRefreshFailures]
    simp only [refreshSession, hclean, if_neg hne, hrefl, Bool.false_eq_true,
      if_false, hfind, hen, Bool.not_true, herr, hcnt, hdis]
    refine ⟨?_, ?_, ?_⟩ <;> trivial
  · intro idx account hne hrefl hfind hdis
    simp only [refreshSession, hclean, if_neg hne, hrefl, Bool.false_eq_true,
      if_false, hfind, hdis, Bool.not_false, if_true]
    refine ⟨?_, ?_⟩ <;> trivial
  · intro hne hrefl
    simp only [refreshSession, hclean, if_neg hne, hrefl, if_true]

def netOk : Account → Except String Account :=
  fun a => .ok { a with access_token := "new" }

def netFail : Account → Except String Account :=
  fun _ => .error "boom"

def freshFailures : String → Nat := fun _ => 0

def stInFlight : CredState :=
  { accounts := [enabledAccount], refreshing := ["e"], refreshFailures := freshFailures }

def stDisabled : CredState :=
  { accounts := [disabledAccount], refreshing := [], refreshFailures := freshFailures }

def stOk : CredState :=
  { accounts := [enabledAccount], refreshing := [], refreshFailures := freshFailures }

def stAtThreshold : CredState :=
  { accounts := [enabledAccount], refreshing := [],
    refreshFailures := fun s => if s = "e" then 4 else 0 }

theorem c2_refresh_session_contract_witness :
    ((refreshSession stOk "e" netOk).result = .ok .refreshed ∧
      (refreshSession stOk "e" netOk).saved = true ∧
      (refreshSession stOk "e" netOk).state.refreshFailures "e" = 0 ∧
      (refreshSession stOk "e" netOk).state.accounts =
        stOk.accounts.set 0 { enabledAccount with access_token := "new" }) ∧
    ((refreshSession stAtThreshold "e" netFail).result = .ok .disabledAfterFailures ∧
      (refreshSession stAtThreshold "e" netFail).saved = true ∧
      (refreshSession stAtThreshold "e" netFail).state.accounts =
        stAtThreshold.accounts.set 0 { enabledAccount with enable := false }) ∧
    ((refreshSession stDisabled "d" netOk).result = .ok .skippedDisabled ∧
      (refreshSession stDisabled "d" netOk).networkCalled = false) ∧
    refreshSession stInFlight "e" netOk =
      { result := .ok .skippedAlreadyRefreshing, state := stInFlight,
        networkCalled := false, saved := false } :=
  ⟨(c2_refresh_session_contract stOk "e" netOk (by decide)).1 0 enabledAccount
      { enabledAccount with access_token := "new" } (by decide) (by decide) (by decide)
      (by decide) rfl,
    (c2_refresh_session_contract stAtThreshold "e" netFail (by decide)).2.1 0
      enabledAccount "boom" (by decide) (by decide) (by decide) (by decide) rfl
      (by decide),
    (c2_refresh_session_contract stDisabled "d" netOk (by decide)).2.2.1 0
      disabledAccount (by decide) (by decide) (by decide) (by decide),
    (c2_refresh_session_contract stInFlight "e" netOk (by decide)).2.2.2 (by decide)
      (by decide)⟩

/-- `FALLBACK_SIGNATURE` from `src/signature/types.rs` line 4. -/
def fallbackSignature : String := "context_engineering_is_the_way_to_go"

/-- `Entry` from `src/signature/types.rs` lines 6-20 (timestamps as
millisecond integers). -/
structure SigEntry where
  signature : String
  reasoning : String
  request_id : String
  tool_call_id : String
  is_image_key : Bool
  model : String
  created_at : Int
  last_access : Int
deriving Repr, DecidableEq

/-- `EntryIndex` from `src/signature/types.rs` lines 32-47. -/
structure SigEntryIndex where
  request_id : String
  tool_call_id : String
  model : String
  created_at : Option Int
  last_access : Option Int
  date : String
deriving Repr, DecidableEq

/-- `Entry::key` (types.rs lines 23-28): `format!("{request_id}:{tool_call_id}")`
unless one side is empty. -/
def SigEntry.key (e : SigEntry) : Option String :=
  if e.request_id = "" ∨ e.tool_call_id = "" then none
  else some (e.request_id ++ ":" ++ e.tool_call_id)

/-- `EntryIndex::key` (types.rs lines 49-56). -/
def SigEntryIndex.key (idx : SigEntryIndex) : Option String :=
  if idx.request_id = "" ∨ idx.tool_call_id = "" then none
  else some (idx.request_id ++ ":" ++ idx.tool_call_id)

/-- In-memory state of the signature subsystem as touched by `save`/`lookup`:
the two index caches of `SignatureCache` (cache.rs; the moka LRU capacity of
50 000 and its eviction policy are not modelled — a freshly saved entry is
always resident), the `HotStore` maps (store.rs lines 28-32), the
persistence queue, and a read-only oracle for the per-day files on disk. -/
structure SigState where
  cacheByKey : String → Option SigEntryIndex
  cacheByToolCallId : String → Option SigEntryIndex
  hotByKey : String → Option SigEntry
  hotByToolCall : String → Option String
  queue : List SigEntry
  disk : String → String → Option SigEntry

/-- `SignatureCache::put` (cache.rs lines 21-33). -/
def SigState.cachePut (st : SigState) (idx : SigEntryIndex) : SigState :=
  match idx.key with
  | none => st
  | some key =>
    if idx.tool_call_id = "" then st
    else
      { st with
        cacheByKey := fun k => if k = key then some idx else st.cacheByKey k,
        cacheByToolCallId := fun t =>
          if t = idx.tool_call_id then some idx else st.cacheByToolCallId t }

/-- `Store::put_hot` (store.rs lines 81-92). -/
def SigState.putHot (st : SigState) (e : SigEntry) : SigState :=
  match e.key with
  | none => st
  | some key =>
    if e.tool_call_id = "" ∨ e.signature = "" then st
    else
      { st with
        hotByToolCall := fun t =>
          if t = e.tool_call_id then some key else st.hotByToolCall t,
        hotByKey := fun k => if k = key then some e else st.hotByKey k }

/-- `Store::enqueue` (store.rs lines 76-79); back-pressure on a full channel
suspends the caller and is invisible to the sequential state. -/
def SigState.enqueue (st : SigState) (e : SigEntry) : SigState :=
  { st with queue := st.queue ++ [e] }

/-- `Manager::save_owned_with_kind` (manager.rs lines 93-131). -/
def saveOwnedWithKind (st : SigState) (request_id tool_call_id : String)
    (is_image_key : Bool) (sigVal reasoning model : String) (now : Int) : SigState :=
  if request_id = "" ∨ tool_call_id = "" ∨ sigVal = "" then st
  else
    let e : SigEntry :=
      { signature := sigVal, reasoning := reasoning, request_id := request_id,
        tool_call_id := tool_call_id, is_image_key := is_image_key, model := model,
        created_at := now, last_access := now }
    let st := st.putHot e
    let st := st.cachePut
      { request_id := request_id, tool_call_id := tool_call_id, model := model,
        created_at := some now, last_access := some now, date := "" }
    st.enqueue e

/-- `Manager::save` (manager.rs lines 37-53), which forwards through
`save_owned` to `save_owned_with_kind` with `is_image_key = false`. -/
def sigSave (st : SigState) (request_id tool_call_id sigVal reasoning model : String)
    (now : Int) : SigState :=
  saveOwnedWithKind st request_id tool_call_id false sigVal reasoning model now

/-- `SignatureCache::get` (cache.rs lines 35-44): look up by
`"{request_id}:{tool_call_id}"`, refresh `last_access`, re-put. -/
def SigState.cacheGet (st : SigState) (request_id tool_call_id : String) (now : Int) :
    Option SigEntryIndex × SigState :=
  if request_id = "" ∨ tool_call_id = "" then (none, st)
  else
    match st.cacheByKey (request_id ++ ":" ++ tool_call_id) with
    | none => (none, st)
    | some idx0 =>
      let idx := { idx0 with last_access := some now }
      (some idx, st.cachePut idx)

/-- `Store::load_by_index` (store.rs lines 146-180).  An empty `date` denotes
the hot store; otherwise the per-day file is consulted through the `disk`
oracle (the asynchronous migrate-to-today re-enqueue is a spawned task and
not part of this state transition). -/
def SigState.loadByIndex (st : SigState) (idx : SigEntryIndex) : Option SigEntry :=
  match idx.key with
  | none => none
  | some key =>
    if idx.tool_call_id = "" then none
    else if idx.date = "" then
      match st.hotByKey key with
      | none => none
      | some cur =>
        match idx.last_access with
        | some la => some { cur with last_access := la }
        | none => some cur
    else
      match st.disk idx.date key with
      | none => none
      | some e0 =>
        if e0.signature = "" ∨ e0.request_id = "" ∨ e0.tool_call_id = "" then none
        else
          match idx.last_access with
          | some la => some { e0 with last_access := la }
          | none => some e0

/-- `fallback_entry_from_index` (manager.rs lines 167-179). -/
def fallbackEntryFromIndex (idx : SigEntryIndex) (now : Int) : SigEntry :=
  { signature := fallbackSignature, reasoning := "", request_id := idx.request_id,
    tool_call_id := idx.tool_call_id, is_image_key := false, model := idx.model,
    created_at := idx.created_at.getD now, last_access := idx.last_access.getD now }

/-- `Manager::lookup` (manager.rs lines 133-144): consult the index cache; a
present index with an unreadable payload falls back to the constant
signature; an empty stored signature is likewise replaced. -/
def sigLookup (st : SigState) (request_id tool_call_id : String) (now : Int) :
    Option SigEntry × SigState :=
  match st.cacheGet request_id tool_call_id now with
  | (none, st') => (none, st')
  | (some idx, st') =>
    match st'.loadByIndex idx with
    | some e =>
      if e.signature = "" then
        (some { e with signature := fallbackSignature }, st')
      else (some e, st')
    | none => (some (fallbackEntryFromIndex idx now), st')

/-- C1: signature cache round-trip
(`Manager::save_owned_with_kind`, manager.rs lines 93-131, and
`Manager::lookup`, lines 133-144): for non-empty `r`, `t` and `s`,
`save(r,t,s,x,m)` followed by `lookup(r,t)` returns the saved entry — in
particular its `signature`, `reasoning` and `model` are `s`, `x` and `m`. -/
theorem c1_signature_roundtrip (st : SigState) (r t s x m : String) (now now2 : Int)
    (hr : r ≠ "") (ht : t ≠ "") (hs : s ≠ "") :
    (sigLookup (sigSave st r t s x m now) r t now2).1 =
      some { signature := s, reasoning := x, request_id := r, tool_call_id := t,
             is_image_key := false, model := m, created_at := now,
             last_access := now2 } := by
  simp only [sigSave, saveOwnedWithKind, sigLookup, SigState.cacheGet,
    SigState.loadByIndex, SigState.putHot, SigState.cachePut, SigState.enqueue,
    SigEntry.key, SigEntryIndex.key, hr, ht, hs, or_self, if_false, false_or,
    or_false, if_neg, not_false_iff]
  simp [hr, ht, hs]

theorem c1_signature_roundtrip_witness :
    ¬ ("r" : String) = "" ∧ ¬ ("t" : String) = "" ∧ ¬ ("s" : String) = "" ∧
    (sigLookup (sigSave
        { cacheByKey := fun _ => none, cacheByToolCallId := fun _ => none,
          hotByKey := fun _ => none, hotByToolCall := fun _ => none,
          queue := [], disk := fun _ _ => none }
        "r" "t" "s" "x" "m" 1) "r" "t" 2).1 =
      some { signature := "s", reasoning := "x", request_id := "r",
             tool_call_id := "t", is_image_key := false, model := "m",
             created_at := 1, last_access := 2 } :=
  ⟨by decide, by decide, by decide,
    c1_signature_roundtrip
      { cacheByKey := fun _ => none, cacheByToolCallId := fun _ => none,
        hotByKey := fun _ => none, hotByToolCall := fun _ => none,
        queue := [], disk := fun _ _ => none }
      "r" "t" "s" "x" "m" 1 2 (by decide) (by decide) (by decide)⟩

/-- `ApiError` from `src/vertex/client.rs` lines 34-49: `Http` carries the
HTTP status, the rendered message, the retry delay and the two
classification flags; `Transport` and `Json` are reduced to their rendered
messages. -/
inductive ApiError where
  | http (status : Nat) (message : String) (retryDelayMs : Nat)
      (disable_token : Bool) (model_capacity_exhausted : Bool)
  | transport (message : String)
  | json (message : String)
deriving Repr, DecidableEq

/-- `ApiError::status` (client.rs lines 52-57). -/
def ApiError.statusCode : ApiError → Option Nat
  | .http s _ _ _ _ => some s
  | _ => none

/-- `ApiError::is_model_capacity_exhausted` (client.rs lines 73-81). -/
def ApiError.isModelCapacityExhausted : ApiError → Bool
  | .http _ _ _ _ mce => mce
  | _ => false

/-- The thiserror-derived `Display` of `ApiError` (client.rs lines 34-49). -/
def ApiError.render : ApiError → String
  | .http s msg _ _ _ => "Vertex API 错误 " ++ toString s ++ ": " ++ msg
  | .transport msg => msg
  | .json msg => msg

/-- `MODEL_CAPACITY_EXHAUSTED_MAX_RETRIES` (retry.rs line 3). -/
def modelCapacityExhaustedMaxRetries : Nat := 5

/-- `MODEL_CAPACITY_EXHAUSTED_CLIENT_MESSAGE` (retry.rs line 4). -/
def modelCapacityExhaustedClientMessage : String := "模型已过载，请稍后再试"

/-- `should_retry_with_next_token` (retry.rs lines 6-11). -/
def shouldRetryWithNextToken (err : ApiError) : Bool :=
  if err.isModelCapacityExhausted then true
  else
    match err.statusCode with
    | some 429 => true
    | some 401 => true
    | some 403 => true
    | _ => false

/-- Outcome of the non-stream `messages` retry loop as seen by the client. -/
inductive LoopEnd (α : Type) where
  | success (resp : α)
  | failure (status : Nat) (message : String)

/-- The error epilogue of the non-stream `messages` handler
(handler.rs lines 356-383): status from the last error when it is a
representable HTTP status (`StatusCode::from_u16`, 100..=999), else 503;
message from the last error, replaced by the canned overload message when
the capacity counter reached the threshold and the last error is
capacity-exhausted. -/
def finishMessages {α : Type} (failures : Nat) (lastErr : Option ApiError) : LoopEnd α :=
  let status :=
    match lastErr.bind ApiError.statusCode with
    | some s => if 100 ≤ s ∧ s ≤ 999 then s else 503
    | none => 503
  let msg :=
    match lastErr with
    | some e => e.render
    | none => "后端请求失败"
  let msg :=
    if modelCapacityExhaustedMaxRetries ≤ failures ∧
        (match lastErr with
         | some e => e.isModelCapacityExhausted
         | none => false) = true then
      modelCapacityExhaustedClientMessage
    else msg
  .failure status msg

/-- The non-stream retry loop of the Claude `messages` handler
(handler.rs lines 278-383), with credential selection abstracted: `trace i`
is the upstream outcome of attempt `i` and `fuel` the remaining attempt
budget.  Per iteration: success breaks out; on an error the capacity counter
is bumped (capacity-exhausted) or reset to zero (anything else), and the loop
aborts when the counter reaches 5 or the error is not retryable.  The
auth-failure background refresh is fire-and-forget and has no bearing on
control flow. -/
def messagesRetryLoop {α : Type} (trace : Nat → Except ApiError α) :
    Nat → Nat → Nat → Option ApiError → LoopEnd α
  | 0, _, failures, lastErr => finishMessages failures lastErr
  | fuel+1, i, failures, _lastErr =>
    match trace i with
    | .ok v => .success v
    | .error e =>
      let failures' := if e.isModelCapacityExhausted then failures + 1 else 0
      if modelCapacityExhaustedMaxRetries ≤ failures' then
        finishMessages failures' (some e)
      else if !shouldRetryWithNextToken e then
        finishMessages failures' (some e)
      else messagesRetryLoop trace fuel (i+1) failures' (some e)

/-- The whole retry phase: `attempts = max(enabled_count, 1)` iterations
starting with zero capacity failures and no last error
(handler.rs lines 278-283). -/
def runMessages {α : Type} (attempts : Nat) (trace : Nat → Except ApiError α) :
    LoopEnd α :=
  messagesRetryLoop trace attempts 0 0 none

/-- C3: gateway retry classification.
(i) `should_retry_with_next_token` (retry.rs lines 6-11) holds iff the error
is model-capacity-exhausted or its status is 401, 403 or 429;
(ii) the loop's capacity counter resets to zero on a non-capacity retryable
error and increments on a capacity error (handler.rs lines 339-343);
(iii) when the first five attempts all fail capacity-exhausted, the loop
aborts and the client receives the canned message 模型已过载，请稍后再试
(handler.rs lines 346-372). -/
theorem c3_retry_classification {α : Type} :
    (∀ e : ApiError, shouldRetryWithNextToken e = true ↔
      (e.isModelCapacityExhausted = true ∨ e.statusCode = some 401 ∨
        e.statusCode = some 403 ∨ e.statusCode = some 429)) ∧
    (∀ (trace : Nat → Except ApiError α) (fuel i failures : Nat)
        (lastErr : Option ApiError) (e : ApiError),
      trace i = .error e →
      (e.isModelCapacityExhausted = false → shouldRetryWithNextToken e = true →
        messagesRetryLoop trace (fuel+1) i failures lastErr =
          messagesRetryLoop trace fuel (i+1) 0 (some e)) ∧
      (e.isModelCapacityExhausted = true → failures + 1 < 5 →
        messagesRetryLoop trace (fuel+1) i failures lastErr =
          messagesRetryLoop trace fuel (i+1) (failures + 1) (some e))) ∧
    (∀ (trace : Nat → Except ApiError α) (attempts : Nat),
      5 ≤ attempts →
      (∀ i < 5, ∃ e, trace i = .error e ∧ e.isModelCapacityExhausted = true) →
      ∃ status, runMessages attempts trace =
        .failure status modelCapacityExhaustedClientMessage) := by
  refine ⟨?_, ?_, ?_⟩
  · intro e
    cases e with
    | http s msg rd dt mce =>
      cases mce with
      | true => simp [shouldRetryWithNextToken, ApiError.isModelCapacityExhausted]
      | false =>
        simp only [shouldRetryWithNextToken, ApiError.isModelCapacityExhausted,
          ApiError.statusCode, Bool.false_eq_true, if_false, false_or]
        constructor
        · intro h
          match s, h with
          | 429, _ => simp
          | 401, _ => simp
          | 403, _ => simp
        · intro h
          rcases h with h | h | h <;> simp [Option.some_inj.mp h]
    | transport msg =>
      simp [shouldRetryWithNextToken, ApiError.isModelCapacityExhausted,
        ApiError.statusCode]
    | json msg =>
      simp [shouldRetryWithNextToken, ApiError.isModelCapacityExhausted,
        ApiError.statusCode]
  · intro trace fuel i failures lastErr e htrace
    constructor
    · intro hmce hretry
      simp only [messagesRetryLoop, htrace, hmce, Bool.false_eq_true, if_false,
        hretry, Bool.not_true, modelCapacityExhaustedMaxRetries]
      rw [if_neg (by omega)]
    · intro hmce hlt
      simp only [messagesRetryLoop, htrace, hmce, if_true,
        modelCapacityExhaustedMaxRetries]
      rw [if_neg (by omega)]
      have hretry : shouldRetryWithNextToken e = true := by
        unfold shouldRetryWithNextToken
        rw [hmce]
        simp
      rw [hretry]
      simp
  · intro trace attempts hge hcap
    obtain ⟨e0, h0, m0⟩ := hcap 0 (by omega)
    obtain ⟨e1, h1, m1⟩ := hcap 1 (by omega)
    obtain ⟨e2, h2, m2⟩ := hcap 2 (by omega)
    obtain ⟨e3, h3, m3⟩ := hcap 3 (by omega)
    obtain ⟨e4, h4, m4⟩ := hcap 4 (by omega)
    obtain ⟨k, rfl⟩ : ∃ k, attempts = k + 5 := ⟨attempts - 5, by omega⟩
    have hstep : ∀ (fuel failures : Nat) (l : Option ApiError) (j : Nat)
        (e : ApiError), trace j = .error e → e.isModelCapacityExhausted = true →
        failures + 1 < 5 →
        messagesRetryLoop trace (fuel+1) j failures l =
          messagesRetryLoop trace fuel (j+1) (failures+1) (some e) := by
      intro fuel failures l j e hj hm hlt
      simp only [messagesRetryLoop, hj, hm, if_true,
        modelCapacityExhaustedMaxRetries]
      rw [if_neg (by omega)]
      have hretry : shouldRetryWithNextToken e = true := by
        unfold shouldRetryWithNextToken
        rw [hm]
        simp
      rw [hretry]
      simp
    unfold runMessages
    rw [show k + 5 = (k + 4) + 1 by omega, hstep (k+4) 0 none 0 e0 h0 m0 (by omega)]
    rw [show k + 4 = (k + 3) + 1 by omega, hstep (k+3) 1 _ 1 e1 h1 m1 (by omega)]
    rw [show k + 3 = (k + 2) + 1 by omega, hstep (k+2) 2 _ 2 e2 h2 m2 (by omega)]
    rw [show k + 2 = (k + 1) + 1 by omega, hstep (k+1) 3 _ 3 e3 h3 m3 (by omega)]
    simp only [messagesRetryLoop, h4, m4, if_true, modelCapacityExhaustedMaxRetries]
    rw [if_pos (by omega)]
    simp only [finishMessages]
    rw [if_pos (⟨by norm_num [modelCapacityExhaustedMaxRetries], m4⟩ :
      modelCapacityExhaustedMaxRetries ≤ 4 + 1 ∧ e4.isModelCapacityExhausted = true)]
    exact ⟨_, rfl⟩

/-- The capacity-exhausted 503 shape from §4.5 of the upstream error
contract. -/
def capacityError : ApiError :=
  .http 503 "No capacity available for model m" 0 false true

def err429 : ApiError := .http 429 "rate limited" 0 false false

def traceCap : Nat → Except ApiError Unit := fun _ => .error capacityError

def trace429 : Nat → Except ApiError Unit := fun _ => .error err429

theorem c3_retry_classification_witness :
    (shouldRetryWithNextToken capacityError = true ↔
      (capacityError.isModelCapacityExhausted = true ∨
        capacityError.statusCode = some 401 ∨ capacityError.statusCode = some 403 ∨
        capacityError.statusCode = some 429)) ∧
    (messagesRetryLoop trace429 1 0 3 none = messagesRetryLoop trace429 0 1 0 (some err429)) ∧
    (messagesRetryLoop traceCap 1 0 3 none =
      messagesRetryLoop traceCap 0 1 4 (some capacityError)) ∧
    (∃ status, runMessages 5 traceCap =
      .failure status modelCapacityExhaustedClientMessage) :=
  ⟨(@c3_retry_classification Unit).1 capacityError,
    ((@c3_retry_classification Unit).2.1 trace429 0 0 3 none err429 rfl).1 rfl rfl,
    ((@c3_retry_classification Unit).2.1 traceCap 0 0 3 none capacityError rfl).2 rfl
      (by decide),
    (@c3_retry_classification Unit).2.2 traceCap 5 (by decide)
      (fun i _ => ⟨capacityError, rfl, rfl⟩)⟩

/-- An `f64` value carrying exactly the distinctions the quota code makes:
`is_finite`, `clamp(0.0, 1.0)` on finite values, and IEEE comparison with
zero. -/
inductive F64 where
  | val (q : ℚ)
  | nan
  | inf
  | negInf
deriving Repr, DecidableEq

def F64.isFinite : F64 → Bool
  | .val _ => true
  | _ => false

/-- Rust `f64::clamp(0.0, 1.0)`; the code only clamps after an `is_finite`
guard, so the non-finite cases are unreachable. -/
def F64.clamp01 : F64 → F64
  | .val q => .val (max 0 (min 1 q))
  | x => x

/-- IEEE `frac <= 0.0` (NaN compares false). -/
def F64.leZero : F64 → Bool
  | .val q => decide (q ≤ 0)
  | .nan => false
  | .inf => false
  | .negInf => true

/-- `PoolEntry` from `src/quota_pool/types.rs` lines 7-16 (`last_updated` is
an abstract instant). -/
structure PoolEntry where
  remaining_fraction : F64
  reset_time : Option Int
  last_updated : Int
deriving Repr, DecidableEq

/-- `QuotaPool` from `src/quota_pool/types.rs` lines 20-25, with the two
`HashMap`s as total functions into `Option`. -/
structure QuotaPool where
  active : String → Option PoolEntry
  cooldown : String → Option Int

def QuotaPool.emptyPool : QuotaPool :=
  { active := fun _ => none, cooldown := fun _ => none }

/-- A quota group as consumed by `update_from_quota`: `reset_time` is the
already-parsed RFC3339 instant (`parse_reset_time`, manager.rs lines
234-242; `none` covers both a missing and an unparseable string). -/
structure QuotaGroupIn where
  group_name : String
  remaining_fraction : Option F64
  reset_time : Option Int
deriving Repr, DecidableEq

/-- The pools map of `QuotaPoolManager` (manager.rs lines 53-56) as a total
map defaulting to the empty pool, which matches the
`entry().or_insert_with(QuotaPool::new)` access pattern. -/
def Pools := String → QuotaPool

/-- `reset_time` lies strictly in the future
(`reset_dt.is_some_and(|rt| *rt > now)`, manager.rs line 105). -/
def futureResetB (now : Int) : Option Int → Bool
  | some rt => decide (now < rt)
  | none => false

/-- The `should_cooldown` test of `update_from_quota` (manager.rs lines
104-105): a non-positive fraction with a future reset time. -/
def shouldCooldownB (now : Int) (frac : F64) (resetTime : Option Int) : Bool :=
  frac.leZero && futureResetB now resetTime

/-- The per-group body of `update_from_quota` (manager.rs lines 93-130):
clamp a finite provided fraction to `[0,1]` (non-finite becomes 0); a
non-positive fraction with a future reset time moves the session to
cooldown; otherwise the session goes to active and leaves cooldown; a group
with only a reset time is treated as exhausted. -/
def updatePoolForGroup (sessionId : String) (now nowInstant : Int)
    (pool : QuotaPool) (g : QuotaGroupIn) : QuotaPool :=
  match g.remaining_fraction with
  | some frac0 =>
    let frac := if frac0.isFinite then frac0.clamp01 else .val 0
    if shouldCooldownB now frac g.reset_time then
      let pool' : QuotaPool :=
        { pool with active := fun s => if s = sessionId then none else pool.active s }
      match g.reset_time with
      | some rt =>
        { pool' with
          cooldown := fun s => if s = sessionId then some rt else pool'.cooldown s }
      | none => pool'
    else
      let pool' : QuotaPool :=
        { pool with cooldown := fun s => if s = sessionId then none else pool.cooldown s }
      { pool' with
        active := fun s =>
          if s = sessionId then
            some { remaining_fraction := frac, reset_time := g.reset_time,
                   last_updated := nowInstant }
          else pool'.active s }
  | none =>
    match g.reset_time with
    | some rt =>
      { active := fun s => if s = sessionId then none else pool.active s,
        cooldown := fun s => if s = sessionId then some rt else pool.cooldown s }
    | none => pool

/-- One iteration of the `for g in groups` loop of `update_from_quota`
(manager.rs lines 83-131): skip groups with a blank name, otherwise update
that group's pool in place. -/
def applyGroup (sessionId : String) (now nowInstant : Int) (ps : Pools)
    (g : QuotaGroupIn) : Pools :=
  if strTrim g.group_name = "" then ps
  else fun n =>
    if n = strTrim g.group_name then
      updatePoolForGroup sessionId now nowInstant (ps (strTrim g.group_name)) g
    else ps n

/-- `QuotaPoolManager::update_from_quota` (manager.rs lines 73-132). -/
def updateFromQuota (pools : Pools) (sessionId : String) (now nowInstant : Int)
    (groups : List QuotaGroupIn) : Pools :=
  if strTrim sessionId = "" then pools
  else groups.foldl (applyGroup (strTrim sessionId) now nowInstant) pools

/-- `QuotaPoolManager::remove_session` (manager.rs lines 150-161). -/
def removeSession (pools : Pools) (sessionId : String) : Pools :=
  if strTrim sessionId = "" then pools
  else fun n =>
    { active := fun s => if s = strTrim sessionId then none else (pools n).active s,
      cooldown := fun s => if s = strTrim sessionId then none else (pools n).cooldown s }

/-- `QuotaPoolManager::sync_valid_sessions` (manager.rs lines 164-170). -/
def syncValidSessions (pools : Pools) (valid : List String) : Pools :=
  fun n =>
    { active := fun s => if valid.contains s then (pools n).active s else none,
      cooldown := fun s => if valid.contains s then (pools n).cooldown s else none }

/-- No session id is simultaneously in the active and cooldown maps. -/
def QuotaPool.noOverlap (p : QuotaPool) : Prop :=
  ∀ s, p.active s = none ∨ p.cooldown s = none

def poolsNoOverlap (ps : Pools) : Prop := ∀ n, (ps n).noOverlap

theorem updatePoolForGroup_noOverlap (sessionId : String) (now nowInstant : Int)
    (pool : QuotaPool) (g : QuotaGroupIn) (h : pool.noOverlap) :
    (updatePoolForGroup sessionId now nowInstant pool g).noOverlap := by
  intro s
  rcases hf : g.remaining_fraction with _ | frac0 <;>
    rcases hrt : g.reset_time with _ | rt
  · simpa [updatePoolForGroup, hf, hrt] using h s
  · by_cases hs : s = sessionId
    · left
      simp [updatePoolForGroup, hf, hrt, hs]
    · rcases h s with h' | h'
      · left
        simp [updatePoolForGroup, hf, hrt, hs, h']
      · right
        simp [updatePoolForGroup, hf, hrt, hs, h']
  · by_cases hs : s = sessionId
    · right
      simp [updatePoolForGroup, shouldCooldownB, futureResetB, hf, hrt, hs]
    · rcases h s with h' | h'
      · left
        simp [updatePoolForGroup, shouldCooldownB, futureResetB, hf, hrt, hs, h']
      · right
        simp [updatePoolForGroup, shouldCooldownB, futureResetB, hf, hrt, hs, h']
  · by_cases hc : shouldCooldownB now
        (if frac0.isFinite then frac0.clamp01 else F64.val 0) (some rt) = true
    · by_cases hs : s = sessionId
      · left
        simp [updatePoolForGroup, hf, hrt, hc, hs]
      · rcases h s with h' | h'
        · left
          simp [updatePoolForGroup, hf, hrt, hc, hs, h']
        · right
          simp [updatePoolForGroup, hf, hrt, hc, hs, h']
    · by_cases hs : s = sessionId
      · right
        simp [updatePoolForGroup, hf, hrt, hc, hs]
      · rcases h s with h' | h'
        · left
          simp [updatePoolForGroup, hf, hrt, hc, hs, h']
        · right
          simp [updatePoolForGroup, hf, hrt, hc, hs, h']

theorem applyGroup_noOverlap (sessionId : String) (now nowInstant : Int)
    (ps : Pools) (g : QuotaGroupIn) (h : poolsNoOverlap ps) :
    poolsNoOverlap (applyGroup sessionId now nowInstant ps g) := by
  intro n
  unfold applyGroup
  by_cases hn : strTrim g.group_name = ""
  · rw [if_pos hn]
    exact h n
  · rw [if_neg hn]
    by_cases he : n = strTrim g.group_name
    · simp only [if_pos he]
      exact updatePoolForGroup_noOverlap _ _ _ _ _ (h _)
    · simp only [if_neg he]
      exact h n

theorem foldl_applyGroup_noOverlap (sessionId : String) (now nowInstant : Int) :
    ∀ (groups : List QuotaGroupIn) (ps : Pools), poolsNoOverlap ps →
      poolsNoOverlap (groups.foldl (applyGroup sessionId now nowInstant) ps) := by
  intro groups
  induction groups with
  | nil => intro ps h; exact h
  | cons g rest ih =>
    intro ps h
    exact ih _ (applyGroup_noOverlap sessionId now nowInstant ps g h)

/-- C5: quota pool state invariant
(`QuotaPoolManager::update_from_quota` lines 73-132, `remove_session` lines
150-161, `sync_valid_sessions` lines 164-170 of manager.rs):
(i)-(iii) all three operations preserve the invariant that no session id is
in both the active and the cooldown map of the same pool;
(iv) for a group carrying a finite fraction `q`, the update clamps it to
`[0,1]`; when the clamped fraction is 0 (i.e. `q ≤ 0`) and the reset time is
in the future the session moves to cooldown (and out of active), otherwise
it is placed in active with the clamped fraction and removed from
cooldown. -/
theorem c5_quota_pool_invariant :
    (∀ (pools : Pools) (sessionId : String) (now nowInstant : Int)
        (groups : List QuotaGroupIn), poolsNoOverlap pools →
      poolsNoOverlap (updateFromQuota pools sessionId now nowInstant groups)) ∧
    (∀ (pools : Pools) (sessionId : String), poolsNoOverlap pools →
      poolsNoOverlap (removeSession pools sessionId)) ∧
    (∀ (pools : Pools) (valid : List String), poolsNoOverlap pools →
      poolsNoOverlap (syncValidSessions pools valid)) ∧
    (∀ (pools : Pools) (sid : String) (now nowInstant : Int) (g : QuotaGroupIn)
        (q : ℚ),
      strTrim sid = sid → sid ≠ "" →
      strTrim g.group_name = g.group_name → g.group_name ≠ "" →
      g.remaining_fraction = some (F64.val q) →
      ((q ≤ 0 ∧ futureResetB now g.reset_time = true →
        (updateFromQuota pools sid now nowInstant [g] g.group_name).active sid = none ∧
        (updateFromQuota pools sid now nowInstant [g] g.group_name).cooldown sid =
          g.reset_time) ∧
      (¬ (q ≤ 0 ∧ futureResetB now g.reset_time = true) →
        (updateFromQuota pools sid now nowInstant [g] g.group_name).active sid =
          some { remaining_fraction := F64.val (max 0 (min 1 q)),
                 reset_time := g.reset_time, last_updated := nowInstant } ∧
        (updateFromQuota pools sid now nowInstant [g] g.group_name).cooldown sid =
          none ∧
        (0 : ℚ) ≤ max 0 (min 1 q) ∧ max 0 (min 1 q) ≤ 1))) := by
  refine ⟨?_, ?_, ?_, ?_⟩
  · intro pools sessionId now nowInstant groups h
    unfold updateFromQuota
    by_cases he : strTrim sessionId = ""
    · rw [if_pos he]
      exact h
    · rw [if_neg he]
      exact foldl_applyGroup_noOverlap _ now nowInstant groups pools h
  · intro pools sessionId h
    unfold removeSession
    by_cases he : strTrim sessionId = ""
    · rw [if_pos he]
      exact h
    · rw [if_neg he]
      intro n s
      by_cases hs : s = strTrim sessionId
      · left
        simp [hs]
      · rcases h n s with h' | h'
        · left
          simp [hs, h']
        · right
          simp [hs, h']
  · intro pools valid h
    intro n s
    by_cases hv : valid.contains s
    · rcases h n s with h' | h'
      · left
        simp [syncValidSessions, hv, h']
      · right
        simp [syncValidSessions, hv, h']
    · left
      show (if valid.contains s then (pools n).active s else none) = none
      rw [if_neg hv]
  · intro pools sid now nowInstant g q hsidT hsidE hgT hgE hfrac
    have hq01 : (max (0:ℚ) (min 1 q) ≤ 0) ↔ q ≤ 0 := by
      rw [max_le_iff, min_le_iff]
      constructor
      · rintro ⟨_, h1 | h2⟩
        · linarith
        · exact h2
      · intro hq
        exact ⟨le_refl 0, Or.inr hq⟩
    have hbase : updateFromQuota pools sid now nowInstant [g] g.group_name =
        updatePoolForGroup sid now nowInstant (pools g.group_name) g := by
      unfold updateFromQuota
      rw [hsidT, if_neg hsidE]
      show applyGroup sid now nowInstant pools g g.group_name = _
      unfold applyGroup
      rw [hgT, if_neg hgE]
      simp
    constructor
    · rintro ⟨hq, hfut⟩
      have hcool : shouldCooldownB now
          (if (F64.val q).isFinite then (F64.val q).clamp01 else F64.val 0)
          g.reset_time = true := by
        unfold shouldCooldownB
        simp only [F64.isFinite, if_true, F64.clamp01, F64.leZero,
          Bool.and_eq_true, decide_eq_true_eq]
        exact ⟨hq01.mpr hq, hfut⟩
      rcases hrt : g.reset_time with _ | rt
      · rw [hrt] at hfut
        simp [futureResetB] at hfut
      · rw [hrt] at hcool
        rw [hbase]
        unfold updatePoolForGroup
        rw [hfrac]
        simp only [hrt, hcool, if_true]
        constructor
        · simp
        · simp
    · intro hnot
      have hcool : shouldCooldownB now
          (if (F64.val q).isFinite then (F64.val q).clamp01 else F64.val 0)
          g.reset_time = false := by
        unfold shouldCooldownB
        simp only [F64.isFinite, if_true, F64.clamp01, F64.leZero,
          Bool.and_eq_false_iff]
        by_cases hq : q ≤ 0
        · right
          have : ¬ (futureResetB now g.reset_time = true) := fun hf => hnot ⟨hq, hf⟩
          exact eq_false_of_ne_true this
        · left
          simp only [decide_eq_false_iff_not]
          rw [hq01]
          exact hq
      rw [hbase]
      unfold updatePoolForGroup
      rw [hfrac]
      simp only [hcool, Bool.false_eq_true, if_false]
      refine ⟨by simp [F64.isFinite, F64.clamp01], by simp, ?_, ?_⟩
      · exact le_max_left 0 (min 1 q)
      · rw [max_le_iff]
        refine ⟨by norm_num, min_le_left 1 q⟩

def emptyPools : Pools := fun _ => QuotaPool.emptyPool

def quotaGroupHigh : QuotaGroupIn :=
  { group_name := "Claude/GPT", remaining_fraction := some (F64.val 2),
    reset_time := some 100 }

theorem c5_quota_pool_invariant_witness :
    (poolsNoOverlap emptyPools ∧
      poolsNoOverlap (updateFromQuota emptyPools "e" 50 7 [quotaGroupHigh]) ∧
      poolsNoOverlap (removeSession emptyPools "e") ∧
      poolsNoOverlap (syncValidSessions emptyPools ["e"])) ∧
    ((2 ≤ (0:ℚ) ∧ futureResetB 50 quotaGroupHigh.reset_time = true →
        (updateFromQuota emptyPools "e" 50 7 [quotaGroupHigh]
          quotaGroupHigh.group_name).active "e" = none ∧
        (updateFromQuota emptyPools "e" 50 7 [quotaGroupHigh]
          quotaGroupHigh.group_name).cooldown "e" = quotaGroupHigh.reset_time) ∧
      (¬ ((2:ℚ) ≤ 0 ∧ futureResetB 50 quotaGroupHigh.reset_time = true) →
        (updateFromQuota emptyPools "e" 50 7 [quotaGroupHigh]
          quotaGroupHigh.group_name).active "e" =
          some { remaining_fraction := F64.val (max 0 (min 1 2)),
                 reset_time := quotaGroupHigh.reset_time, last_updated := 7 } ∧
        (updateFromQuota emptyPools "e" 50 7 [quotaGroupHigh]
          quotaGroupHigh.group_name).cooldown "e" = none ∧
        (0:ℚ) ≤ max 0 (min 1 2) ∧ max (0:ℚ) (min 1 2) ≤ 1)) := by
  have hinv : poolsNoOverlap emptyPools := fun _ _ => Or.inl rfl
  exact ⟨⟨hinv,
      c5_quota_pool_invariant.1 emptyPools "e" 50 7 [quotaGroupHigh] hinv,
      c5_quota_pool_invariant.2.1 emptyPools "e" hinv,
      c5_quota_pool_invariant.2.2.1 emptyPools ["e"] hinv⟩,
    c5_quota_pool_invariant.2.2.2 emptyPools "e" 50 7 quotaGroupHigh 2
      (by decide) (by decide) (by decide) (by decide) rfl⟩

/-! String helpers mirroring the Rust `str` operations used by
`src/util/model.rs`.  They are written over the character list so that they
evaluate inside the kernel (Lean's built-in `String` versions use
well-founded recursion over byte positions); `Char.toLower` matches Rust
`to_lowercase` on ASCII model ids. -/

def strToLower (s : String) : String := ⟨s.data.map Char.toLower⟩

def strStartsWith (s p : String) : Bool := p.data.isPrefixOf s.data

def strEndsWith (s p : String) : Bool := p.data.isSuffixOf s.data

/-- `pat` occurs as a contiguous sublist (Rust `str::contains`). -/
def listContainsSub (pat : List Char) : List Char → Bool
  | [] => pat.isEmpty
  | c :: rest => pat.isPrefixOf (c :: rest) || listContainsSub pat rest

def strContainsSub (s p : String) : Bool := listContainsSub p.data s.data

def strDrop (s : String) (n : Nat) : String := ⟨s.data.drop n⟩

/-- Rust `m.strip_prefix("models/").unwrap_or(m)`. -/
def stripModelsPrefix (m : String) : String :=
  if strStartsWith m "models/" then strDrop m 7 else m

/-- Rust `effort.parse::<i32>()`: optional sign followed by at least one
digit (`i32` overflow is not modelled). -/
def parseDecDigits : List Char → Option Nat
  | [] => none
  | cs => cs.foldl (fun acc c =>
      match acc with
      | none => none
      | some n => if c.isDigit then some (n * 10 + (c.toNat - 48)) else none)
      (some 0)

def strParseInt (s : String) : Option Int :=
  match s.data with
  | '+' :: rest => (parseDecDigits rest).map Int.ofNat
  | '-' :: rest => (parseDecDigits rest).map (fun n => -(n : Int))
  | l => (parseDecDigits l).map Int.ofNat

/-! Constants and model-id predicates from `src/util/model.rs` lines 3-13
and 15-96. -/

def claudeMaxOutputTokens : Int := 64000

def geminiMaxOutputTokens : Int := 65535

def defaultClaudeThinkingBudgetTokens : Int := 32000

def thinkingBudgetHeadroomTokens : Int := 1024

def thinkingBudgetMinTokens : Int := 1024

def thinkingMaxOutputTokensOverheadTokens : Int := 4096

def claudeThinkingEffortLowTokens : Int := 1024

def claudeThinkingEffortMediumTokens : Int := 4096

def claudeThinkingEffortHighTokens : Int := defaultClaudeThinkingBudgetTokens

/-- `canonical_model_id` (model.rs lines 15-19). -/
def canonicalModelId (model : String) : String :=
  strTrim (stripModelsPrefix (strTrim model))

/-- `canonical_lower` (model.rs lines 21-23). -/
def canonicalLower (model : String) : String := strToLower (canonicalModelId model)

/-- `is_claude` (model.rs lines 38-40). -/
def isClaude (model : String) : Bool := strStartsWith (canonicalLower model) "claude-"

/-- `is_gemini` (model.rs lines 42-44). -/
def isGemini (model : String) : Bool := strStartsWith (canonicalLower model) "gemini-"

/-- `is_gemini3` (model.rs lines 46-49). -/
def isGemini3 (model : String) : Bool :=
  strStartsWith (canonicalLower model) "gemini-3-" ||
    strStartsWith (canonicalLower model) "gemini-3"

/-- `is_gemini25` (model.rs lines 51-54). -/
def isGemini25 (model : String) : Bool :=
  strStartsWith (canonicalLower model) "gemini-2.5-" ||
    strStartsWith (canonicalLower model) "gemini-2.5"

/-- `is_claude_thinking` (model.rs lines 78-84). -/
def isClaudeThinking (model : String) : Bool :=
  if ¬ strStartsWith (canonicalLower model) "claude-" then false
  else strEndsWith (canonicalLower model) "-thinking" ||
    strContainsSub (canonicalLower model) "-thinking-"

/-- `gemini3_flash_thinking_config` (model.rs lines 98-117);
`"gemini-3-flash-thinking"` has 23 characters. -/
def gemini3FlashThinkingConfig (model : String) : Option (String × String) :=
  let m := strToLower (strTrim (stripModelsPrefix (strTrim model)))
  if m = "" then none
  else if strStartsWith m "gemini-3-flash-thinking" then
    some ("high", "gemini-3-flash" ++ strDrop m 23)
  else if strStartsWith m "gemini-3-flash" then some ("", m)
  else none

/-- `is_gemini3_flash` (model.rs lines 90-92). -/
def isGemini3Flash (model : String) : Bool :=
  (gemini3FlashThinkingConfig model).isSome

/-- `claude_opus45_thinking_config` (model.rs lines 119-138);
`"claude-opus-4-5"` has 15 characters. -/
def claudeOpus45ThinkingConfig (model : String) : Option (Int × String) :=
  let m := strToLower (strTrim (stripModelsPrefix (strTrim model)))
  if m = "" then none
  else if strStartsWith m "claude-opus-4-5-thinking" then
    some (defaultClaudeThinkingBudgetTokens, m)
  else if strStartsWith m "claude-opus-4-5" then
    some (0, "claude-opus-4-5-thinking" ++ strDrop m 15)
  else none

/-- `claude_sonnet45_thinking_budget` (model.rs lines 140-158). -/
def claudeSonnet45ThinkingBudget (model : String) : Option Int :=
  let m := strToLower (strTrim (stripModelsPrefix (strTrim model)))
  if m = "" then none
  else if strStartsWith m "claude-sonnet-4-5-thinking" then
    some defaultClaudeThinkingBudgetTokens
  else if strStartsWith m "claude-sonnet-4-5" then some 0
  else none

/-- `ThinkingConfig` from `src/vertex/types.rs`. -/
structure ThinkingConfig where
  include_thoughts : Bool
  thinking_level : String
  thinking_budget : Int
deriving Repr, DecidableEq

/-- `forced_thinking_config` (model.rs lines 175-209). -/
def forcedThinkingConfig (model : String) : Option ThinkingConfig :=
  match gemini3FlashThinkingConfig model with
  | some (level, _) =>
    if level = "high" then
      some { include_thoughts := true, thinking_level := "high", thinking_budget := 0 }
    else
      some { include_thoughts := true, thinking_level := "", thinking_budget := 0 }
  | none =>
    match claudeSonnet45ThinkingBudget model with
    | some budget =>
      some { include_thoughts := true, thinking_level := "", thinking_budget := budget }
    | none =>
      match claudeOpus45ThinkingConfig model with
      | some (budget, _) =>
        some { include_thoughts := true, thinking_level := "", thinking_budget := budget }
      | none => none

/-- `map_effort_to_budget` (model.rs lines 424-431). -/
def mapEffortToBudget (effort : String) : Int :=
  let e := strToLower (strTrim effort)
  if e = "minimal" ∨ e = "low" then claudeThinkingEffortLowTokens
  else if e = "medium" then claudeThinkingEffortMediumTokens
  else claudeThinkingEffortHighTokens

/-- `map_gemini25_effort_to_budget` (model.rs lines 433-436). -/
def mapGemini25EffortToBudget (_effort : String) : Int :=
  claudeThinkingEffortLowTokens

/-- `thinking_config_from_claude` (model.rs lines 272-320). -/
def thinkingConfigFromClaude (model thinkingType : String)
    (budget budgetTokens : Int) : Option ThinkingConfig :=
  match forcedThinkingConfig model with
  | some tc => some tc
  | none =>
    if strToLower (strTrim thinkingType) ≠ "enabled" then none
    else if isClaude model then
      let b0 := if budget ≤ 0 then budgetTokens else budget
      let b := if b0 ≤ 0 then defaultClaudeThinkingBudgetTokens else b0
      some { include_thoughts := true, thinking_level := "", thinking_budget := b }
    else if isGemini3 model then
      some { include_thoughts := true, thinking_level := "high", thinking_budget := 0 }
    else
      let b := if budget ≤ 0 then budgetTokens else budget
      some { include_thoughts := true, thinking_level := "",
             thinking_budget := if b > 0 then b else 0 }

/-- `thinking_config_from_openai` (model.rs lines 211-270). -/
def thinkingConfigFromOpenai (model reasoningEffort : String) : Option ThinkingConfig :=
  match forcedThinkingConfig model with
  | some tc => some tc
  | none =>
    let effort := strToLower (strTrim reasoningEffort)
    if effort = "" ∧ isClaudeThinking model then
      some { include_thoughts := true, thinking_level := "",
             thinking_budget := defaultClaudeThinkingBudgetTokens }
    else if isGemini3 model ∧ ¬ isGemini3Flash model then
      some { include_thoughts := true, thinking_level := "high", thinking_budget := 0 }
    else if effort = "" then none
    else if isClaudeThinking model ∨ isGemini25 model then
      match strParseInt effort with
      | some n =>
        if n > 0 then
          some { include_thoughts := true, thinking_level := "", thinking_budget := n }
        else if isClaudeThinking model then
          some { include_thoughts := true, thinking_level := "",
                 thinking_budget := mapEffortToBudget effort }
        else
          some { include_thoughts := true, thinking_level := "",
                 thinking_budget := mapGemini25EffortToBudget effort }
      | none =>
        if isClaudeThinking model then
          some { include_thoughts := true, thinking_level := "",
                 thinking_budget := mapEffortToBudget effort }
        else
          some { include_thoughts := true, thinking_level := "",
                 thinking_budget := mapGemini25EffortToBudget effort }
    else
      some { include_thoughts := true, thinking_level := effort, thinking_budget := 0 }

/-- The fields of `generation_config` that the thinking-budget claim
touches (`GenerationConfig`, src/vertex/types.rs); `temperature`, `top_p`,
`stop_sequences`, `image_config` and `media_resolution` do not interact
with the budget clamp and are omitted. -/
structure GenerationConfig where
  max_output_tokens : Int
  thinking_config : Option ThinkingConfig
deriving Repr, DecidableEq

/-- The thinking-budget compatibility block shared verbatim by
`build_generation_config` in gateway/claude/convert.rs (lines 140-166) and
gateway/openai/convert.rs (lines 440-466): when a positive budget is
present, an unset (≤ 0) `max_output_tokens` becomes `budget + 4096`; for
Claude the budget is clamped to `max − 1024` (clamp bound floored at 1024);
for Gemini with `max ≤ budget` the budget is set to that same bound; for
other models with `max ≤ budget` the max is raised to `budget + 4096`. -/
def applyBudgetClamp (isC isG : Bool) (gc : GenerationConfig) : GenerationConfig :=
  match gc.thinking_config with
  | none => gc
  | some t =>
    if t.thinking_budget > 0 then
      let maxOut :=
        if gc.max_output_tokens ≤ 0 then
          t.thinking_budget + thinkingMaxOutputTokensOverheadTokens
        else gc.max_output_tokens
      if isC then
        let mb0 := maxOut - thinkingBudgetHeadroomTokens
        let mb := if mb0 < thinkingBudgetMinTokens then thinkingBudgetMinTokens else mb0
        { max_output_tokens := maxOut,
          thinking_config := some { t with thinking_budget :=
            if t.thinking_budget > mb then mb else t.thinking_budget } }
      else if isG ∧ maxOut ≤ t.thinking_budget then
        let mb0 := maxOut - thinkingBudgetHeadroomTokens
        let mb := if mb0 < thinkingBudgetMinTokens then thinkingBudgetMinTokens else mb0
        { max_output_tokens := maxOut,
          thinking_config := some { t with thinking_budget := mb } }
      else if maxOut ≤ t.thinking_budget then
        { max_output_tokens := t.thinking_budget + thinkingMaxOutputTokensOverheadTokens,
          thinking_config := some t }
      else { max_output_tokens := maxOut, thinking_config := some t }
    else gc

/-- The `thinking` request field of the Claude dialect
(gateway/claude/types.rs): `type`, `budget`, `budget_tokens`. -/
structure ClaudeThinkingParam where
  typ : String
  budget : Option Int
  budget_tokens : Option Int
deriving Repr, DecidableEq

/-- `build_generation_config` of gateway/claude/convert.rs (lines 88-186)
restricted to `max_output_tokens` and `thinking_config`. -/
def buildGenerationConfigClaude (model : String) (maxTokens : Int)
    (thinking : Option ClaudeThinkingParam) : GenerationConfig :=
  let maxOut : Int :=
    if isClaude model then claudeMaxOutputTokens
    else if isGemini model then geminiMaxOutputTokens
    else if maxTokens > 0 then maxTokens
    else 8192
  let tc :=
    match thinking with
    | some t =>
      thinkingConfigFromClaude model (strTrim t.typ) (t.budget.getD 0)
        (t.budget_tokens.getD 0)
    | none => forcedThinkingConfig model
  applyBudgetClamp (isClaude model) (isGemini model)
    { max_output_tokens := maxOut, thinking_config := tc }

/-- `build_generation_config` of gateway/openai/convert.rs (lines 398-486)
restricted to `max_output_tokens` and `thinking_config` (the Claude
64000-override runs after the Gemini/caller-value assignment). -/
def buildGenerationConfigOpenai (model0 : String) (maxTokens : Int)
    (reasoningEffort : String) : GenerationConfig :=
  let model := strTrim model0
  let base : Int :=
    if isGemini model then geminiMaxOutputTokens
    else if maxTokens > 0 ∧ ¬ isClaude model then maxTokens
    else 0
  let maxOut : Int := if isClaude model then claudeMaxOutputTokens else base
  applyBudgetClamp (isClaude model) (isGemini model)
    { max_output_tokens := maxOut,
      thinking_config := thinkingConfigFromOpenai model reasoningEffort }

theorem applyBudgetClamp_spec (isC isG : Bool) (gc : GenerationConfig)
    (hC : isC = true → gc.max_output_tokens = 64000)
    (hG : isC = false → isG = true → gc.max_output_tokens = 65535) :
    ∀ tc, (applyBudgetClamp isC isG gc).thinking_config = some tc →
      0 < tc.thinking_budget →
      tc.thinking_budget < (applyBudgetClamp isC isG gc).max_output_tokens ∧
      (isC = true →
        tc.thinking_budget ≤ (applyBudgetClamp isC isG gc).max_output_tokens - 1024) := by
  intro tc htc hpos
  cases hcfg : gc.thinking_config with
  | none =>
    simp only [applyBudgetClamp, hcfg] at htc
    cases htc
  | some t =>
    by_cases hb : t.thinking_budget > 0
    · simp only [applyBudgetClamp, hcfg, thinkingBudgetHeadroomTokens,
        thinkingBudgetMinTokens, thinkingMaxOutputTokensOverheadTokens] at htc ⊢
      rw [if_pos hb] at htc ⊢
      cases isC with
      | true =>
        have h64 : gc.max_output_tokens = 64000 := hC rfl
        rw [h64] at htc ⊢
        rw [if_neg (by norm_num : ¬ ((64000:Int) ≤ 0))] at htc ⊢
        rw [if_pos rfl] at htc ⊢
        rw [if_neg (by norm_num : ¬ ((64000:Int) - 1024 < 1024))] at htc ⊢
        have h := Option.some_inj.mp htc
        subst h
        simp only at hpos ⊢
        constructor
        · split_ifs <;> omega
        · intro _
          split_ifs <;> omega
      | false =>
        rw [if_neg (by simp : ¬ (false = true))] at htc ⊢
        cases isG with
        | true =>
          have h65 : gc.max_output_tokens = 65535 := hG rfl rfl
          rw [h65] at htc ⊢
          rw [if_neg (by norm_num : ¬ ((65535:Int) ≤ 0))] at htc ⊢
          by_cases hle : (65535 : Int) ≤ t.thinking_budget
          · rw [if_pos ⟨rfl, hle⟩] at htc ⊢
            rw [if_neg (by norm_num : ¬ ((65535:Int) - 1024 < 1024))] at htc ⊢
            have h := Option.some_inj.mp htc
            subst h
            simp only at hpos ⊢
            constructor
            · omega
            · intro h'
              cases h'
          · rw [if_neg (fun hpair => hle hpair.2)] at htc ⊢
            rw [if_neg hle] at htc ⊢
            have h := Option.some_inj.mp htc
            subst h
            simp only at hpos ⊢
            constructor
            · omega
            · intro h'
              cases h'
        | false =>
          by_cases hm0 : gc.max_output_tokens ≤ 0
          · rw [if_pos hm0] at htc ⊢
            rw [if_neg (by simp : ¬ ((false = true) ∧
              t.thinking_budget + 4096 ≤ t.thinking_budget))] at htc ⊢
            rw [if_neg (by omega : ¬ (t.thinking_budget + 4096 ≤ t.thinking_budget))]
              at htc ⊢
            have h := Option.some_inj.mp htc
            subst h
            simp only at hpos ⊢
            constructor
            · omega
            · intro h'
              cases h'
          · rw [if_neg hm0] at htc ⊢
            by_cases hle : gc.max_output_tokens ≤ t.thinking_budget
            · rw [if_neg (by simp : ¬ ((false = true) ∧
                gc.max_output_tokens ≤ t.thinking_budget))] at htc ⊢
              rw [if_pos hle] at htc ⊢
              have h := Option.some_inj.mp htc
              subst h
              simp only at hpos ⊢
              constructor
              · omega
              · intro h'
                cases h'
            · rw [if_neg (by simp : ¬ ((false = true) ∧
                gc.max_output_tokens ≤ t.thinking_budget))] at htc ⊢
              rw [if_neg hle] at htc ⊢
              have h := Option.some_inj.mp htc
              subst h
              simp only at hpos ⊢
              constructor
              · omega
              · intro h'
                cases h'
    · simp only [applyBudgetClamp, hcfg] at htc ⊢
      rw [if_neg hb] at htc ⊢
      rw [hcfg] at htc
      have h := Option.some_inj.mp htc
      subst h
      omega

def c8Thinking : Option ClaudeThinkingParam :=
  some { typ := "enabled", budget := some 62976, budget_tokens := none }

def c8Tc : ThinkingConfig :=
  { include_thoughts := true, thinking_level := "", thinking_budget := 62976 }

def c8OTc : ThinkingConfig :=
  { include_thoughts := true, thinking_level := "", thinking_budget := 10000 }

/-- C8 counterexample: a Claude-family request (`claude-haiku-3-5`, outside
the forced-thinking families) with `budget = 62976` yields
`thinking_budget = 62976` and `max_output_tokens = 64000`, and
`64000 < 62976 + 1024 + 4096`: the claimed bound
`max_output_tokens ≥ thinking_budget + headroom + overhead` fails. -/
theorem c8_thinking_budget_counterexample :
    (buildGenerationConfigClaude "claude-haiku-3-5" 0 c8Thinking).thinking_config =
      some c8Tc ∧
    (buildGenerationConfigClaude "claude-haiku-3-5" 0 c8Thinking).max_output_tokens =
      64000 ∧
    ¬ ((buildGenerationConfigClaude "claude-haiku-3-5" 0 c8Thinking).max_output_tokens ≥
        c8Tc.thinking_budget + 1024 + 4096) := by
  refine ⟨by decide, by decide, by decide⟩

/-- C8 (amended): for every translated request whose `thinking_budget` is
positive, the resulting generation config satisfies
`max_output_tokens > thinking_budget` (the unset case is raised to
`thinking_budget + 4096`), and for Claude-family models the budget is
clamped so `thinking_budget ≤ max_output_tokens − 1024` (the clamp bound
itself never drops below 1024).  The claimed stronger bound
`max_output_tokens ≥ thinking_budget + 1024 + 4096` does not hold (see the
counterexample). -/
theorem c8_thinking_budget_compat (model : String) (maxTokens : Int)
    (thinking : Option ClaudeThinkingParam) (reasoningEffort : String) :
    (∀ tc, (buildGenerationConfigClaude model maxTokens thinking).thinking_config =
        some tc →
      0 < tc.thinking_budget →
      tc.thinking_budget <
        (buildGenerationConfigClaude model maxTokens thinking).max_output_tokens ∧
      (isClaude model = true →
        tc.thinking_budget ≤
          (buildGenerationConfigClaude model maxTokens thinking).max_output_tokens -
            1024)) ∧
    (∀ tc, (buildGenerationConfigOpenai model maxTokens reasoningEffort).thinking_config =
        some tc →
      0 < tc.thinking_budget →
      tc.thinking_budget <
        (buildGenerationConfigOpenai model maxTokens reasoningEffort).max_output_tokens ∧
      (isClaude (strTrim model) = true →
        tc.thinking_budget ≤
          (buildGenerationConfigOpenai model maxTokens reasoningEffort).max_output_tokens -
            1024)) := by
  constructor
  · intro tc htc hpos
    simp only [buildGenerationConfigClaude] at htc ⊢
    exact applyBudgetClamp_spec (isClaude model) (isGemini model) _
      (fun h => by simp [h, claudeMaxOutputTokens])
      (fun h1 h2 => by simp [h1, h2, geminiMaxOutputTokens])
      tc htc hpos
  · intro tc htc hpos
    simp only [buildGenerationConfigOpenai] at htc ⊢
    exact applyBudgetClamp_spec (isClaude (strTrim model)) (isGemini (strTrim model)) _
      (fun h => by simp [h, claudeMaxOutputTokens])
      (fun h1 h2 => by simp [h1, h2, geminiMaxOutputTokens])
      tc htc hpos

theorem c8_thinking_budget_compat_witness :
    ((buildGenerationConfigClaude "claude-haiku-3-5" 0 c8Thinking).thinking_config =
        some c8Tc ∧ 0 < c8Tc.thinking_budget) ∧
    (c8Tc.thinking_budget <
        (buildGenerationConfigClaude "claude-haiku-3-5" 0 c8Thinking).max_output_tokens ∧
      (isClaude "claude-haiku-3-5" = true →
        c8Tc.thinking_budget ≤
          (buildGenerationConfigClaude "claude-haiku-3-5" 0
            c8Thinking).max_output_tokens - 1024)) ∧
    (c8OTc.thinking_budget <
        (buildGenerationConfigOpenai "claude-haiku-3-5-thinking" 0
          "10000").max_output_tokens ∧
      (isClaude (strTrim "claude-haiku-3-5-thinking") = true →
        c8OTc.thinking_budget ≤
          (buildGenerationConfigOpenai "claude-haiku-3-5-thinking" 0
            "10000").max_output_tokens - 1024)) :=
  ⟨⟨by decide, by decide⟩,
    (c8_thinking_budget_compat "claude-haiku-3-5" 0 c8Thinking "").1 c8Tc
      (by decide) (by decide),
    (c8_thinking_budget_compat "claude-haiku-3-5-thinking" 0 none "10000").2 c8OTc
      (by decide) (by decide)⟩

/-! ## C7: the Vertex JSON-Schema sanitiser (src/vertex/sanitize.rs)

JSON values (`sonic_rs::Value`) are modelled by the inductive `JVal`:
objects are association lists in document order (sonic_rs keeps insertion
order; duplicate keys inside one object are treated with map semantics:
`get` returns the first occurrence, `insert` overwrites the first
occurrence in place, `remove` deletes every occurrence), numbers are
rationals (`f64` arithmetic in the sanitiser is exact on the values it
manipulates; non-finite floats cannot be stored in a `sonic_rs::Number`
and are conflated with parse failures, which leads to the same removals). -/

inductive JVal where
  | null
  | bool (b : Bool)
  | num (q : ℚ)
  | str (s : String)
  | arr (xs : List JVal)
  | obj (kvs : List (String × JVal))

/-- `sonic_rs::Object::get`: first entry with the key. -/
def JObj.get : List (String × JVal) → String → Option JVal
  | [], _ => none
  | (k', v) :: rest, k => if k' = k then some v else JObj.get rest k

/-- `sonic_rs::Object::remove` (map semantics: every entry with the key). -/
def JObj.removeKey : List (String × JVal) → String → List (String × JVal)
  | [], _ => []
  | (k', v) :: rest, k =>
    if k' = k then JObj.removeKey rest k else (k', v) :: JObj.removeKey rest k

/-- `sonic_rs::Object::insert`: overwrite the first entry with the key in
place, else append at the end (document order is preserved). -/
def JObj.insertKey : List (String × JVal) → String → JVal → List (String × JVal)
  | [], k, v => [(k, v)]
  | (k', v') :: rest, k, v =>
    if k' = k then (k, v) :: rest else (k', v') :: JObj.insertKey rest k v

mutual

/-- Nesting depth of a JSON value (0 for scalars). -/
def jdepth : JVal → Nat
  | .null => 0
  | .bool _ => 0
  | .num _ => 0
  | .str _ => 0
  | .arr xs => 1 + jdepthList xs
  | .obj kvs => 1 + jdepthKvs kvs

/-- Maximal depth of the values of a JSON array. -/
def jdepthList : List JVal → Nat
  | [] => 0
  | x :: xs => max (jdepth x) (jdepthList xs)

/-- Maximal depth of the values of a JSON object. -/
def jdepthKvs : List (String × JVal) → Nat
  | [] => 0
  | kv :: rest => max (jdepth kv.2) (jdepthKvs rest)

end

theorem JObj.get_insertKey_self (o : List (String × JVal)) (k : String) (v : JVal) :
    JObj.get (JObj.insertKey o k v) k = some v := by
  induction o with
  | nil => simp [JObj.insertKey, JObj.get]
  | cons kv rest ih =>
    obtain ⟨k', v'⟩ := kv
    by_cases h : k' = k
    · simp [JObj.insertKey, JObj.get, h]
    · simp [JObj.insertKey, JObj.get, h, ih]

theorem JObj.get_insertKey_ne (o : List (String × JVal)) (k k' : String) (v : JVal)
    (h : k' ≠ k) : JObj.get (JObj.insertKey o k v) k' = JObj.get o k' := by
  induction o with
  | nil => simp only [JObj.insertKey, JObj.get, if_neg (Ne.symm h)]
  | cons kv rest ih =>
    obtain ⟨k0, v0⟩ := kv
    by_cases h0 : k0 = k
    · have hk0 : ¬ k0 = k' := fun hh => h (hh ▸ h0)
      simp only [JObj.insertKey, if_pos h0, JObj.get, if_neg (Ne.symm h), if_neg hk0]
    · by_cases h1 : k0 = k'
      · simp only [JObj.insertKey, if_neg h0, JObj.get, if_pos h1]
      · simp only [JObj.insertKey, if_neg h0, JObj.get, if_neg h1, ih]

theorem JObj.get_removeKey_self (o : List (String × JVal)) (k : String) :
    JObj.get (JObj.removeKey o k) k = none := by
  induction o with
  | nil => simp [JObj.removeKey, JObj.get]
  | cons kv rest ih =>
    obtain ⟨k', v'⟩ := kv
    by_cases h : k' = k
    · simp only [JObj.removeKey, if_pos h]
      exact ih
    · simp only [JObj.removeKey, if_neg h, JObj.get, if_neg h]
      exact ih

theorem JObj.get_removeKey_ne (o : List (String × JVal)) (k k' : String)
    (h : k' ≠ k) : JObj.get (JObj.removeKey o k) k' = JObj.get o k' := by
  induction o with
  | nil => simp [JObj.removeKey]
  | cons kv rest ih =>
    obtain ⟨k0, v0⟩ := kv
    by_cases h0 : k0 = k
    · have hk0 : ¬ k0 = k' := fun hh => h (hh ▸ h0)
      simp only [JObj.removeKey, if_pos h0, JObj.get, if_neg hk0]
      exact ih
    · by_cases h1 : k0 = k'
      · simp only [JObj.removeKey, if_neg h0, JObj.get, if_pos h1]
      · simp only [JObj.removeKey, if_neg h0, JObj.get, if_neg h1]
        exact ih

/-- A key absent from an object: there is no entry carrying it. -/
theorem JObj.get_eq_none_iff (o : List (String × JVal)) (k : String) :
    JObj.get o k = none ↔ ∀ kv ∈ o, kv.1 ≠ k := by
  induction o with
  | nil => simp [JObj.get]
  | cons kv rest ih =>
    obtain ⟨k', v'⟩ := kv
    by_cases h : k' = k
    · simp [JObj.get, h]
    · simp [JObj.get, h, ih]

theorem JObj.removeKey_of_get_none (o : List (String × JVal)) (k : String)
    (h : JObj.get o k = none) : JObj.removeKey o k = o := by
  induction o with
  | nil => simp [JObj.removeKey]
  | cons kv rest ih =>
    obtain ⟨k', v'⟩ := kv
    by_cases h0 : k' = k
    · simp [JObj.get, h0] at h
    · simp [JObj.get, h0] at h
      simp [JObj.removeKey, h0, ih h]

theorem JObj.insertKey_of_get_self (o : List (String × JVal)) (k : String) (v : JVal)
    (h : JObj.get o k = some v) : JObj.insertKey o k v = o := by
  induction o with
  | nil => simp [JObj.get] at h
  | cons kv rest ih =>
    obtain ⟨k', v'⟩ := kv
    by_cases h0 : k' = k
    · subst h0
      simp [JObj.get] at h
      simp [JObj.insertKey, h]
    · simp [JObj.get, h0] at h
      simp [JObj.insertKey, h0, ih h]

theorem JObj.mem_removeKey (o : List (String × JVal)) (k : String) (kv : String × JVal)
    (h : kv ∈ JObj.removeKey o k) : kv ∈ o := by
  induction o with
  | nil => simp [JObj.removeKey] at h
  | cons kv0 rest ih =>
    obtain ⟨k', v'⟩ := kv0
    by_cases h0 : k' = k
    · simp only [JObj.removeKey, if_pos h0] at h
      exact List.mem_cons_of_mem _ (ih h)
    · simp only [JObj.removeKey, if_neg h0, List.mem_cons] at h
      rcases h with h | h
      · exact h ▸ List.mem_cons_self _ _
      · exact List.mem_cons_of_mem _ (ih h)

theorem JObj.mem_insertKey (o : List (String × JVal)) (k : String) (v : JVal)
    (kv : String × JVal) (h : kv ∈ JObj.insertKey o k v) :
    kv ∈ o ∨ kv = (k, v) := by
  induction o with
  | nil => simp [JObj.insertKey] at h; right; exact h
  | cons kv0 rest ih =>
    obtain ⟨k', v'⟩ := kv0
    by_cases h0 : k' = k
    · simp only [JObj.insertKey, if_pos h0, List.mem_cons] at h
      rcases h with h | h
      · right; exact h
      · left; exact List.mem_cons_of_mem _ h
    · simp only [JObj.insertKey, if_neg h0, List.mem_cons] at h
      rcases h with h | h
      · left; exact h ▸ List.mem_cons_self _ _
      · rcases ih h with h | h
        · left; exact List.mem_cons_of_mem _ h
        · right; exact h

theorem JObj.get_mem (o : List (String × JVal)) (k : String) (v : JVal)
    (h : JObj.get o k = some v) : (k, v) ∈ o := by
  induction o with
  | nil => simp [JObj.get] at h
  | cons kv rest ih =>
    obtain ⟨k', v'⟩ := kv
    by_cases h0 : k' = k
    · subst h0
      simp [JObj.get] at h
      subst h
      exact List.mem_cons_self _ _
    · simp [JObj.get, h0] at h
      exact List.mem_cons_of_mem _ (ih h)

/-- Depth of a value stored in an object. -/
theorem jdepth_le_of_mem (kvs : List (String × JVal)) (kv : String × JVal)
    (h : kv ∈ kvs) : jdepth kv.2 ≤ jdepthKvs kvs := by
  induction kvs with
  | nil => simp at h
  | cons kv0 rest ih =>
    rcases List.mem_cons.mp h with h | h
    · subst h; simp [jdepthKvs]
    · simp only [jdepthKvs]
      exact le_trans (ih h) (le_max_right _ _)

theorem jdepth_le_of_mem_list (xs : List JVal) (x : JVal) (h : x ∈ xs) :
    jdepth x ≤ jdepthList xs := by
  induction xs with
  | nil => simp at h
  | cons x0 rest ih =>
    rcases List.mem_cons.mp h with h | h
    · subst h; simp [jdepthList]
    · simp only [jdepthList]
      exact le_trans (ih h) (le_max_right _ _)

theorem jdepth_get_le (o : List (String × JVal)) (k : String) (v : JVal)
    (h : JObj.get o k = some v) : jdepth v ≤ jdepthKvs o :=
  jdepth_le_of_mem o (k, v) (JObj.get_mem o k v h)

theorem jdepthKvs_insertKey (o : List (String × JVal)) (k : String) (v : JVal) :
    jdepthKvs (JObj.insertKey o k v) ≤ max (jdepth v) (jdepthKvs o) := by
  induction o with
  | nil => simp [JObj.insertKey, jdepthKvs]
  | cons kv rest ih =>
    obtain ⟨k', v'⟩ := kv
    by_cases h : k' = k
    · simp only [JObj.insertKey, if_pos h, jdepthKvs]
      omega
    · simp only [JObj.insertKey, if_neg h, jdepthKvs]
      omega

theorem jdepthKvs_removeKey (o : List (String × JVal)) (k : String) :
    jdepthKvs (JObj.removeKey o k) ≤ jdepthKvs o := by
  induction o with
  | nil => simp [JObj.removeKey]
  | cons kv rest ih =>
    obtain ⟨k', v'⟩ := kv
    by_cases h : k' = k
    · simp only [JObj.removeKey, if_pos h, jdepthKvs]
      omega
    · simp only [JObj.removeKey, if_neg h, jdepthKvs]
      omega

theorem jdepthList_append (xs ys : List JVal) :
    jdepthList (xs ++ ys) = max (jdepthList xs) (jdepthList ys) := by
  induction xs with
  | nil => simp [jdepthList]
  | cons x rest ih =>
    show jdepthList (x :: (rest ++ ys)) = max (jdepthList (x :: rest)) (jdepthList ys)
    rw [jdepthList, jdepthList, ih]
    exact (max_assoc _ _ _).symm

/-- Rust `str::to_uppercase` as used on schema type names.  Lean's
`Char.toUpper` folds exactly the ASCII range, so Unicode case mapping of
non-ASCII letters is modelled as the identity (type names are ASCII). -/
def strToUpper (s : String) : String := ⟨s.data.map Char.toUpper⟩

/-- Rust `str::eq_ignore_ascii_case`. -/
def eqIgnoreAsciiCase (a b : String) : Bool := strToLower a = strToLower b

/-- Digits of a decimal literal read into a natural number. -/
def digitsToNat (ds : List Char) : Nat :=
  ds.foldl (fun a c => a * 10 + (c.toNat - 48)) 0

/-- Rust `str::parse::<f64>` on the grammar `sign? digits? ('.' digits?)?
(e|E sign? digits)?` with at least one mantissa digit, read exactly into a
rational (the f64 rounding of the sanitiser's numeric normalisation is
idealised away).  The special forms `inf`/`infinity`/`nan` parse to
non-finite floats, which `sonic_rs::Number::from_f64` then rejects; both
are conflated into a parse failure, producing the same removals. -/
def parseFloatQ (s : String) : Option ℚ :=
  let p0 := s.data
  let sgn : ℚ := match p0 with | '-' :: _ => -1 | _ => 1
  let p1 := match p0 with
    | '+' :: r => r
    | '-' :: r => r
    | r => r
  let ip := p1.takeWhile Char.isDigit
  let p2 := p1.dropWhile Char.isDigit
  let fpOpt : Option (List Char) := match p2 with
    | '.' :: r => some (r.takeWhile Char.isDigit)
    | _ => none
  let p3 := match p2 with
    | '.' :: r => r.dropWhile Char.isDigit
    | r => r
  let fp := fpOpt.getD []
  if ip.isEmpty && fp.isEmpty then none
  else
    let mant : ℚ := (digitsToNat ip : ℚ) + (digitsToNat fp : ℚ) / ((10 : ℚ) ^ fp.length)
    match p3 with
    | [] => some (sgn * mant)
    | e :: r =>
      if e = 'e' ∨ e = 'E' then
        let eneg : Bool := match r with | '-' :: _ => true | _ => false
        let r1 := match r with
          | '+' :: rr => rr
          | '-' :: rr => rr
          | rr => rr
        let ed := r1.takeWhile Char.isDigit
        let r2 := r1.dropWhile Char.isDigit
        if ed.isEmpty ∨ ¬ r2.isEmpty then none
        else if eneg then some (sgn * mant / ((10 : ℚ) ^ digitsToNat ed))
        else some (sgn * mant * ((10 : ℚ) ^ digitsToNat ed))
      else none

/-- Display string of a non-integral double (`format!("\x7bf\x7d")` after
`trim_trailing_dot_zero`).  The sanitiser only ever carries these strings
along unchanged, so the exact digit rendering is immaterial; it is
modelled as numerator/denominator text. -/
def ratDisplay (q : ℚ) : String := toString q.num ++ "/" ++ toString q.den

mutual

/-- JSON serialisation (`sonic_rs::Value::to_string`), reached only for
enum members that are neither strings, booleans nor numbers.  String
escaping is immaterial here and is not modelled. -/
def jsonRender : JVal → String
  | .null => "null"
  | .bool b => if b then "true" else "false"
  | .num q => if q.den = 1 then toString q.num else ratDisplay q
  | .str s => "\"" ++ s ++ "\""
  | .arr xs => "[" ++ jsonRenderList xs ++ "]"
  | .obj kvs => "\x7b" ++ jsonRenderObj kvs ++ "\x7d"

/-- Comma-separated serialisation of array elements. -/
def jsonRenderList : List JVal → String
  | [] => ""
  | [x] => jsonRender x
  | x :: xs => jsonRender x ++ "," ++ jsonRenderList xs

/-- Comma-separated serialisation of object entries. -/
def jsonRenderObj : List (String × JVal) → String
  | [] => ""
  | [(k, v)] => "\"" ++ k ++ "\":" ++ jsonRender v
  | (k, v) :: rest => "\"" ++ k ++ "\":" ++ jsonRender v ++ "," ++ jsonRenderObj rest

end

/-- Rust `normalize_vertex_type` (sanitize.rs lines 394-412). -/
def normalizeVertexType (t : String) : Option String :=
  let l := strToLower (strTrim t)
  if l = "object" then some "OBJECT"
  else if l = "array" then some "ARRAY"
  else if l = "string" then some "STRING"
  else if l = "integer" ∨ l = "int" then some "INTEGER"
  else if l = "number" then some "NUMBER"
  else if l = "boolean" ∨ l = "bool" then some "BOOLEAN"
  else if l = "null" then some "NULL"
  else
    let up := strToUpper (strTrim t)
    if up = "TYPE_UNSPECIFIED" ∨ up = "STRING" ∨ up = "NUMBER" ∨ up = "INTEGER" ∨
        up = "BOOLEAN" ∨ up = "ARRAY" ∨ up = "OBJECT" ∨ up = "NULL" then some up
    else none

/-- The string an enum member is normalised to (sanitize.rs lines 417-439:
`as_str`, `as_bool`, `as_i64`/`as_u64`, `as_f64`, then JSON text).
Integral numbers render as integers on every path. -/
def enumElemString : JVal → String
  | .str s => s
  | .bool b => if b then "true" else "false"
  | .num q => if q.den = 1 then toString q.num else ratDisplay q
  | v => jsonRender v

/-- Rust `normalize_enum` (sanitize.rs lines 414-445). -/
def normalizeEnum : JVal → Option JVal
  | .arr xs => some (.arr (xs.map (fun it => .str (enumElemString it))))
  | _ => none

/-- Rust `normalize_string_array` (sanitize.rs lines 447-468). -/
def normalizeStringArray : JVal → Option JVal
  | .arr xs =>
    let out := xs.filterMap (fun it =>
      match it with
      | .str s =>
        let t := strTrim s
        if t = "" then none else some t
      | _ => none)
    if out.isEmpty then none else some (.arr (out.map JVal.str))
  | _ => none

/-- Rust `to_f64` (sanitize.rs lines 563-578): numbers read directly,
strings trimmed and parsed, everything else fails. -/
def toF64 : JVal → Option ℚ
  | .num q => some q
  | .str s => parseFloatQ (strTrim s)
  | _ => none

/-- Rust `is_whole_number` (sanitize.rs lines 596-598); the cast through
`i64` is exact for the magnitudes a schema bound can carry. -/
def isWholeNumber (q : ℚ) : Bool := q.den = 1

/-- Rust `adjust_exclusive` (sanitize.rs lines 585-594): widen a whole
exclusive bound by one on INTEGER schemas. -/
def adjustExclusive (bound : ℚ) (o : List (String × JVal)) (isMin : Bool) : ℚ :=
  let t := match JObj.get o "type" with
    | some (.str s) => s
    | _ => ""
  if eqIgnoreAsciiCase t "INTEGER" && isWholeNumber bound then
    if isMin then bound + 1 else bound - 1
  else bound

/-- Early metadata removal (sanitize.rs lines 107-110). -/
def stageMeta (o : List (String × JVal)) : List (String × JVal) :=
  JObj.removeKey (JObj.removeKey (JObj.removeKey (JObj.removeKey o
    "$schema") "$id") "$anchor") "$comment"

/-- One rename step: pop `src` and keep its value under `dst` unless `dst`
is already present (sanitize.rs lines 113-127). -/
def renameInto (o : List (String × JVal)) (src dst : String) : List (String × JVal) :=
  match JObj.get o src with
  | none => o
  | some v =>
    let o1 := JObj.removeKey o src
    if (JObj.get o1 dst).isNone then JObj.insertKey o1 dst v else o1

/-- The `$ref`/`$defs`/`definitions` renames, in source order. -/
def stageRenames (o : List (String × JVal)) : List (String × JVal) :=
  renameInto (renameInto (renameInto o "$ref" "ref") "$defs" "defs") "definitions" "defs"

/-- Conversion of `oneOf` into `anyOf` (sanitize.rs lines 130-140). -/
def stageOneOf (o : List (String × JVal)) : List (String × JVal) :=
  match JObj.get o "oneOf" with
  | none => o
  | some oneOf =>
    let o1 := JObj.removeKey o "oneOf"
    match JObj.get o1 "anyOf" with
    | none => JObj.insertKey o1 "anyOf" oneOf
    | some anyOfV =>
      match anyOfV, oneOf with
      | .arr dst, .arr src => JObj.insertKey o1 "anyOf" (.arr (dst ++ src))
      | _, _ => o1

/-- Best-effort `allOf` flattening: merge the keys of the first branch that
are not already present (sanitize.rs lines 143-152).  `allOf` is removed
even when its shape is unusable. -/
def stageAllOf (o : List (String × JVal)) : List (String × JVal) :=
  match JObj.get o "allOf" with
  | none => o
  | some allOfV =>
    let o1 := JObj.removeKey o "allOf"
    match allOfV with
    | .arr (first :: _) =>
      match first with
      | .obj firstKvs =>
        firstKvs.foldl (fun acc kv =>
          if (JObj.get acc kv.1).isNone then JObj.insertKey acc kv.1 kv.2 else acc) o1
      | _ => o1
    | _ => o1

/-- Test for `v.as_bool() == Some(true)`. -/
def isBoolTrue : JVal → Bool
  | .bool b => b
  | _ => false

/-- One block of `convert_exclusive_bounds` (sanitize.rs lines 526-542 for
the minimum, 544-560 for the maximum): pop the exclusive bound and derive
the inclusive one. -/
def exclusiveHalf (o : List (String × JVal)) (ex key : String) (isMin : Bool) :
    List (String × JVal) :=
  match JObj.get o ex with
  | none => o
  | some exV =>
    let o1 := JObj.removeKey o ex
    if (JObj.get o1 key).isNone then
      match toF64 exV with
      | some f => JObj.insertKey o1 key (.num (adjustExclusive f o1 isMin))
      | none => o1
    else if isBoolTrue exV then
      match (JObj.get o1 key).bind toF64 with
      | some f => JObj.insertKey o1 key (.num (adjustExclusive f o1 isMin))
      | none => o1
    else o1

/-- Rust `convert_exclusive_bounds` (sanitize.rs lines 525-561). -/
def stageExclusive (o : List (String × JVal)) : List (String × JVal) :=
  exclusiveHalf (exclusiveHalf o "exclusiveMinimum" "minimum" true)
    "exclusiveMaximum" "maximum" false

/-- Rust `normalize_type_field` (sanitize.rs lines 347-392). -/
def stageTypeNorm (o : List (String × JVal)) : List (String × JVal) :=
  match JObj.get o "type" with
  | none => o
  | some raw =>
    match raw with
    | .str s =>
      match normalizeVertexType s with
      | some n => JObj.insertKey o "type" (.str n)
      | none => o
    | .arr xs =>
      let hasNull := xs.any (fun it =>
        match it with
        | .str s => eqIgnoreAsciiCase s "null"
        | _ => false)
      let firstNonNull := xs.findSome? (fun it =>
        match it with
        | .str s => if eqIgnoreAsciiCase s "null" then none else some s
        | _ => none)
      let o1 := if hasNull && (JObj.get o "nullable").isNone then
          JObj.insertKey o "nullable" (.bool true)
        else o
      match firstNonNull with
      | some t =>
        match normalizeVertexType t with
        | some n => JObj.insertKey o1 "type" (.str n)
        | none => JObj.insertKey o1 "type" (.str (strToUpper (strTrim t)))
      | none => JObj.removeKey o1 "type"
    | _ => JObj.removeKey o "type"

/-- Default `type` from the present structure keys (sanitize.rs lines
161-167). -/
def stageTypeDefault (o : List (String × JVal)) : List (String × JVal) :=
  let isStrType := match JObj.get o "type" with
    | some (.str _) => true
    | _ => false
  if isStrType then o
  else if (JObj.get o "properties").isSome then JObj.insertKey o "type" (.str "OBJECT")
  else if (JObj.get o "items").isSome then JObj.insertKey o "type" (.str "ARRAY")
  else o

/-- Enum normalisation (sanitize.rs lines 170-174). -/
def stageEnum (o : List (String × JVal)) : List (String × JVal) :=
  match (JObj.get o "enum").bind normalizeEnum with
  | some v => JObj.insertKey o "enum" v
  | none => JObj.removeKey o "enum"

/-- Required-array normalisation (sanitize.rs lines 177-181). -/
def stageRequired (o : List (String × JVal)) : List (String × JVal) :=
  match (JObj.get o "required").bind normalizeStringArray with
  | some v => JObj.insertKey o "required" v
  | none => JObj.removeKey o "required"

/-- Numeric-bound normalisation for `minimum`/`maximum` (sanitize.rs lines
184-201); `value_from_f64` always succeeds on a finite value. -/
def stageBound (key : String) (o : List (String × JVal)) : List (String × JVal) :=
  match (JObj.get o key).bind toF64 with
  | some f => JObj.insertKey o key (.num f)
  | none => JObj.removeKey o key

/-- Keywords dropped by the removal loop (sanitize.rs lines 204-242). -/
def unsupportedKeys : List String :=
  ["not", "if", "then", "else", "dependentSchemas", "dependentRequired",
   "dependencies", "patternProperties", "propertyNames",
   "unevaluatedProperties", "unevaluatedItems", "prefixItems", "contains",
   "minContains", "maxContains", "multipleOf", "pattern", "format",
   "minItems", "maxItems", "uniqueItems", "minLength", "maxLength",
   "minProperties", "maxProperties", "additionalProperties",
   "contentMediaType", "contentEncoding", "const", "examples", "readOnly",
   "writeOnly", "deprecated", "title", "default"]

/-- The removal loop over `unsupportedKeys`. -/
def stageRemoveUnsupported (o : List (String × JVal)) : List (String × JVal) :=
  unsupportedKeys.foldl JObj.removeKey o

/-- Recursion into `defs` (sanitize.rs lines 245-265): object children are
sanitised by `rec`, non-object children are dropped, a non-object `defs`
is removed. -/
def stageDefsWith (rec : List (String × JVal) → List (String × JVal))
    (o : List (String × JVal)) : List (String × JVal) :=
  match JObj.get o "defs" with
  | some (.obj p) =>
    JObj.insertKey o "defs" (.obj (p.filterMap (fun kv =>
      match kv.2 with
      | .obj c => some (kv.1, JVal.obj (rec c))
      | _ => none)))
  | some _ => JObj.removeKey o "defs"
  | none => o

/-- Recursion into `properties` (sanitize.rs lines 268-288), same shape as
`defs`. -/
def stagePropsWith (rec : List (String × JVal) → List (String × JVal))
    (o : List (String × JVal)) : List (String × JVal) :=
  match JObj.get o "properties" with
  | some (.obj p) =>
    JObj.insertKey o "properties" (.obj (p.filterMap (fun kv =>
      match kv.2 with
      | .obj c => some (kv.1, JVal.obj (rec c))
      | _ => none)))
  | some _ => JObj.removeKey o "properties"
  | none => o

/-- Recursion into `items` (sanitize.rs lines 291-314): an object is
sanitised in place, the first object of an array form is picked and
sanitised, anything else removes the key. -/
def stageItemsWith (rec : List (String × JVal) → List (String × JVal))
    (o : List (String × JVal)) : List (String × JVal) :=
  match JObj.get o "items" with
  | none => o
  | some (.obj c) => JObj.insertKey o "items" (.obj (rec c))
  | some (.arr xs) =>
    match xs.findSome? (fun it =>
      match it with
      | .obj c => some c
      | _ => none) with
    | some c => JObj.insertKey o "items" (.obj (rec c))
    | none => JObj.removeKey o "items"
  | some _ => JObj.removeKey o "items"

/-- Recursion into `anyOf` (sanitize.rs lines 317-342): object members are
sanitised, the rest dropped; an emptied or non-array `anyOf` is removed. -/
def stageAnyOfWith (rec : List (String × JVal) → List (String × JVal))
    (o : List (String × JVal)) : List (String × JVal) :=
  match JObj.get o "anyOf" with
  | none => o
  | some (.arr xs) =>
    let dst := xs.filterMap (fun it =>
      match it with
      | .obj c => some (JVal.obj (rec c))
      | _ => none)
    if dst.isEmpty then JObj.removeKey o "anyOf"
    else JObj.insertKey o "anyOf" (.arr dst)
  | some _ => JObj.removeKey o "anyOf"

/-- Keys accepted by Vertex tool schemas (sanitize.rs lines 476-489). -/
def vertexAllowedKeys : List String :=
  ["type", "properties", "required", "description", "enum", "items",
   "nullable", "minimum", "maximum", "anyOf", "ref", "defs"]

/-- The key-removal loop of `enforce_vertex_schema_allowlist` (sanitize.rs
lines 491-500): `$`-prefixed and non-allow-listed keys are dropped. -/
def filterAllowed (o : List (String × JVal)) : List (String × JVal) :=
  o.filter (fun kv => !(strStartsWith kv.1 "$") && vertexAllowedKeys.contains kv.1)

/-- One final type check: a present non-string value under `k` drops the
key (sanitize.rs lines 503-517). -/
def checkStrKey (o : List (String × JVal)) (k : String) : List (String × JVal) :=
  match JObj.get o k with
  | some (.str _) => o
  | some _ => JObj.removeKey o k
  | none => o

/-- The boolean final check for `nullable` (sanitize.rs lines 518-522). -/
def checkBoolKey (o : List (String × JVal)) (k : String) : List (String × JVal) :=
  match JObj.get o k with
  | some (.bool _) => o
  | some _ => JObj.removeKey o k
  | none => o

/-- The final type checks of `enforce_vertex_schema_allowlist` (sanitize.rs
lines 502-522), in source order. -/
def finalTypeChecks (o : List (String × JVal)) : List (String × JVal) :=
  checkBoolKey (checkStrKey (checkStrKey (checkStrKey o "ref") "type")
    "description") "nullable"

/-- Rust `enforce_vertex_schema_allowlist` (sanitize.rs lines 474-523). -/
def enforceVertexSchemaAllowlist (o : List (String × JVal)) : List (String × JVal) :=
  finalTypeChecks (filterAllowed o)

/-- Rust `sanitize_vertex_schema_in_place` (sanitize.rs lines 105-345),
stage by stage in source order.  The recursion into `defs`, `properties`,
`items` and `anyOf` is driven by a fuel argument; one unit is spent per
nesting level, so any fuel above the value's nesting depth computes the
function the source recursion denotes (the depth strictly decreases into
every child and no stage increases it). -/
def sanitizeObj : Nat → List (String × JVal) → List (String × JVal)
  | 0, o => o
  | fuel + 1, o =>
    let o1 := stageMeta o
    let o2 := stageRenames o1
    let o3 := stageOneOf o2
    let o4 := stageAllOf o3
    let o5 := stageExclusive o4
    let o6 := stageTypeNorm o5
    let o7 := stageTypeDefault o6
    let o8 := stageEnum o7
    let o9 := stageRequired o8
    let o10 := stageBound "minimum" o9
    let o11 := stageBound "maximum" o10
    let o12 := stageRemoveUnsupported o11
    let o13 := stageDefsWith (fun c => sanitizeObj fuel c) o12
    let o14 := stagePropsWith (fun c => sanitizeObj fuel c) o13
    let o15 := stageItemsWith (fun c => sanitizeObj fuel c) o14
    let o16 := stageAnyOfWith (fun c => sanitizeObj fuel c) o15
    enforceVertexSchemaAllowlist o16

/-- Rust `sanitize_function_parameters_schema` (sanitize.rs lines 81-103):
the top-level `HashMap` round-trips through a `sonic_rs` object (modelled
directly as the association list) and is sanitised in place.  Depth plus
one fuel units always suffice. -/
def sanitizeFunctionParametersSchema (schema : List (String × JVal)) :
    List (String × JVal) :=
  sanitizeObj (jdepthKvs schema + 1) schema

theorem char_toUpper_toUpper (c : Char) : c.toUpper.toUpper = c.toUpper := by
  by_cases h : c.toNat ≥ 97 ∧ c.toNat ≤ 122
  · obtain ⟨h1, h2⟩ := h
    have hc : c = Char.ofNat c.toNat := (Char.ofNat_toNat c).symm
    rw [hc]
    set n := c.toNat with hn
    interval_cases n <;> decide
  · have : c.toUpper = c := by
      simp only [Char.toUpper]
      rw [if_neg h]
    rw [this, this]

theorem char_toLower_toUpper (c : Char) : c.toUpper.toLower = c.toLower := by
  by_cases h : c.toNat ≥ 97 ∧ c.toNat ≤ 122
  · obtain ⟨h1, h2⟩ := h
    have hc : c = Char.ofNat c.toNat := (Char.ofNat_toNat c).symm
    rw [hc]
    set n := c.toNat with hn
    interval_cases n <;> decide
  · have : c.toUpper = c := by
      simp only [Char.toUpper]
      rw [if_neg h]
    rw [this]

theorem char_isWhitespace_toUpper (c : Char) :
    c.toUpper.isWhitespace = c.isWhitespace := by
  by_cases h : c.toNat ≥ 97 ∧ c.toNat ≤ 122
  · obtain ⟨h1, h2⟩ := h
    have hc : c = Char.ofNat c.toNat := (Char.ofNat_toNat c).symm
    rw [hc]
    set n := c.toNat with hn
    interval_cases n <;> decide
  · have : c.toUpper = c := by
      simp only [Char.toUpper]
      rw [if_neg h]
    rw [this]

theorem strToUpper_strToUpper (x : String) :
    strToUpper (strToUpper x) = strToUpper x := by
  simp only [strToUpper, List.map_map]
  exact congrArg String.mk (List.map_congr_left (fun c _ => char_toUpper_toUpper c))

theorem strToLower_strToUpper (x : String) :
    strToLower (strToUpper x) = strToLower x := by
  simp only [strToLower, strToUpper, List.map_map]
  exact congrArg String.mk (List.map_congr_left (fun c _ => char_toLower_toUpper c))

theorem strTrim_strToUpper (x : String) :
    strTrim (strToUpper x) = strToUpper (strTrim x) := by
  simp only [strTrim, strToUpper]
  refine congrArg String.mk ?_
  have hws : ∀ l : List Char,
      l.dropWhile (Char.isWhitespace ∘ Char.toUpper) =
        l.dropWhile Char.isWhitespace := by
    intro l
    induction l with
    | nil => rfl
    | cons c cs ih =>
      by_cases h : Char.isWhitespace c
      · simp [List.dropWhile, Function.comp, char_isWhitespace_toUpper, h, ih]
      · simp [List.dropWhile, Function.comp, char_isWhitespace_toUpper, h]
  rw [List.dropWhile_map, hws, ← List.map_reverse, List.dropWhile_map, hws,
    ← List.map_reverse]

/-- Shape of a `dropWhile` result: empty, or headed by a non-matching
element. -/
theorem dropWhile_shape {α : Type} (p : α → Bool) (l : List α) :
    l.dropWhile p = [] ∨ ∃ a t, l.dropWhile p = a :: t ∧ p a = false := by
  induction l with
  | nil => left; rfl
  | cons x xs ih =>
    by_cases h : p x
    · simpa [List.dropWhile, h] using ih
    · right
      exact ⟨x, xs, by simp [List.dropWhile, h], by simpa using h⟩

theorem dropWhile_dropWhile {α : Type} (p : α → Bool) (l : List α) :
    (l.dropWhile p).dropWhile p = l.dropWhile p := by
  rcases dropWhile_shape p l with h | ⟨a, t, h, hpa⟩ <;> rw [h]
  · rfl
  · simp [List.dropWhile, hpa]

theorem dropWhile_append_singleton {α : Type} (p : α → Bool) (a : α)
    (hpa : p a = false) (xs : List α) :
    ∃ ys, (xs ++ [a]).dropWhile p = ys ++ [a] := by
  induction xs with
  | nil => exact ⟨[], by simp [List.dropWhile, hpa]⟩
  | cons x xs ih =>
    by_cases h : p x
    · obtain ⟨ys, hys⟩ := ih
      exact ⟨ys, by simp [List.dropWhile, h]; exact hys⟩
    · exact ⟨x :: xs, by simp [List.dropWhile, h]⟩

theorem strTrim_idem (s : String) : strTrim (strTrim s) = strTrim s := by
  have key : ∀ l : List Char,
      ((((((l.dropWhile Char.isWhitespace).reverse.dropWhile
          Char.isWhitespace).reverse).dropWhile Char.isWhitespace).reverse.dropWhile
            Char.isWhitespace).reverse) =
        ((l.dropWhile Char.isWhitespace).reverse.dropWhile Char.isWhitespace).reverse := by
    intro l
    rcases dropWhile_shape Char.isWhitespace l with h | ⟨a, t, h, hpa⟩
    · rw [h]
      rfl
    · rw [h]
      obtain ⟨ys, hys⟩ :=
        dropWhile_append_singleton Char.isWhitespace a hpa t.reverse
      have h1 : (a :: t).reverse = t.reverse ++ [a] := by simp
      rw [h1, hys]
      have h2 : (ys ++ [a]).reverse = a :: ys.reverse := by simp
      rw [h2]
      have h3 : (a :: ys.reverse).dropWhile Char.isWhitespace = a :: ys.reverse := by
        simp [List.dropWhile, hpa]
      rw [h3]
      have h4 : (a :: ys.reverse).reverse = ys ++ [a] := by simp
      rw [h4]
      have h5 : (ys ++ [a]).dropWhile Char.isWhitespace = ys ++ [a] := by
        conv_lhs => rw [← hys]
        rw [dropWhile_dropWhile, hys]
      rw [h5, h2]
  exact congrArg String.mk (key s.data)

/-- The enum normaliser maps strings to themselves, so a normalised enum
array is a fixed point. -/
theorem normalizeEnum_fix (v nv : JVal) (h : normalizeEnum v = some nv) :
    normalizeEnum nv = some nv := by
  cases v with
  | arr xs =>
    simp only [normalizeEnum, Option.some_inj] at h
    subst h
    simp only [normalizeEnum, List.map_map, Option.some_inj]
    refine congrArg JVal.arr ?_
    refine List.map_congr_left ?_
    intro x _
    rfl
  | null => simp [normalizeEnum] at h
  | bool b => simp [normalizeEnum] at h
  | num q => simp [normalizeEnum] at h
  | str s => simp [normalizeEnum] at h
  | obj kvs => simp [normalizeEnum] at h

/-- Members produced by the string-array normaliser are trimmed and
non-empty. -/
theorem nsaOut_mem (xs : List JVal) (t : String)
    (ht : t ∈ xs.filterMap (fun it =>
      match it with
      | JVal.str s =>
        let u := strTrim s
        if u = "" then none else some u
      | _ => none)) : strTrim t = t ∧ t ≠ "" := by
  obtain ⟨it, _, hit⟩ := List.mem_filterMap.mp ht
  cases it with
  | str s =>
    have hit' : (if strTrim s = "" then none else some (strTrim s)) = some t := hit
    by_cases he : strTrim s = ""
    · rw [if_pos he] at hit'
      cases hit'
    · rw [if_neg he] at hit'
      cases hit'
      exact ⟨strTrim_idem s, he⟩
  | null => exact Option.noConfusion hit
  | bool b => exact Option.noConfusion hit
  | num q => exact Option.noConfusion hit
  | arr ys => exact Option.noConfusion hit
  | obj kvs => exact Option.noConfusion hit

/-- On a list of trimmed non-empty strings the normalising `filterMap` is
the identity. -/
theorem nsaFilterMap_id (out : List String)
    (hmem : ∀ t ∈ out, strTrim t = t ∧ t ≠ "") :
    ((out.map JVal.str).filterMap (fun it =>
      match it with
      | JVal.str s =>
        let u := strTrim s
        if u = "" then none else some u
      | _ => none)) = out := by
  induction out with
  | nil => rfl
  | cons t ts ih =>
    obtain ⟨htt, hne⟩ := hmem t (List.mem_cons_self t ts)
    have hft : (match JVal.str t with
        | JVal.str s =>
          let u := strTrim s
          if u = "" then none else some u
        | _ => none) = some t := by
      show (if strTrim t = "" then none else some (strTrim t)) = some t
      rw [htt, if_neg hne]
    rw [List.map_cons, List.filterMap_cons, hft]
    exact congrArg (t :: ·) (ih (fun u hu => hmem u (List.mem_cons_of_mem t hu)))

/-- A normalised required-array is a fixed point of the string-array
normaliser (its members are trimmed non-empty strings). -/
theorem normalizeStringArray_fix (v nv : JVal)
    (h : normalizeStringArray v = some nv) : normalizeStringArray nv = some nv := by
  cases v with
  | arr xs =>
    simp only [normalizeStringArray] at h
    by_cases hempty : (xs.filterMap (fun it =>
        match it with
        | JVal.str s =>
          let u := strTrim s
          if u = "" then none else some u
        | _ => none)).isEmpty
    · rw [if_pos hempty] at h
      cases h
    · rw [if_neg hempty, Option.some_inj] at h
      subst h
      simp only [normalizeStringArray]
      rw [nsaFilterMap_id _ (fun t ht => nsaOut_mem xs t ht), if_neg hempty]
  | null => simp [normalizeStringArray] at h
  | bool b => simp [normalizeStringArray] at h
  | num q => simp [normalizeStringArray] at h
  | str s => simp [normalizeStringArray] at h
  | obj kvs => simp [normalizeStringArray] at h

/-- Outputs of the type normaliser are fixed points. -/
theorem normalizeVertexType_fix (t n : String)
    (h : normalizeVertexType t = some n) : normalizeVertexType n = some n := by
  simp only [normalizeVertexType] at h
  split_ifs at h with h1 h2 h3 h4 h5 h6 h7 h8
  · rw [Option.some_inj] at h; subst h; decide
  · rw [Option.some_inj] at h; subst h; decide
  · rw [Option.some_inj] at h; subst h; decide
  · rw [Option.some_inj] at h; subst h; decide
  · rw [Option.some_inj] at h; subst h; decide
  · rw [Option.some_inj] at h; subst h; decide
  · rw [Option.some_inj] at h; subst h; decide
  · rw [Option.some_inj] at h
    subst h
    rcases h8 with h8 | h8 | h8 | h8 | h8 | h8 | h8 | h8 <;> rw [h8] <;> decide

/-- When the type normaliser rejects a string it also rejects that
string's trimmed upper-casing (the fallback inserted by the union-type
branch). -/
theorem normalizeVertexType_none_up (t : String)
    (h : normalizeVertexType t = none) :
    normalizeVertexType (strToUpper (strTrim t)) = none := by
  have e1 : strTrim (strToUpper (strTrim t)) = strToUpper (strTrim t) := by
    rw [strTrim_strToUpper, strTrim_idem]
  have e2 : strToLower (strTrim (strToUpper (strTrim t))) = strToLower (strTrim t) := by
    rw [e1, strToLower_strToUpper]
  have e3 : strToUpper (strTrim (strToUpper (strTrim t))) = strToUpper (strTrim t) := by
    rw [e1, strToUpper_strToUpper]
  simp only [normalizeVertexType] at h ⊢
  rw [e2, e3]
  exact h

mutual

/-- The shape every object reachable from the sanitiser's output has: all
keys allow-listed, every normalised field a fixed point of its normaliser,
and the four recursion positions holding sanitised children. -/
inductive SanObj : List (String × JVal) → Prop where
  | intro (o : List (String × JVal))
      (hkeys : ∀ kv ∈ o, kv.1 ∈ vertexAllowedKeys)
      (htypeStr : ∀ v, JObj.get o "type" = some v → ∃ s, v = JVal.str s ∧
        (normalizeVertexType s = some s ∨ normalizeVertexType s = none))
      (htypeNone : JObj.get o "type" = none →
        JObj.get o "properties" = none ∧ JObj.get o "items" = none)
      (henum : ∀ v, JObj.get o "enum" = some v → normalizeEnum v = some v)
      (hreq : ∀ v, JObj.get o "required" = some v → normalizeStringArray v = some v)
      (hmin : ∀ v, JObj.get o "minimum" = some v → ∃ q, v = JVal.num q)
      (hmax : ∀ v, JObj.get o "maximum" = some v → ∃ q, v = JVal.num q)
      (href : ∀ v, JObj.get o "ref" = some v → ∃ s, v = JVal.str s)
      (hdesc : ∀ v, JObj.get o "description" = some v → ∃ s, v = JVal.str s)
      (hnull : ∀ v, JObj.get o "nullable" = some v → ∃ b, v = JVal.bool b)
      (hprops : SanProps (JObj.get o "properties"))
      (hdefs : SanProps (JObj.get o "defs"))
      (hitems : SanItems (JObj.get o "items"))
      (hanyOf : SanAnyOf (JObj.get o "anyOf")) :
      SanObj o

/-- A sanitised `properties`/`defs` slot: absent, or an object all of
whose values are sanitised objects. -/
inductive SanProps : Option JVal → Prop where
  | none : SanProps none
  | some (p : List (String × JVal)) (h : SanKvs p) : SanProps (some (JVal.obj p))

/-- Entries of a sanitised `properties`/`defs` map: every value is a
sanitised object. -/
inductive SanKvs : List (String × JVal) → Prop where
  | nil : SanKvs []
  | cons (k : String) (c : List (String × JVal)) (rest : List (String × JVal))
      (hc : SanObj c) (hr : SanKvs rest) : SanKvs ((k, JVal.obj c) :: rest)

/-- A sanitised `items` slot: absent or a sanitised object. -/
inductive SanItems : Option JVal → Prop where
  | none : SanItems none
  | some (c : List (String × JVal)) (h : SanObj c) : SanItems (some (JVal.obj c))

/-- A sanitised `anyOf` slot: absent, or a non-empty array of sanitised
objects. -/
inductive SanAnyOf : Option JVal → Prop where
  | none : SanAnyOf none
  | some (xs : List JVal) (hne : xs ≠ []) (h : SanList xs) :
      SanAnyOf (some (JVal.arr xs))

/-- Members of a sanitised `anyOf` array: every member is a sanitised
object. -/
inductive SanList : List JVal → Prop where
  | nil : SanList []
  | cons (c : List (String × JVal)) (rest : List JVal)
      (hc : SanObj c) (hr : SanList rest) : SanList (JVal.obj c :: rest)

end

/-- Keys outside the allow-list are absent from an allow-listed object. -/
theorem san_get_none (o : List (String × JVal))
    (hkeys : ∀ kv ∈ o, kv.1 ∈ vertexAllowedKeys) (k : String)
    (hk : k ∉ vertexAllowedKeys) : JObj.get o k = none :=
  (JObj.get_eq_none_iff o k).mpr (fun kv hkv h => hk (h ▸ hkeys kv hkv))

/-- Unpack a `SanKvs` derivation at a member. -/
theorem SanKvs_mem (p : List (String × JVal)) (kv : String × JVal) :
    SanKvs p → kv ∈ p → ∃ c, kv.2 = JVal.obj c ∧ SanObj c := by
  induction p with
  | nil => exact fun _ hkv => absurd hkv (List.not_mem_nil kv)
  | cons kv0 rest ih =>
    intro h hkv
    cases h with
    | cons k c rest2 hc hr =>
      rcases List.mem_cons.mp hkv with h1 | h1
      · subst h1
        exact ⟨c, rfl, hc⟩
      · exact ih hr h1

/-- Build a `SanKvs` derivation from a member-wise property. -/
theorem SanKvs_of_forall (p : List (String × JVal))
    (h : ∀ kv ∈ p, ∃ c, kv.2 = JVal.obj c ∧ SanObj c) : SanKvs p := by
  induction p with
  | nil => exact SanKvs.nil
  | cons kv rest ih =>
    obtain ⟨c, hc, hsc⟩ := h kv (List.mem_cons_self kv rest)
    obtain ⟨k0, v0⟩ := kv
    have hc' : v0 = JVal.obj c := hc
    subst hc'
    exact SanKvs.cons k0 c rest hsc (ih fun kv hkv => h kv (List.mem_cons_of_mem _ hkv))

/-- Unpack a `SanList` derivation at a member. -/
theorem SanList_mem (xs : List JVal) (x : JVal) :
    SanList xs → x ∈ xs → ∃ c, x = JVal.obj c ∧ SanObj c := by
  induction xs with
  | nil => exact fun _ hx => absurd hx (List.not_mem_nil x)
  | cons x0 rest ih =>
    intro h hx
    cases h with
    | cons c rest2 hc hr =>
      rcases List.mem_cons.mp hx with h1 | h1
      · subst h1
        exact ⟨c, rfl, hc⟩
      · exact ih hr h1

/-- Build a `SanList` derivation from a member-wise property. -/
theorem SanList_of_forall (xs : List JVal)
    (h : ∀ x ∈ xs, ∃ c, x = JVal.obj c ∧ SanObj c) : SanList xs := by
  induction xs with
  | nil => exact SanList.nil
  | cons x rest ih =>
    obtain ⟨c, hc, hsc⟩ := h x (List.mem_cons_self x rest)
    subst hc
    exact SanList.cons c rest hsc (ih fun x hx => h x (List.mem_cons_of_mem _ hx))

theorem renameInto_id (o : List (String × JVal)) (src dst : String)
    (h : JObj.get o src = none) : renameInto o src dst = o := by
  simp [renameInto, h]

theorem stageMeta_id (o : List (String × JVal))
    (hkeys : ∀ kv ∈ o, kv.1 ∈ vertexAllowedKeys) : stageMeta o = o := by
  unfold stageMeta
  rw [JObj.removeKey_of_get_none o "$schema" (san_get_none o hkeys _ (by decide)),
    JObj.removeKey_of_get_none o "$id" (san_get_none o hkeys _ (by decide)),
    JObj.removeKey_of_get_none o "$anchor" (san_get_none o hkeys _ (by decide)),
    JObj.removeKey_of_get_none o "$comment" (san_get_none o hkeys _ (by decide))]

theorem stageRenames_id (o : List (String × JVal))
    (hkeys : ∀ kv ∈ o, kv.1 ∈ vertexAllowedKeys) : stageRenames o = o := by
  unfold stageRenames
  rw [renameInto_id o "$ref" "ref" (san_get_none o hkeys _ (by decide)),
    renameInto_id o "$defs" "defs" (san_get_none o hkeys _ (by decide)),
    renameInto_id o "definitions" "defs" (san_get_none o hkeys _ (by decide))]

theorem stageOneOf_id (o : List (String × JVal))
    (hkeys : ∀ kv ∈ o, kv.1 ∈ vertexAllowedKeys) : stageOneOf o = o := by
  simp [stageOneOf, san_get_none o hkeys "oneOf" (by decide)]

theorem stageAllOf_id (o : List (String × JVal))
    (hkeys : ∀ kv ∈ o, kv.1 ∈ vertexAllowedKeys) : stageAllOf o = o := by
  simp [stageAllOf, san_get_none o hkeys "allOf" (by decide)]

theorem exclusiveHalf_id (o : List (String × JVal)) (ex key : String) (isMin : Bool)
    (h : JObj.get o ex = none) : exclusiveHalf o ex key isMin = o := by
  simp [exclusiveHalf, h]

theorem stageExclusive_id (o : List (String × JVal))
    (hkeys : ∀ kv ∈ o, kv.1 ∈ vertexAllowedKeys) : stageExclusive o = o := by
  unfold stageExclusive
  rw [exclusiveHalf_id o _ _ _ (san_get_none o hkeys "exclusiveMinimum" (by decide)),
    exclusiveHalf_id o _ _ _ (san_get_none o hkeys "exclusiveMaximum" (by decide))]

theorem stageTypeNorm_id (o : List (String × JVal))
    (htypeStr : ∀ v, JObj.get o "type" = some v → ∃ s, v = JVal.str s ∧
      (normalizeVertexType s = some s ∨ normalizeVertexType s = none)) :
    stageTypeNorm o = o := by
  rcases hget : JObj.get o "type" with _ | v
  · simp [stageTypeNorm, hget]
  · obtain ⟨s, rfl, hfix⟩ := htypeStr v hget
    rcases hfix with hfix | hfix
    · simp only [stageTypeNorm, hget, hfix]
      exact JObj.insertKey_of_get_self o "type" (JVal.str s) hget
    · simp only [stageTypeNorm, hget, hfix]

theorem stageTypeDefault_id (o : List (String × JVal))
    (htypeStr : ∀ v, JObj.get o "type" = some v → ∃ s, v = JVal.str s ∧
      (normalizeVertexType s = some s ∨ normalizeVertexType s = none))
    (htypeNone : JObj.get o "type" = none →
      JObj.get o "properties" = none ∧ JObj.get o "items" = none) :
    stageTypeDefault o = o := by
  rcases hget : JObj.get o "type" with _ | v
  · obtain ⟨hp, hi⟩ := htypeNone hget
    simp [stageTypeDefault, hget, hp, hi]
  · obtain ⟨s, rfl, -⟩ := htypeStr v hget
    simp [stageTypeDefault, hget]

theorem stageEnum_id (o : List (String × JVal))
    (henum : ∀ v, JObj.get o "enum" = some v → normalizeEnum v = some v) :
    stageEnum o = o := by
  rcases hget : JObj.get o "enum" with _ | v
  · simp only [stageEnum, hget, Option.none_bind]
    exact JObj.removeKey_of_get_none o "enum" hget
  · simp only [stageEnum, hget, Option.some_bind, henum v hget]
    exact JObj.insertKey_of_get_self o "enum" v hget

theorem stageRequired_id (o : List (String × JVal))
    (hreq : ∀ v, JObj.get o "required" = some v → normalizeStringArray v = some v) :
    stageRequired o = o := by
  rcases hget : JObj.get o "required" with _ | v
  · simp only [stageRequired, hget, Option.none_bind]
    exact JObj.removeKey_of_get_none o "required" hget
  · simp only [stageRequired, hget, Option.some_bind, hreq v hget]
    exact JObj.insertKey_of_get_self o "required" v hget

theorem stageBound_id (key : String) (o : List (String × JVal))
    (hb : ∀ v, JObj.get o key = some v → ∃ q, v = JVal.num q) :
    stageBound key o = o := by
  rcases hget : JObj.get o key with _ | v
  · simp only [stageBound, hget, Option.none_bind]
    exact JObj.removeKey_of_get_none o key hget
  · obtain ⟨q, rfl⟩ := hb v hget
    simp only [stageBound, hget, Option.some_bind, toF64]
    exact JObj.insertKey_of_get_self o key (JVal.num q) hget

theorem foldl_removeKey_id (o : List (String × JVal))
    (hkeys : ∀ kv ∈ o, kv.1 ∈ vertexAllowedKeys) (ks : List String)
    (hks : ∀ k ∈ ks, k ∉ vertexAllowedKeys) : ks.foldl JObj.removeKey o = o := by
  induction ks with
  | nil => rfl
  | cons k ks ih =>
    simp only [List.foldl_cons]
    rw [JObj.removeKey_of_get_none o k
      (san_get_none o hkeys k (hks k (List.mem_cons_self k ks)))]
    exact ih (fun k' hk' => hks k' (List.mem_cons_of_mem _ hk'))

theorem stageRemoveUnsupported_id (o : List (String × JVal))
    (hkeys : ∀ kv ∈ o, kv.1 ∈ vertexAllowedKeys) : stageRemoveUnsupported o = o :=
  foldl_removeKey_id o hkeys unsupportedKeys (by decide)

/-- The child-rebuilding `filterMap` of the `defs`/`properties` recursion
is the identity when every child is an object fixed by `rec`. -/
theorem filterMapChildren_id (rec : List (String × JVal) → List (String × JVal))
    (p : List (String × JVal))
    (h : ∀ kv ∈ p, ∃ c, kv.2 = JVal.obj c ∧ rec c = c) :
    p.filterMap (fun kv =>
      match kv.2 with
      | JVal.obj cc => some (kv.1, JVal.obj (rec cc))
      | _ => none) = p := by
  induction p with
  | nil => rfl
  | cons kv rest ih =>
    obtain ⟨c, hc, hrc⟩ := h kv (List.mem_cons_self kv rest)
    obtain ⟨k0, v0⟩ := kv
    have hc' : v0 = JVal.obj c := hc
    subst hc'
    rw [List.filterMap_cons]
    show ((k0, JVal.obj (rec c)) :: List.filterMap _ rest) = (k0, JVal.obj c) :: rest
    rw [hrc]
    exact congrArg (List.cons (k0, JVal.obj c))
      (ih fun kv hkv => h kv (List.mem_cons_of_mem _ hkv))

/-- The member-rebuilding `filterMap` of the `anyOf` recursion is the
identity when every member is an object fixed by `rec`. -/
theorem filterMapArr_id (rec : List (String × JVal) → List (String × JVal))
    (xs : List JVal) (h : ∀ x ∈ xs, ∃ c, x = JVal.obj c ∧ rec c = c) :
    xs.filterMap (fun it =>
      match it with
      | JVal.obj cc => some (JVal.obj (rec cc))
      | _ => none) = xs := by
  induction xs with
  | nil => rfl
  | cons x rest ih =>
    obtain ⟨c, hc, hrc⟩ := h x (List.mem_cons_self x rest)
    subst hc
    rw [List.filterMap_cons]
    show (JVal.obj (rec c) :: List.filterMap _ rest) = JVal.obj c :: rest
    rw [hrc]
    exact congrArg (List.cons (JVal.obj c))
      (ih fun x hx => h x (List.mem_cons_of_mem _ hx))

theorem stageDefsWith_id (rec : List (String × JVal) → List (String × JVal))
    (o : List (String × JVal)) (hsan : SanProps (JObj.get o "defs"))
    (hrec : ∀ c, SanObj c → rec c = c) : stageDefsWith rec o = o := by
  rcases hget : JObj.get o "defs" with _ | v
  · simp [stageDefsWith, hget]
  · have hsan' := hget ▸ hsan
    cases hsan' with
    | some p hkvs =>
      simp only [stageDefsWith, hget]
      rw [filterMapChildren_id rec p (fun kv hkv => by
        obtain ⟨c, hc, hsc⟩ := SanKvs_mem p kv hkvs hkv
        exact ⟨c, hc, hrec c hsc⟩)]
      exact JObj.insertKey_of_get_self o "defs" (JVal.obj p) hget

theorem stagePropsWith_id (rec : List (String × JVal) → List (String × JVal))
    (o : List (String × JVal)) (hsan : SanProps (JObj.get o "properties"))
    (hrec : ∀ c, SanObj c → rec c = c) : stagePropsWith rec o = o := by
  rcases hget : JObj.get o "properties" with _ | v
  · simp [stagePropsWith, hget]
  · have hsan' := hget ▸ hsan
    cases hsan' with
    | some p hkvs =>
      simp only [stagePropsWith, hget]
      rw [filterMapChildren_id rec p (fun kv hkv => by
        obtain ⟨c, hc, hsc⟩ := SanKvs_mem p kv hkvs hkv
        exact ⟨c, hc, hrec c hsc⟩)]
      exact JObj.insertKey_of_get_self o "properties" (JVal.obj p) hget

theorem stageItemsWith_id (rec : List (String × JVal) → List (String × JVal))
    (o : List (String × JVal)) (hsan : SanItems (JObj.get o "items"))
    (hrec : ∀ c, SanObj c → rec c = c) : stageItemsWith rec o = o := by
  rcases hget : JObj.get o "items" with _ | v
  · simp [stageItemsWith, hget]
  · have hsan' := hget ▸ hsan
    cases hsan' with
    | some c hc =>
      simp only [stageItemsWith, hget]
      rw [hrec c hc]
      exact JObj.insertKey_of_get_self o "items" (JVal.obj c) hget

theorem stageAnyOfWith_id (rec : List (String × JVal) → List (String × JVal))
    (o : List (String × JVal)) (hsan : SanAnyOf (JObj.get o "anyOf"))
    (hrec : ∀ c, SanObj c → rec c = c) : stageAnyOfWith rec o = o := by
  rcases hget : JObj.get o "anyOf" with _ | v
  · simp [stageAnyOfWith, hget]
  · have hsan' := hget ▸ hsan
    cases hsan' with
    | some xs hne hl =>
      simp only [stageAnyOfWith, hget]
      rw [filterMapArr_id rec xs (fun x hx => by
        obtain ⟨c, hc, hsc⟩ := SanList_mem xs x hl hx
        exact ⟨c, hc, hrec c hsc⟩)]
      have hemp : xs.isEmpty = false := by
        cases xs with
        | nil => exact absurd rfl hne
        | cons x rest => rfl
      rw [hemp]
      simp only [Bool.false_eq_true, if_false]
      exact JObj.insertKey_of_get_self o "anyOf" (JVal.arr xs) hget

theorem filterAllowed_id (o : List (String × JVal))
    (hkeys : ∀ kv ∈ o, kv.1 ∈ vertexAllowedKeys) : filterAllowed o = o := by
  have hns : ∀ k ∈ vertexAllowedKeys, strStartsWith k "$" = false := by decide
  apply List.filter_eq_self.mpr
  intro kv hkv
  have h1 := hkeys kv hkv
  rw [hns kv.1 h1]
  simp only [Bool.not_false, Bool.true_and]
  exact List.elem_eq_true_of_mem h1

theorem checkStrKey_id (o : List (String × JVal)) (k : String)
    (h : ∀ v, JObj.get o k = some v → ∃ s, v = JVal.str s) : checkStrKey o k = o := by
  rcases hget : JObj.get o k with _ | v
  · simp [checkStrKey, hget]
  · obtain ⟨s, rfl⟩ := h v hget
    simp [checkStrKey, hget]

theorem checkBoolKey_id (o : List (String × JVal)) (k : String)
    (h : ∀ v, JObj.get o k = some v → ∃ b, v = JVal.bool b) : checkBoolKey o k = o := by
  rcases hget : JObj.get o k with _ | v
  · simp [checkBoolKey, hget]
  · obtain ⟨b, rfl⟩ := h v hget
    simp [checkBoolKey, hget]

theorem enforce_id (o : List (String × JVal))
    (hkeys : ∀ kv ∈ o, kv.1 ∈ vertexAllowedKeys)
    (href : ∀ v, JObj.get o "ref" = some v → ∃ s, v = JVal.str s)
    (htypeStr : ∀ v, JObj.get o "type" = some v → ∃ s, v = JVal.str s ∧
      (normalizeVertexType s = some s ∨ normalizeVertexType s = none))
    (hdesc : ∀ v, JObj.get o "description" = some v → ∃ s, v = JVal.str s)
    (hnull : ∀ v, JObj.get o "nullable" = some v → ∃ b, v = JVal.bool b) :
    enforceVertexSchemaAllowlist o = o := by
  unfold enforceVertexSchemaAllowlist finalTypeChecks
  rw [filterAllowed_id o hkeys,
    checkStrKey_id o "ref" href,
    checkStrKey_id o "type" (fun v hv => (htypeStr v hv).imp fun s hs => hs.1),
    checkStrKey_id o "description" hdesc,
    checkBoolKey_id o "nullable" hnull]

/-- On a sanitised object the sanitiser is the identity, for every fuel
value (running out of fuel returns children unchanged, which is already
the identity). -/
theorem sanitizeObj_id (fuel : Nat) : ∀ o, SanObj o → sanitizeObj fuel o = o := by
  induction fuel with
  | zero => intro o _; rfl
  | succ fuel ih =>
    intro o hs
    cases hs with
    | intro o hkeys htS htN hen hrq hmn hmx hrf hds hnl hpr hdf hit hao =>
      simp only [sanitizeObj]
      rw [stageMeta_id o hkeys,
        stageRenames_id o hkeys,
        stageOneOf_id o hkeys,
        stageAllOf_id o hkeys,
        stageExclusive_id o hkeys,
        stageTypeNorm_id o htS,
        stageTypeDefault_id o htS htN,
        stageEnum_id o hen,
        stageRequired_id o hrq,
        stageBound_id "minimum" o hmn,
        stageBound_id "maximum" o hmx,
        stageRemoveUnsupported_id o hkeys,
        stageDefsWith_id (fun c => sanitizeObj fuel c) o hdf (fun c hc => ih c hc),
        stagePropsWith_id (fun c => sanitizeObj fuel c) o hpr (fun c hc => ih c hc),
        stageItemsWith_id (fun c => sanitizeObj fuel c) o hit (fun c hc => ih c hc),
        stageAnyOfWith_id (fun c => sanitizeObj fuel c) o hao (fun c hc => ih c hc),
        enforce_id o hkeys hrf htS hds hnl]

/-- No allow-listed key starts with a dollar sign. -/
theorem allowNoDollar : ∀ k ∈ vertexAllowedKeys, strStartsWith k "$" = false := by
  decide

theorem stageMeta_get (o : List (String × JVal)) (k : String)
    (h1 : k ≠ "$schema") (h2 : k ≠ "$id") (h3 : k ≠ "$anchor")
    (h4 : k ≠ "$comment") : JObj.get (stageMeta o) k = JObj.get o k := by
  unfold stageMeta
  rw [JObj.get_removeKey_ne _ _ _ h4, JObj.get_removeKey_ne _ _ _ h3,
    JObj.get_removeKey_ne _ _ _ h2, JObj.get_removeKey_ne _ _ _ h1]

theorem renameInto_get (o : List (String × JVal)) (src dst k : String)
    (h1 : k ≠ src) (h2 : k ≠ dst) :
    JObj.get (renameInto o src dst) k = JObj.get o k := by
  rcases hg : JObj.get o src with _ | v
  · simp [renameInto, hg]
  · simp only [renameInto, hg]
    split
    · rw [JObj.get_insertKey_ne _ _ _ _ h2, JObj.get_removeKey_ne _ _ _ h1]
    · rw [JObj.get_removeKey_ne _ _ _ h1]

theorem stageRenames_get (o : List (String × JVal)) (k : String)
    (h1 : k ≠ "$ref") (h2 : k ≠ "ref") (h3 : k ≠ "$defs") (h4 : k ≠ "defs")
    (h5 : k ≠ "definitions") : JObj.get (stageRenames o) k = JObj.get o k := by
  unfold stageRenames
  rw [renameInto_get _ _ _ _ h5 h4, renameInto_get _ _ _ _ h3 h4,
    renameInto_get _ _ _ _ h1 h2]

theorem stageOneOf_get (o : List (String × JVal)) (k : String)
    (h1 : k ≠ "oneOf") (h2 : k ≠ "anyOf") :
    JObj.get (stageOneOf o) k = JObj.get o k := by
  rcases hg : JObj.get o "oneOf" with _ | v
  · simp [stageOneOf, hg]
  · simp only [stageOneOf, hg]
    rcases hA : JObj.get (JObj.removeKey o "oneOf") "anyOf" with _ | av
    · rw [JObj.get_insertKey_ne _ _ _ _ h2, JObj.get_removeKey_ne _ _ _ h1]
    · cases av <;> cases v <;>
        first
          | rw [JObj.get_insertKey_ne _ _ _ _ h2, JObj.get_removeKey_ne _ _ _ h1]
          | rw [JObj.get_removeKey_ne _ _ _ h1]

theorem exclusiveHalf_get (o : List (String × JVal)) (ex key : String)
    (isMin : Bool) (k : String) (hex : k ≠ ex) (hkey : k ≠ key) :
    JObj.get (exclusiveHalf o ex key isMin) k = JObj.get o k := by
  rcases hg : JObj.get o ex with _ | v
  · simp [exclusiveHalf, hg]
  · simp only [exclusiveHalf, hg]
    split
    · split
      · rw [JObj.get_insertKey_ne _ _ _ _ hkey, JObj.get_removeKey_ne _ _ _ hex]
      · rw [JObj.get_removeKey_ne _ _ _ hex]
    · split
      · split
        · rw [JObj.get_insertKey_ne _ _ _ _ hkey, JObj.get_removeKey_ne _ _ _ hex]
        · rw [JObj.get_removeKey_ne _ _ _ hex]
      · rw [JObj.get_removeKey_ne _ _ _ hex]

theorem stageExclusive_get (o : List (String × JVal)) (k : String)
    (h1 : k ≠ "exclusiveMinimum") (h2 : k ≠ "exclusiveMaximum")
    (h3 : k ≠ "minimum") (h4 : k ≠ "maximum") :
    JObj.get (stageExclusive o) k = JObj.get o k := by
  unfold stageExclusive
  rw [exclusiveHalf_get _ _ _ _ _ h2 h4, exclusiveHalf_get _ _ _ _ _ h1 h3]

theorem stageTypeNorm_get (o : List (String × JVal)) (k : String)
    (h1 : k ≠ "type") (h2 : k ≠ "nullable") :
    JObj.get (stageTypeNorm o) k = JObj.get o k := by
  rcases hg : JObj.get o "type" with _ | v
  · simp [stageTypeNorm, hg]
  · simp only [stageTypeNorm, hg]
    repeat' split
    all_goals
      first
        | rfl
        | rw [JObj.get_insertKey_ne _ _ _ _ h1, JObj.get_insertKey_ne _ _ _ _ h2]
        | rw [JObj.get_insertKey_ne _ _ _ _ h1]
        | rw [JObj.get_removeKey_ne _ _ _ h1, JObj.get_insertKey_ne _ _ _ _ h2]
        | rw [JObj.get_removeKey_ne _ _ _ h1]

theorem stageTypeDefault_get (o : List (String × JVal)) (k : String)
    (h1 : k ≠ "type") : JObj.get (stageTypeDefault o) k = JObj.get o k := by
  unfold stageTypeDefault
  repeat' split
  all_goals
    first
      | rfl
      | exact JObj.get_insertKey_ne o "type" k (JVal.str "OBJECT") h1
      | exact JObj.get_insertKey_ne o "type" k (JVal.str "ARRAY") h1

theorem stageEnum_get (o : List (String × JVal)) (k : String)
    (h1 : k ≠ "enum") : JObj.get (stageEnum o) k = JObj.get o k := by
  unfold stageEnum
  split
  · rw [JObj.get_insertKey_ne _ _ _ _ h1]
  · rw [JObj.get_removeKey_ne _ _ _ h1]

theorem stageRequired_get (o : List (String × JVal)) (k : String)
    (h1 : k ≠ "required") : JObj.get (stageRequired o) k = JObj.get o k := by
  unfold stageRequired
  split
  · rw [JObj.get_insertKey_ne _ _ _ _ h1]
  · rw [JObj.get_removeKey_ne _ _ _ h1]

theorem stageBound_get (key : String) (o : List (String × JVal)) (k : String)
    (h1 : k ≠ key) : JObj.get (stageBound key o) k = JObj.get o k := by
  unfold stageBound
  split
  · rw [JObj.get_insertKey_ne _ _ _ _ h1]
  · rw [JObj.get_removeKey_ne _ _ _ h1]

theorem foldl_removeKey_get (ks : List String) (k : String) (hk : k ∉ ks) :
    ∀ o : List (String × JVal), JObj.get (ks.foldl JObj.removeKey o) k = JObj.get o k := by
  induction ks with
  | nil => intro o; rfl
  | cons k0 ks ih =>
    intro o
    have hk0 : k ≠ k0 := fun h => hk (h ▸ List.mem_cons_self k0 ks)
    have hks : k ∉ ks := fun h => hk (List.mem_cons_of_mem k0 h)
    simp only [List.foldl_cons]
    rw [ih hks, JObj.get_removeKey_ne _ _ _ hk0]

theorem stageRemoveUnsupported_get (o : List (String × JVal)) (k : String)
    (h1 : k ∉ unsupportedKeys) :
    JObj.get (stageRemoveUnsupported o) k = JObj.get o k :=
  foldl_removeKey_get unsupportedKeys k h1 o

theorem stageDefsWith_get (rec : List (String × JVal) → List (String × JVal))
    (o : List (String × JVal)) (k : String) (h1 : k ≠ "defs") :
    JObj.get (stageDefsWith rec o) k = JObj.get o k := by
  unfold stageDefsWith
  split
  · rw [JObj.get_insertKey_ne _ _ _ _ h1]
  · rw [JObj.get_removeKey_ne _ _ _ h1]
  · rfl

theorem stagePropsWith_get (rec : List (String × JVal) → List (String × JVal))
    (o : List (String × JVal)) (k : String) (h1 : k ≠ "properties") :
    JObj.get (stagePropsWith rec o) k = JObj.get o k := by
  unfold stagePropsWith
  split
  · rw [JObj.get_insertKey_ne _ _ _ _ h1]
  · rw [JObj.get_removeKey_ne _ _ _ h1]
  · rfl

theorem stageItemsWith_get (rec : List (String × JVal) → List (String × JVal))
    (o : List (String × JVal)) (k : String) (h1 : k ≠ "items") :
    JObj.get (stageItemsWith rec o) k = JObj.get o k := by
  unfold stageItemsWith
  split
  · rfl
  · rw [JObj.get_insertKey_ne _ _ _ _ h1]
  · split
    · rw [JObj.get_insertKey_ne _ _ _ _ h1]
    · rw [JObj.get_removeKey_ne _ _ _ h1]
  · rw [JObj.get_removeKey_ne _ _ _ h1]

theorem stageAnyOfWith_get (rec : List (String × JVal) → List (String × JVal))
    (o : List (String × JVal)) (k : String) (h1 : k ≠ "anyOf") :
    JObj.get (stageAnyOfWith rec o) k = JObj.get o k := by
  rcases hg : JObj.get o "anyOf" with _ | v
  · simp [stageAnyOfWith, hg]
  · cases v with
    | arr xs =>
      simp only [stageAnyOfWith, hg]
      split
      · rw [JObj.get_removeKey_ne _ _ _ h1]
      · rw [JObj.get_insertKey_ne _ _ _ _ h1]
    | null =>
      simp only [stageAnyOfWith, hg]
      rw [JObj.get_removeKey_ne _ _ _ h1]
    | bool b =>
      simp only [stageAnyOfWith, hg]
      rw [JObj.get_removeKey_ne _ _ _ h1]
    | num q =>
      simp only [stageAnyOfWith, hg]
      rw [JObj.get_removeKey_ne _ _ _ h1]
    | str s =>
      simp only [stageAnyOfWith, hg]
      rw [JObj.get_removeKey_ne _ _ _ h1]
    | obj kvs =>
      simp only [stageAnyOfWith, hg]
      rw [JObj.get_removeKey_ne _ _ _ h1]

theorem filterAllowed_get (o : List (String × JVal)) (k : String)
    (hk : k ∈ vertexAllowedKeys) :
    JObj.get (filterAllowed o) k = JObj.get o k := by
  induction o with
  | nil => rfl
  | cons kv rest ih =>
    obtain ⟨k0, v0⟩ := kv
    by_cases h0 : k0 = k
    · subst h0
      have hpred : (!(strStartsWith k0 "$") && vertexAllowedKeys.contains k0) = true := by
        rw [allowNoDollar k0 hk]
        simp only [Bool.not_false, Bool.true_and]
        exact List.elem_eq_true_of_mem hk
      simp only [filterAllowed, List.filter_cons, hpred, if_true, JObj.get, if_pos rfl]
    · by_cases hpred : (!(strStartsWith k0 "$") && vertexAllowedKeys.contains k0) = true
      · simp only [filterAllowed, List.filter_cons, hpred, if_true, JObj.get, if_neg h0]
        exact ih
      · have ih' : JObj.get (List.filter (fun kv =>
            !(strStartsWith kv.1 "$") && vertexAllowedKeys.contains kv.1) rest) k =
              JObj.get rest k := ih
        simp only [filterAllowed, List.filter_cons, eq_false_of_ne_true hpred,
          Bool.false_eq_true, if_false, ih']
        exact (by rw [JObj.get, if_neg h0] :
          JObj.get ((k0, v0) :: rest) k = JObj.get rest k).symm

theorem checkStrKey_get_other (o : List (String × JVal)) (key k : String)
    (h1 : k ≠ key) : JObj.get (checkStrKey o key) k = JObj.get o k := by
  unfold checkStrKey
  split
  · rfl
  · rw [JObj.get_removeKey_ne _ _ _ h1]
  · rfl

theorem checkBoolKey_get_other (o : List (String × JVal)) (key k : String)
    (h1 : k ≠ key) : JObj.get (checkBoolKey o key) k = JObj.get o k := by
  unfold checkBoolKey
  split
  · rfl
  · rw [JObj.get_removeKey_ne _ _ _ h1]
  · rfl

/-- A value surviving a string type check is a string, unchanged from the
input object. -/
theorem checkStrKey_get_self (o : List (String × JVal)) (key : String) (v : JVal)
    (h : JObj.get (checkStrKey o key) key = some v) :
    JObj.get o key = some v ∧ ∃ s, v = JVal.str s := by
  unfold checkStrKey at h
  rcases hg : JObj.get o key with _ | w
  · rw [hg] at h
    have h' : JObj.get o key = some v := h
    rw [hg] at h'
    exact Option.noConfusion h'
  · rw [hg] at h
    cases w with
    | str s =>
      have h' : JObj.get o key = some v := h
      have hv : JVal.str s = v := Option.some_inj.mp (hg.symm.trans h')
      exact ⟨congrArg some hv, s, hv.symm⟩
    | null =>
      have h' : JObj.get (JObj.removeKey o key) key = some v := h
      rw [JObj.get_removeKey_self] at h'
      exact Option.noConfusion h'
    | bool b =>
      have h' : JObj.get (JObj.removeKey o key) key = some v := h
      rw [JObj.get_removeKey_self] at h'
      exact Option.noConfusion h'
    | num q =>
      have h' : JObj.get (JObj.removeKey o key) key = some v := h
      rw [JObj.get_removeKey_self] at h'
      exact Option.noConfusion h'
    | arr xs =>
      have h' : JObj.get (JObj.removeKey o key) key = some v := h
      rw [JObj.get_removeKey_self] at h'
      exact Option.noConfusion h'
    | obj kvs =>
      have h' : JObj.get (JObj.removeKey o key) key = some v := h
      rw [JObj.get_removeKey_self] at h'
      exact Option.noConfusion h'

/-- A value surviving the boolean type check is a boolean, unchanged from
the input object. -/
theorem checkBoolKey_get_self (o : List (String × JVal)) (key : String) (v : JVal)
    (h : JObj.get (checkBoolKey o key) key = some v) :
    JObj.get o key = some v ∧ ∃ b, v = JVal.bool b := by
  unfold checkBoolKey at h
  rcases hg : JObj.get o key with _ | w
  · rw [hg] at h
    have h' : JObj.get o key = some v := h
    rw [hg] at h'
    exact Option.noConfusion h'
  · rw [hg] at h
    cases w with
    | bool b =>
      have h' : JObj.get o key = some v := h
      have hv : JVal.bool b = v := Option.some_inj.mp (hg.symm.trans h')
      exact ⟨congrArg some hv, b, hv.symm⟩
    | null =>
      have h' : JObj.get (JObj.removeKey o key) key = some v := h
      rw [JObj.get_removeKey_self] at h'
      exact Option.noConfusion h'
    | str s =>
      have h' : JObj.get (JObj.removeKey o key) key = some v := h
      rw [JObj.get_removeKey_self] at h'
      exact Option.noConfusion h'
    | num q =>
      have h' : JObj.get (JObj.removeKey o key) key = some v := h
      rw [JObj.get_removeKey_self] at h'
      exact Option.noConfusion h'
    | arr xs =>
      have h' : JObj.get (JObj.removeKey o key) key = some v := h
      rw [JObj.get_removeKey_self] at h'
      exact Option.noConfusion h'
    | obj kvs =>
      have h' : JObj.get (JObj.removeKey o key) key = some v := h
      rw [JObj.get_removeKey_self] at h'
      exact Option.noConfusion h'

theorem filterAllowed_mem (o : List (String × JVal)) (kv : String × JVal)
    (h : kv ∈ filterAllowed o) : kv.1 ∈ vertexAllowedKeys := by
  have h1 := List.of_mem_filter h
  have h2 := (Bool.and_eq_true _ _).mp h1
  exact List.mem_of_elem_eq_true h2.2

theorem checkStrKey_mem (o : List (String × JVal)) (key : String)
    (kv : String × JVal) (h : kv ∈ checkStrKey o key) : kv ∈ o := by
  unfold checkStrKey at h
  rcases hg : JObj.get o key with _ | w <;> rw [hg] at h
  · exact h
  · cases w with
    | str s => exact h
    | null => exact JObj.mem_removeKey o key kv h
    | bool b => exact JObj.mem_removeKey o key kv h
    | num q => exact JObj.mem_removeKey o key kv h
    | arr xs => exact JObj.mem_removeKey o key kv h
    | obj kvs => exact JObj.mem_removeKey o key kv h

theorem checkBoolKey_mem (o : List (String × JVal)) (key : String)
    (kv : String × JVal) (h : kv ∈ checkBoolKey o key) : kv ∈ o := by
  unfold checkBoolKey at h
  rcases hg : JObj.get o key with _ | w <;> rw [hg] at h
  · exact h
  · cases w with
    | bool b => exact h
    | null => exact JObj.mem_removeKey o key kv h
    | str s => exact JObj.mem_removeKey o key kv h
    | num q => exact JObj.mem_removeKey o key kv h
    | arr xs => exact JObj.mem_removeKey o key kv h
    | obj kvs => exact JObj.mem_removeKey o key kv h

theorem depth_insert_flat (o : List (String × JVal)) (k : String) (v : JVal)
    (hv : jdepth v = 0) : jdepthKvs (JObj.insertKey o k v) ≤ jdepthKvs o := by
  have h := jdepthKvs_insertKey o k v
  omega

theorem stageMeta_depth (o : List (String × JVal)) :
    jdepthKvs (stageMeta o) ≤ jdepthKvs o := by
  unfold stageMeta
  exact le_trans (jdepthKvs_removeKey _ _) (le_trans (jdepthKvs_removeKey _ _)
    (le_trans (jdepthKvs_removeKey _ _) (jdepthKvs_removeKey _ _)))

theorem renameInto_depth (o : List (String × JVal)) (src dst : String) :
    jdepthKvs (renameInto o src dst) ≤ jdepthKvs o := by
  rcases hg : JObj.get o src with _ | v
  · simp [renameInto, hg]
  · simp only [renameInto, hg]
    split
    · have h1 := jdepthKvs_insertKey (JObj.removeKey o src) dst v
      have h2 := jdepthKvs_removeKey o src
      have h3 := jdepth_get_le o src v hg
      omega
    · exact jdepthKvs_removeKey o src

theorem stageRenames_depth (o : List (String × JVal)) :
    jdepthKvs (stageRenames o) ≤ jdepthKvs o := by
  unfold stageRenames
  exact le_trans (renameInto_depth _ _ _) (le_trans (renameInto_depth _ _ _)
    (renameInto_depth _ _ _))

theorem stageOneOf_depth (o : List (String × JVal)) :
    jdepthKvs (stageOneOf o) ≤ jdepthKvs o := by
  rcases hg : JObj.get o "oneOf" with _ | v
  · simp [stageOneOf, hg]
  · simp only [stageOneOf, hg]
    rcases hA : JObj.get (JObj.removeKey o "oneOf") "anyOf" with _ | av
    · show jdepthKvs (JObj.insertKey (JObj.removeKey o "oneOf") "anyOf" v) ≤ jdepthKvs o
      have h1 := jdepthKvs_insertKey (JObj.removeKey o "oneOf") "anyOf" v
      have h2 := jdepthKvs_removeKey o "oneOf"
      have h3 := jdepth_get_le o "oneOf" v hg
      omega
    · cases av with
      | arr dst =>
        cases v with
        | arr src =>
          show jdepthKvs (JObj.insertKey (JObj.removeKey o "oneOf") "anyOf"
            (JVal.arr (dst ++ src))) ≤ jdepthKvs o
          have h1 := jdepthKvs_insertKey (JObj.removeKey o "oneOf") "anyOf"
            (JVal.arr (dst ++ src))
          have h2 := jdepthKvs_removeKey o "oneOf"
          have h3 := jdepth_get_le o "oneOf" (JVal.arr src) hg
          have h4 := jdepth_get_le (JObj.removeKey o "oneOf") "anyOf" (JVal.arr dst) hA
          have e1 : jdepth (JVal.arr (dst ++ src)) = 1 + jdepthList (dst ++ src) := rfl
          have e2 := jdepthList_append dst src
          have e3 : jdepth (JVal.arr dst) = 1 + jdepthList dst := rfl
          have e4 : jdepth (JVal.arr src) = 1 + jdepthList src := rfl
          omega
        | null => exact jdepthKvs_removeKey o "oneOf"
        | bool b => exact jdepthKvs_removeKey o "oneOf"
        | num q => exact jdepthKvs_removeKey o "oneOf"
        | str s => exact jdepthKvs_removeKey o "oneOf"
        | obj kvs => exact jdepthKvs_removeKey o "oneOf"
      | null => exact jdepthKvs_removeKey o "oneOf"
      | bool b => exact jdepthKvs_removeKey o "oneOf"
      | num q => exact jdepthKvs_removeKey o "oneOf"
      | str s => exact jdepthKvs_removeKey o "oneOf"
      | obj kvs => exact jdepthKvs_removeKey o "oneOf"

theorem foldlInsert_depth (kvs : List (String × JVal)) (D : Nat)
    (hv : ∀ kv ∈ kvs, jdepth kv.2 ≤ D) :
    ∀ acc, jdepthKvs acc ≤ D →
      jdepthKvs (kvs.foldl (fun acc kv =>
        if (JObj.get acc kv.1).isNone then JObj.insertKey acc kv.1 kv.2 else acc)
          acc) ≤ D := by
  induction kvs with
  | nil => exact fun acc h => h
  | cons kv rest ih =>
    intro acc hacc
    simp only [List.foldl_cons]
    refine ih (fun kv' hkv' => hv kv' (List.mem_cons_of_mem _ hkv')) _ ?_
    by_cases hc : (JObj.get acc kv.1).isNone
    · rw [if_pos hc]
      have h1 := jdepthKvs_insertKey acc kv.1 kv.2
      have h2 := hv kv (List.mem_cons_self kv rest)
      omega
    · rw [if_neg hc]
      exact hacc

theorem stageAllOf_depth (o : List (String × JVal)) :
    jdepthKvs (stageAllOf o) ≤ jdepthKvs o := by
  rcases hg : JObj.get o "allOf" with _ | v
  · simp [stageAllOf, hg]
  · cases v with
    | arr xs =>
      cases xs with
      | nil =>
        simp only [stageAllOf, hg]
        exact jdepthKvs_removeKey o "allOf"
      | cons first rest =>
        cases first with
        | obj firstKvs =>
          simp only [stageAllOf, hg]
          refine foldlInsert_depth firstKvs (jdepthKvs o) ?_ _
            (jdepthKvs_removeKey o "allOf")
          intro kv hkv
          have h1 := jdepth_le_of_mem firstKvs kv hkv
          have h2 := jdepth_get_le o "allOf"
            (JVal.arr (JVal.obj firstKvs :: rest)) hg
          have e1 : jdepth (JVal.arr (JVal.obj firstKvs :: rest)) =
              1 + jdepthList (JVal.obj firstKvs :: rest) := rfl
          have e2 : jdepthList (JVal.obj firstKvs :: rest) =
              max (jdepth (JVal.obj firstKvs)) (jdepthList rest) := rfl
          have e3 : jdepth (JVal.obj firstKvs) = 1 + jdepthKvs firstKvs := rfl
          omega
        | null => simp only [stageAllOf, hg]; exact jdepthKvs_removeKey o "allOf"
        | bool b => simp only [stageAllOf, hg]; exact jdepthKvs_removeKey o "allOf"
        | num q => simp only [stageAllOf, hg]; exact jdepthKvs_removeKey o "allOf"
        | str s => simp only [stageAllOf, hg]; exact jdepthKvs_removeKey o "allOf"
        | arr ys => simp only [stageAllOf, hg]; exact jdepthKvs_removeKey o "allOf"
    | null => simp only [stageAllOf, hg]; exact jdepthKvs_removeKey o "allOf"
    | bool b => simp only [stageAllOf, hg]; exact jdepthKvs_removeKey o "allOf"
    | num q => simp only [stageAllOf, hg]; exact jdepthKvs_removeKey o "allOf"
    | str s => simp only [stageAllOf, hg]; exact jdepthKvs_removeKey o "allOf"
    | obj kvs => simp only [stageAllOf, hg]; exact jdepthKvs_removeKey o "allOf"

theorem exclusiveHalf_depth (o : List (String × JVal)) (ex key : String)
    (isMin : Bool) : jdepthKvs (exclusiveHalf o ex key isMin) ≤ jdepthKvs o := by
  rcases hg : JObj.get o ex with _ | v
  · simp [exclusiveHalf, hg]
  · simp only [exclusiveHalf, hg]
    repeat' split
    all_goals
      first
        | exact jdepthKvs_removeKey o ex
        | exact le_trans (depth_insert_flat _ key _ rfl) (jdepthKvs_removeKey o ex)

theorem stageExclusive_depth (o : List (String × JVal)) :
    jdepthKvs (stageExclusive o) ≤ jdepthKvs o := by
  unfold stageExclusive
  exact le_trans (exclusiveHalf_depth _ _ _ _) (exclusiveHalf_depth _ _ _ _)

theorem stageTypeNorm_depth (o : List (String × JVal)) :
    jdepthKvs (stageTypeNorm o) ≤ jdepthKvs o := by
  rcases hg : JObj.get o "type" with _ | v
  · simp [stageTypeNorm, hg]
  · simp only [stageTypeNorm, hg]
    repeat' split
    all_goals
      first
        | exact le_refl _
        | exact depth_insert_flat o "type" _ rfl
        | exact le_trans (depth_insert_flat _ "type" _ rfl)
            (depth_insert_flat o "nullable" _ rfl)
        | exact le_trans (jdepthKvs_removeKey _ "type")
            (depth_insert_flat o "nullable" _ rfl)
        | exact jdepthKvs_removeKey o "type"

theorem stageTypeDefault_depth (o : List (String × JVal)) :
    jdepthKvs (stageTypeDefault o) ≤ jdepthKvs o := by
  unfold stageTypeDefault
  repeat' split
  all_goals
    first
      | exact le_refl _
      | exact depth_insert_flat o "type" _ rfl

theorem jdepthList_mapEnumStr (xs : List JVal) :
    jdepthList (xs.map (fun it => JVal.str (enumElemString it))) = 0 := by
  induction xs with
  | nil => rfl
  | cons x rest ih =>
    simp only [List.map_cons, jdepthList, ih]
    rfl

theorem jdepthList_mapStr (out : List String) :
    jdepthList (out.map JVal.str) = 0 := by
  induction out with
  | nil => rfl
  | cons t rest ih =>
    simp only [List.map_cons, jdepthList, ih]
    rfl

theorem stageEnum_depth (o : List (String × JVal)) :
    jdepthKvs (stageEnum o) ≤ jdepthKvs o := by
  rcases hg : JObj.get o "enum" with _ | w
  · simp only [stageEnum, hg, Option.none_bind]
    exact jdepthKvs_removeKey o "enum"
  · cases w with
    | arr xs =>
      simp only [stageEnum, hg, Option.some_bind, normalizeEnum]
      have h1 := jdepthKvs_insertKey o "enum"
        (JVal.arr (xs.map (fun it => JVal.str (enumElemString it))))
      have h2 := jdepth_get_le o "enum" (JVal.arr xs) hg
      have e1 : jdepth (JVal.arr (xs.map (fun it => JVal.str (enumElemString it)))) =
          1 + jdepthList (xs.map (fun it => JVal.str (enumElemString it))) := rfl
      have e2 := jdepthList_mapEnumStr xs
      have e3 : jdepth (JVal.arr xs) = 1 + jdepthList xs := rfl
      omega
    | null =>
      simp only [stageEnum, hg, Option.some_bind, normalizeEnum]
      exact jdepthKvs_removeKey o "enum"
    | bool b =>
      simp only [stageEnum, hg, Option.some_bind, normalizeEnum]
      exact jdepthKvs_removeKey o "enum"
    | num q =>
      simp only [stageEnum, hg, Option.some_bind, normalizeEnum]
      exact jdepthKvs_removeKey o "enum"
    | str s =>
      simp only [stageEnum, hg, Option.some_bind, normalizeEnum]
      exact jdepthKvs_removeKey o "enum"
    | obj kvs =>
      simp only [stageEnum, hg, Option.some_bind, normalizeEnum]
      exact jdepthKvs_removeKey o "enum"

theorem insert_strArr_depth (o : List (String × JVal)) (k : String)
    (l : List String) (hpos : 1 ≤ jdepthKvs o) :
    jdepthKvs (JObj.insertKey o k (JVal.arr (l.map JVal.str))) ≤ jdepthKvs o := by
  have h1 := jdepthKvs_insertKey o k (JVal.arr (l.map JVal.str))
  have e1 : jdepth (JVal.arr (l.map JVal.str)) = 1 + jdepthList (l.map JVal.str) := rfl
  have e2 := jdepthList_mapStr l
  omega

theorem stageRequired_depth (o : List (String × JVal)) :
    jdepthKvs (stageRequired o) ≤ jdepthKvs o := by
  rcases hg : JObj.get o "required" with _ | w
  · simp only [stageRequired, hg, Option.none_bind]
    exact jdepthKvs_removeKey o "required"
  · cases w with
    | arr xs =>
      simp only [stageRequired, hg, Option.some_bind, normalizeStringArray]
      by_cases hemp : (xs.filterMap (fun it =>
          match it with
          | JVal.str s =>
            let t := strTrim s
            if t = "" then none else some t
          | _ => none)).isEmpty
      · rw [if_pos hemp]
        exact jdepthKvs_removeKey o "required"
      · rw [if_neg hemp]
        refine insert_strArr_depth o "required" _ ?_
        have h2 := jdepth_get_le o "required" (JVal.arr xs) hg
        have e3 : jdepth (JVal.arr xs) = 1 + jdepthList xs := rfl
        omega
    | null =>
      simp only [stageRequired, hg, Option.some_bind, normalizeStringArray]
      exact jdepthKvs_removeKey o "required"
    | bool b =>
      simp only [stageRequired, hg, Option.some_bind, normalizeStringArray]
      exact jdepthKvs_removeKey o "required"
    | num q =>
      simp only [stageRequired, hg, Option.some_bind, normalizeStringArray]
      exact jdepthKvs_removeKey o "required"
    | str s =>
      simp only [stageRequired, hg, Option.some_bind, normalizeStringArray]
      exact jdepthKvs_removeKey o "required"
    | obj kvs =>
      simp only [stageRequired, hg, Option.some_bind, normalizeStringArray]
      exact jdepthKvs_removeKey o "required"

theorem stageBound_depth (key : String) (o : List (String × JVal)) :
    jdepthKvs (stageBound key o) ≤ jdepthKvs o := by
  unfold stageBound
  split
  · exact depth_insert_flat o key _ rfl
  · exact jdepthKvs_removeKey o key

theorem foldl_removeKey_depth (ks : List String) :
    ∀ o : List (String × JVal), jdepthKvs (ks.foldl JObj.removeKey o) ≤ jdepthKvs o := by
  induction ks with
  | nil => exact fun o => le_refl _
  | cons k ks ih =>
    intro o
    simp only [List.foldl_cons]
    exact le_trans (ih _) (jdepthKvs_removeKey o k)

theorem stageRemoveUnsupported_depth (o : List (String × JVal)) :
    jdepthKvs (stageRemoveUnsupported o) ≤ jdepthKvs o :=
  foldl_removeKey_depth unsupportedKeys o

/-- The `type` value after `normalize_type_field` is absent or a fixed
point of the normaliser. -/
theorem stageTypeNorm_type (o : List (String × JVal)) :
    JObj.get (stageTypeNorm o) "type" = none ∨
      ∃ s, JObj.get (stageTypeNorm o) "type" = some (JVal.str s) ∧
        (normalizeVertexType s = some s ∨ normalizeVertexType s = none) := by
  rcases hg : JObj.get o "type" with _ | v
  · left
    simp only [stageTypeNorm, hg]
  · cases v with
    | str s =>
      rcases hn : normalizeVertexType s with _ | n
      · right
        refine ⟨s, ?_, Or.inr hn⟩
        simp only [stageTypeNorm, hg, hn]
      · right
        refine ⟨n, ?_, Or.inl (normalizeVertexType_fix s n hn)⟩
        simp only [stageTypeNorm, hg, hn]
        exact JObj.get_insertKey_self o "type" (JVal.str n)
    | arr xs =>
      simp only [stageTypeNorm, hg]
      split
      next t hfs =>
        split
        next n hn =>
          right
          exact ⟨n, JObj.get_insertKey_self _ "type" _,
            Or.inl (normalizeVertexType_fix t n hn)⟩
        next hn =>
          right
          exact ⟨strToUpper (strTrim t), JObj.get_insertKey_self _ "type" _,
            Or.inr (normalizeVertexType_none_up t hn)⟩
      next hfs =>
        left
        exact JObj.get_removeKey_self _ "type"
    | null =>
      left
      simp only [stageTypeNorm, hg]
      exact JObj.get_removeKey_self o "type"
    | bool b =>
      left
      simp only [stageTypeNorm, hg]
      exact JObj.get_removeKey_self o "type"
    | num q =>
      left
      simp only [stageTypeNorm, hg]
      exact JObj.get_removeKey_self o "type"
    | obj kvs =>
      left
      simp only [stageTypeNorm, hg]
      exact JObj.get_removeKey_self o "type"

/-- After the default-type stage the `type` is a fixed-point string, or
absent together with `properties` and `items`. -/
theorem stageTypeDefault_type (o : List (String × JVal))
    (h : JObj.get o "type" = none ∨
      ∃ s, JObj.get o "type" = some (JVal.str s) ∧
        (normalizeVertexType s = some s ∨ normalizeVertexType s = none)) :
    (∃ s, JObj.get (stageTypeDefault o) "type" = some (JVal.str s) ∧
      (normalizeVertexType s = some s ∨ normalizeVertexType s = none)) ∨
      (JObj.get (stageTypeDefault o) "type" = none ∧
        JObj.get (stageTypeDefault o) "properties" = none ∧
        JObj.get (stageTypeDefault o) "items" = none) := by
  rcases h with hnone | ⟨s, hs, hfix⟩
  · rcases hp : JObj.get o "properties" with _ | pv
    · rcases hi : JObj.get o "items" with _ | iv
      · right
        have he : stageTypeDefault o = o := by
          simp [stageTypeDefault, hnone, hp, hi]
        rw [he]
        exact ⟨hnone, hp, hi⟩
      · left
        refine ⟨"ARRAY", ?_, Or.inl (by decide)⟩
        have he : stageTypeDefault o = JObj.insertKey o "type" (JVal.str "ARRAY") := by
          simp [stageTypeDefault, hnone, hp, hi]
        rw [he]
        exact JObj.get_insertKey_self o "type" _
    · left
      refine ⟨"OBJECT", ?_, Or.inl (by decide)⟩
      have he : stageTypeDefault o = JObj.insertKey o "type" (JVal.str "OBJECT") := by
        simp [stageTypeDefault, hnone, hp]
      rw [he]
      exact JObj.get_insertKey_self o "type" _
  · left
    have he : stageTypeDefault o = o := by
      simp [stageTypeDefault, hs]
    rw [he]
    exact ⟨s, hs, hfix⟩

/-- The `enum` value after its normalisation stage is a fixed point. -/
theorem stageEnum_enum (o : List (String × JVal)) :
    ∀ v, JObj.get (stageEnum o) "enum" = some v → normalizeEnum v = some v := by
  intro v hv
  unfold stageEnum at hv
  rcases hb : (JObj.get o "enum").bind normalizeEnum with _ | u
  · rw [hb] at hv
    have hv' : JObj.get (JObj.removeKey o "enum") "enum" = some v := hv
    rw [JObj.get_removeKey_self] at hv'
    exact Option.noConfusion hv'
  · rw [hb] at hv
    have hv' : JObj.get (JObj.insertKey o "enum" u) "enum" = some v := hv
    rw [JObj.get_insertKey_self] at hv'
    have hu : u = v := Option.some_inj.mp hv'
    subst hu
    rcases how : JObj.get o "enum" with _ | w
    · rw [how, Option.none_bind] at hb
      exact Option.noConfusion hb
    · rw [how, Option.some_bind] at hb
      exact normalizeEnum_fix w u hb

/-- The `required` value after its normalisation stage is a fixed point. -/
theorem stageRequired_required (o : List (String × JVal)) :
    ∀ v, JObj.get (stageRequired o) "required" = some v →
      normalizeStringArray v = some v := by
  intro v hv
  unfold stageRequired at hv
  rcases hb : (JObj.get o "required").bind normalizeStringArray with _ | u
  · rw [hb] at hv
    have hv' : JObj.get (JObj.removeKey o "required") "required" = some v := hv
    rw [JObj.get_removeKey_self] at hv'
    exact Option.noConfusion hv'
  · rw [hb] at hv
    have hv' : JObj.get (JObj.insertKey o "required" u) "required" = some v := hv
    rw [JObj.get_insertKey_self] at hv'
    have hu : u = v := Option.some_inj.mp hv'
    subst hu
    rcases how : JObj.get o "required" with _ | w
    · rw [how, Option.none_bind] at hb
      exact Option.noConfusion hb
    · rw [how, Option.some_bind] at hb
      exact normalizeStringArray_fix w u hb

/-- A bound surviving its normalisation stage is a number. -/
theorem stageBound_num (key : String) (o : List (String × JVal)) :
    ∀ v, JObj.get (stageBound key o) key = some v → ∃ q, v = JVal.num q := by
  intro v hv
  unfold stageBound at hv
  rcases hb : (JObj.get o key).bind toF64 with _ | f
  · rw [hb] at hv
    have hv' : JObj.get (JObj.removeKey o key) key = some v := hv
    rw [JObj.get_removeKey_self] at hv'
    exact Option.noConfusion hv'
  · rw [hb] at hv
    have hv' : JObj.get (JObj.insertKey o key (JVal.num f)) key = some v := hv
    rw [JObj.get_insertKey_self] at hv'
    exact ⟨f, (Option.some_inj.mp hv').symm⟩

theorem checkStrKey_get_keepStr (o : List (String × JVal)) (k s : String)
    (h : JObj.get o k = some (JVal.str s)) :
    JObj.get (checkStrKey o k) k = some (JVal.str s) := by
  unfold checkStrKey
  rw [h]
  exact h

/-- The allow-list enforcement turns an object whose normalised fields are
fixed points into a fully sanitised object. -/
theorem enforce_san (o : List (String × JVal))
    (htype : (∃ s, JObj.get o "type" = some (JVal.str s) ∧
        (normalizeVertexType s = some s ∨ normalizeVertexType s = none)) ∨
      (JObj.get o "type" = none ∧ JObj.get o "properties" = none ∧
        JObj.get o "items" = none))
    (henum : ∀ v, JObj.get o "enum" = some v → normalizeEnum v = some v)
    (hreq : ∀ v, JObj.get o "required" = some v → normalizeStringArray v = some v)
    (hmin : ∀ v, JObj.get o "minimum" = some v → ∃ q, v = JVal.num q)
    (hmax : ∀ v, JObj.get o "maximum" = some v → ∃ q, v = JVal.num q)
    (hprops : SanProps (JObj.get o "properties"))
    (hdefs : SanProps (JObj.get o "defs"))
    (hitems : SanItems (JObj.get o "items"))
    (hanyOf : SanAnyOf (JObj.get o "anyOf")) :
    SanObj (enforceVertexSchemaAllowlist o) := by
  have hgetE : ∀ k, k ∈ vertexAllowedKeys → k ≠ "ref" → k ≠ "type" →
      k ≠ "description" → k ≠ "nullable" →
      JObj.get (enforceVertexSchemaAllowlist o) k = JObj.get o k := by
    intro k hk h1 h2 h3 h4
    unfold enforceVertexSchemaAllowlist finalTypeChecks
    rw [checkBoolKey_get_other _ _ _ h4, checkStrKey_get_other _ _ _ h3,
      checkStrKey_get_other _ _ _ h2, checkStrKey_get_other _ _ _ h1,
      filterAllowed_get o k hk]
  have hgetType : ∀ v, JObj.get (enforceVertexSchemaAllowlist o) "type" = some v →
      JObj.get o "type" = some v ∧ ∃ s, v = JVal.str s := by
    intro v hv
    unfold enforceVertexSchemaAllowlist finalTypeChecks at hv
    rw [checkBoolKey_get_other _ _ _ (by decide),
      checkStrKey_get_other _ _ _ (by decide)] at hv
    obtain ⟨hv1, hs⟩ := checkStrKey_get_self _ "type" v hv
    rw [checkStrKey_get_other _ _ _ (by decide),
      filterAllowed_get o _ (by decide)] at hv1
    exact ⟨hv1, hs⟩
  refine SanObj.intro _ ?_ ?_ ?_ ?_ ?_ ?_ ?_ ?_ ?_ ?_ ?_ ?_ ?_ ?_
  · intro kv hkv
    unfold enforceVertexSchemaAllowlist finalTypeChecks at hkv
    exact filterAllowed_mem o kv (checkStrKey_mem _ _ _ (checkStrKey_mem _ _ _
      (checkStrKey_mem _ _ _ (checkBoolKey_mem _ _ _ hkv))))
  · intro v hv
    obtain ⟨hv1, s, rfl⟩ := hgetType v hv
    refine ⟨s, rfl, ?_⟩
    rcases htype with ⟨s', hs', hfix⟩ | ⟨hnone, -, -⟩
    · have he : JVal.str s' = JVal.str s := Option.some_inj.mp (hs'.symm.trans hv1)
      injection he with he'
      exact he' ▸ hfix
    · rw [hnone] at hv1
      exact Option.noConfusion hv1
  · intro hnoneE
    rcases htype with ⟨s, hs, -⟩ | ⟨hnone, hp, hi⟩
    · have hE : JObj.get (enforceVertexSchemaAllowlist o) "type" =
          some (JVal.str s) := by
        unfold enforceVertexSchemaAllowlist finalTypeChecks
        rw [checkBoolKey_get_other _ _ _ (by decide),
          checkStrKey_get_other _ _ _ (by decide)]
        refine checkStrKey_get_keepStr _ "type" s ?_
        rw [checkStrKey_get_other _ _ _ (by decide),
          filterAllowed_get o _ (by decide)]
        exact hs
      rw [hE] at hnoneE
      exact Option.noConfusion hnoneE
    · constructor
      · rw [hgetE "properties" (by decide) (by decide) (by decide) (by decide)
          (by decide)]
        exact hp
      · rw [hgetE "items" (by decide) (by decide) (by decide) (by decide)
          (by decide)]
        exact hi
  · intro v hv
    rw [hgetE "enum" (by decide) (by decide) (by decide) (by decide)
      (by decide)] at hv
    exact henum v hv
  · intro v hv
    rw [hgetE "required" (by decide) (by decide) (by decide) (by decide)
      (by decide)] at hv
    exact hreq v hv
  · intro v hv
    rw [hgetE "minimum" (by decide) (by decide) (by decide) (by decide)
      (by decide)] at hv
    exact hmin v hv
  · intro v hv
    rw [hgetE "maximum" (by decide) (by decide) (by decide) (by decide)
      (by decide)] at hv
    exact hmax v hv
  · intro v hv
    unfold enforceVertexSchemaAllowlist finalTypeChecks at hv
    rw [checkBoolKey_get_other _ _ _ (by decide),
      checkStrKey_get_other _ _ _ (by decide),
      checkStrKey_get_other _ _ _ (by decide)] at hv
    exact (checkStrKey_get_self _ "ref" v hv).2
  · intro v hv
    unfold enforceVertexSchemaAllowlist finalTypeChecks at hv
    rw [checkBoolKey_get_other _ _ _ (by decide)] at hv
    exact (checkStrKey_get_self _ "description" v hv).2
  · intro v hv
    unfold enforceVertexSchemaAllowlist finalTypeChecks at hv
    exact (checkBoolKey_get_self _ "nullable" v hv).2
  · rw [hgetE "properties" (by decide) (by decide) (by decide) (by decide)
      (by decide)]
    exact hprops
  · rw [hgetE "defs" (by decide) (by decide) (by decide) (by decide) (by decide)]
    exact hdefs
  · rw [hgetE "items" (by decide) (by decide) (by decide) (by decide) (by decide)]
    exact hitems
  · rw [hgetE "anyOf" (by decide) (by decide) (by decide) (by decide) (by decide)]
    exact hanyOf

/-- With fuel exceeding the nesting depth, the sanitiser's output is a
sanitised object. -/
theorem sanitizeObj_san (fuel : Nat) : ∀ o, jdepthKvs o < fuel →
    SanObj (sanitizeObj fuel o) := by
  induction fuel with
  | zero => exact fun o h => absurd h (Nat.not_lt_zero _)
  | succ fuel ih =>
    intro o hdepth
    have e : sanitizeObj (fuel + 1) o =
        enforceVertexSchemaAllowlist (stageAnyOfWith (fun c => sanitizeObj fuel c)
          (stageItemsWith (fun c => sanitizeObj fuel c)
            (stagePropsWith (fun c => sanitizeObj fuel c)
              (stageDefsWith (fun c => sanitizeObj fuel c)
                (stageRemoveUnsupported (stageBound "maximum" (stageBound "minimum"
                  (stageRequired (stageEnum (stageTypeDefault (stageTypeNorm
                    (stageExclusive (stageAllOf (stageOneOf (stageRenames
                      (stageMeta o)))))))))))))))) := by
      simp only [sanitizeObj]
    rw [e]
    set o5 := stageExclusive (stageAllOf (stageOneOf (stageRenames (stageMeta o))))
      with ho5
    set o6 := stageTypeNorm o5 with ho6
    set o7 := stageTypeDefault o6 with ho7
    set o8 := stageEnum o7 with ho8
    set o9 := stageRequired o8 with ho9
    set o10 := stageBound "minimum" o9 with ho10
    set o11 := stageBound "maximum" o10 with ho11
    set o12 := stageRemoveUnsupported o11 with ho12
    set o13 := stageDefsWith (fun c => sanitizeObj fuel c) o12 with ho13
    set o14 := stagePropsWith (fun c => sanitizeObj fuel c) o13 with ho14
    set o15 := stageItemsWith (fun c => sanitizeObj fuel c) o14 with ho15
    set o16 := stageAnyOfWith (fun c => sanitizeObj fuel c) o15 with ho16
    have d12 : jdepthKvs o12 ≤ jdepthKvs o := by
      rw [ho12, ho11, ho10, ho9, ho8, ho7, ho6, ho5]
      exact le_trans (stageRemoveUnsupported_depth _) (le_trans (stageBound_depth _ _)
        (le_trans (stageBound_depth _ _) (le_trans (stageRequired_depth _)
          (le_trans (stageEnum_depth _) (le_trans (stageTypeDefault_depth _)
            (le_trans (stageTypeNorm_depth _) (le_trans (stageExclusive_depth _)
              (le_trans (stageAllOf_depth _) (le_trans (stageOneOf_depth _)
                (le_trans (stageRenames_depth _) (stageMeta_depth o)))))))))))
    have gt : JObj.get o16 "type" = JObj.get o7 "type" := by
      rw [ho16, ho15, ho14, ho13, ho12, ho11, ho10, ho9, ho8]
      rw [stageAnyOfWith_get _ _ _ (by decide), stageItemsWith_get _ _ _ (by decide),
        stagePropsWith_get _ _ _ (by decide), stageDefsWith_get _ _ _ (by decide),
        stageRemoveUnsupported_get _ _ (by decide), stageBound_get _ _ _ (by decide),
        stageBound_get _ _ _ (by decide), stageRequired_get _ _ (by decide),
        stageEnum_get _ _ (by decide)]
    have gen : JObj.get o16 "enum" = JObj.get o8 "enum" := by
      rw [ho16, ho15, ho14, ho13, ho12, ho11, ho10, ho9]
      rw [stageAnyOfWith_get _ _ _ (by decide), stageItemsWith_get _ _ _ (by decide),
        stagePropsWith_get _ _ _ (by decide), stageDefsWith_get _ _ _ (by decide),
        stageRemoveUnsupported_get _ _ (by decide), stageBound_get _ _ _ (by decide),
        stageBound_get _ _ _ (by decide), stageRequired_get _ _ (by decide)]
    have grq : JObj.get o16 "required" = JObj.get o9 "required" := by
      rw [ho16, ho15, ho14, ho13, ho12, ho11, ho10]
      rw [stageAnyOfWith_get _ _ _ (by decide), stageItemsWith_get _ _ _ (by decide),
        stagePropsWith_get _ _ _ (by decide), stageDefsWith_get _ _ _ (by decide),
        stageRemoveUnsupported_get _ _ (by decide), stageBound_get _ _ _ (by decide),
        stageBound_get _ _ _ (by decide)]
    have gmn : JObj.get o16 "minimum" = JObj.get o10 "minimum" := by
      rw [ho16, ho15, ho14, ho13, ho12, ho11]
      rw [stageAnyOfWith_get _ _ _ (by decide), stageItemsWith_get _ _ _ (by decide),
        stagePropsWith_get _ _ _ (by decide), stageDefsWith_get _ _ _ (by decide),
        stageRemoveUnsupported_get _ _ (by decide), stageBound_get _ _ _ (by decide)]
    have gmx : JObj.get o16 "maximum" = JObj.get o11 "maximum" := by
      rw [ho16, ho15, ho14, ho13, ho12]
      rw [stageAnyOfWith_get _ _ _ (by decide), stageItemsWith_get _ _ _ (by decide),
        stagePropsWith_get _ _ _ (by decide), stageDefsWith_get _ _ _ (by decide),
        stageRemoveUnsupported_get _ _ (by decide)]
    have gpr16 : JObj.get o16 "properties" = JObj.get o14 "properties" := by
      rw [ho16, ho15]
      rw [stageAnyOfWith_get _ _ _ (by decide), stageItemsWith_get _ _ _ (by decide)]
    have gpr12 : JObj.get o13 "properties" = JObj.get o12 "properties" := by
      rw [ho13]
      rw [stageDefsWith_get _ _ _ (by decide)]
    have gdf : JObj.get o16 "defs" = JObj.get o13 "defs" := by
      rw [ho16, ho15, ho14]
      rw [stageAnyOfWith_get _ _ _ (by decide), stageItemsWith_get _ _ _ (by decide),
        stagePropsWith_get _ _ _ (by decide)]
    have git16 : JObj.get o16 "items" = JObj.get o15 "items" := by
      rw [ho16]
      rw [stageAnyOfWith_get _ _ _ (by decide)]
    have git14 : JObj.get o14 "items" = JObj.get o12 "items" := by
      rw [ho14, ho13]
      rw [stagePropsWith_get _ _ _ (by decide), stageDefsWith_get _ _ _ (by decide)]
    have gao15 : JObj.get o15 "anyOf" = JObj.get o12 "anyOf" := by
      rw [ho15, ho14, ho13]
      rw [stageItemsWith_get _ _ _ (by decide), stagePropsWith_get _ _ _ (by decide),
        stageDefsWith_get _ _ _ (by decide)]
    have gpr7 : JObj.get o12 "properties" = JObj.get o7 "properties" := by
      rw [ho12, ho11, ho10, ho9, ho8]
      rw [stageRemoveUnsupported_get _ _ (by decide), stageBound_get _ _ _ (by decide),
        stageBound_get _ _ _ (by decide), stageRequired_get _ _ (by decide),
        stageEnum_get _ _ (by decide)]
    have git7 : JObj.get o12 "items" = JObj.get o7 "items" := by
      rw [ho12, ho11, ho10, ho9, ho8]
      rw [stageRemoveUnsupported_get _ _ (by decide), stageBound_get _ _ _ (by decide),
        stageBound_get _ _ _ (by decide), stageRequired_get _ _ (by decide),
        stageEnum_get _ _ (by decide)]
    have htype6 := stageTypeNorm_type o5
    rw [← ho6] at htype6
    have htype7 := stageTypeDefault_type o6 htype6
    rw [← ho7] at htype7
    refine enforce_san o16 ?_ ?_ ?_ ?_ ?_ ?_ ?_ ?_ ?_
    · rcases htype7 with ⟨s, h7, hfix⟩ | ⟨h7n, h7p, h7i⟩
      · exact Or.inl ⟨s, gt.trans h7, hfix⟩
      · refine Or.inr ⟨gt.trans h7n, ?_, ?_⟩
        · have hp13 : JObj.get o13 "properties" = none := by
            rw [gpr12, gpr7]
            exact h7p
          have h14 : o14 = o13 := by
            rw [ho14]
            simp [stagePropsWith, hp13]
          rw [gpr16, h14]
          exact hp13
        · have hi14 : JObj.get o14 "items" = none := by
            rw [git14, git7]
            exact h7i
          have h15 : o15 = o14 := by
            rw [ho15]
            simp [stageItemsWith, hi14]
          rw [git16, h15]
          exact hi14
    · intro v hv
      rw [gen, ho8] at hv
      exact stageEnum_enum o7 v hv
    · intro v hv
      rw [grq, ho9] at hv
      exact stageRequired_required o8 v hv
    · intro v hv
      rw [gmn, ho10] at hv
      exact stageBound_num "minimum" o9 v hv
    · intro v hv
      rw [gmx, ho11] at hv
      exact stageBound_num "maximum" o10 v hv
    · rw [gpr16]
      rcases hp12 : JObj.get o12 "properties" with _ | pv
      · have hp13 : JObj.get o13 "properties" = none := by
          rw [gpr12]
          exact hp12
        have h14 : o14 = o13 := by
          rw [ho14]
          simp [stagePropsWith, hp13]
        rw [h14, hp13]
        exact SanProps.none
      · have hp13 : JObj.get o13 "properties" = some pv := by
          rw [gpr12]
          exact hp12
        cases pv with
        | obj P =>
          have h14 : JObj.get o14 "properties" = some (JVal.obj (P.filterMap
              (fun kv =>
                match kv.2 with
                | JVal.obj cc => some (kv.1, JVal.obj (sanitizeObj fuel cc))
                | _ => none))) := by
            rw [ho14]
            simp only [stagePropsWith, hp13]
            exact JObj.get_insertKey_self _ _ _
          rw [h14]
          refine SanProps.some _ (SanKvs_of_forall _ ?_)
          intro kv hkv
          obtain ⟨a, ha, hfa⟩ := List.mem_filterMap.mp hkv
          obtain ⟨k0, v0⟩ := a
          cases v0 with
          | obj c =>
            have hkv' : (k0, JVal.obj (sanitizeObj fuel c)) = kv :=
              Option.some_inj.mp hfa
            refine ⟨sanitizeObj fuel c, ?_, ih c ?_⟩
            · rw [← hkv']
            · have h1 := jdepth_le_of_mem P (k0, JVal.obj c) ha
              have h2 : jdepth (JVal.obj c) = 1 + jdepthKvs c := rfl
              have h3 := jdepth_get_le o12 "properties" (JVal.obj P) hp12
              have h4 : jdepth (JVal.obj P) = 1 + jdepthKvs P := rfl
              simp only at h1
              omega
          | null =>
            have hfa' : (none : Option (String × JVal)) = some kv := hfa
            exact Option.noConfusion hfa'
          | bool b =>
            have hfa' : (none : Option (String × JVal)) = some kv := hfa
            exact Option.noConfusion hfa'
          | num q =>
            have hfa' : (none : Option (String × JVal)) = some kv := hfa
            exact Option.noConfusion hfa'
          | str s =>
            have hfa' : (none : Option (String × JVal)) = some kv := hfa
            exact Option.noConfusion hfa'
          | arr ys =>
            have hfa' : (none : Option (String × JVal)) = some kv := hfa
            exact Option.noConfusion hfa'
        | null =>
          have h14 : JObj.get o14 "properties" = none := by
            rw [ho14]
            simp only [stagePropsWith, hp13]
            exact JObj.get_removeKey_self _ _
          rw [h14]
          exact SanProps.none
        | bool b =>
          have h14 : JObj.get o14 "properties" = none := by
            rw [ho14]
            simp only [stagePropsWith, hp13]
            exact JObj.get_removeKey_self _ _
          rw [h14]
          exact SanProps.none
        | num q =>
          have h14 : JObj.get o14 "properties" = none := by
            rw [ho14]
            simp only [stagePropsWith, hp13]
            exact JObj.get_removeKey_self _ _
          rw [h14]
          exact SanProps.none
        | str s =>
          have h14 : JObj.get o14 "properties" = none := by
            rw [ho14]
            simp only [stagePropsWith, hp13]
            exact JObj.get_removeKey_self _ _
          rw [h14]
          exact SanProps.none
        | arr ys =>
          have h14 : JObj.get o14 "properties" = none := by
            rw [ho14]
            simp only [stagePropsWith, hp13]
            exact JObj.get_removeKey_self _ _
          rw [h14]
          exact SanProps.none
    · rw [gdf]
      rcases hd12 : JObj.get o12 "defs" with _ | dv
      · have h13 : o13 = o12 := by
          rw [ho13]
          simp [stageDefsWith, hd12]
        rw [h13, hd12]
        exact SanProps.none
      · cases dv with
        | obj P =>
          have h13 : JObj.get o13 "defs" = some (JVal.obj (P.filterMap
              (fun kv =>
                match kv.2 with
                | JVal.obj cc => some (kv.1, JVal.obj (sanitizeObj fuel cc))
                | _ => none))) := by
            rw [ho13]
            simp only [stageDefsWith, hd12]
            exact JObj.get_insertKey_self _ _ _
          rw [h13]
          refine SanProps.some _ (SanKvs_of_forall _ ?_)
          intro kv hkv
          obtain ⟨a, ha, hfa⟩ := List.mem_filterMap.mp hkv
          obtain ⟨k0, v0⟩ := a
          cases v0 with
          | obj c =>
            have hkv' : (k0, JVal.obj (sanitizeObj fuel c)) = kv :=
              Option.some_inj.mp hfa
            refine ⟨sanitizeObj fuel c, ?_, ih c ?_⟩
            · rw [← hkv']
            · have h1 := jdepth_le_of_mem P (k0, JVal.obj c) ha
              have h2 : jdepth (JVal.obj c) = 1 + jdepthKvs c := rfl
              have h3 := jdepth_get_le o12 "defs" (JVal.obj P) hd12
              have h4 : jdepth (JVal.obj P) = 1 + jdepthKvs P := rfl
              simp only at h1
              omega
          | null =>
            have hfa' : (none : Option (String × JVal)) = some kv := hfa
            exact Option.noConfusion hfa'
          | bool b =>
            have hfa' : (none : Option (String × JVal)) = some kv := hfa
            exact Option.noConfusion hfa'
          | num q =>
            have hfa' : (none : Option (String × JVal)) = some kv := hfa
            exact Option.noConfusion hfa'
          | str s =>
            have hfa' : (none : Option (String × JVal)) = some kv := hfa
            exact Option.noConfusion hfa'
          | arr ys =>
            have hfa' : (none : Option (String × JVal)) = some kv := hfa
            exact Option.noConfusion hfa'
        | null =>
          have h13 : JObj.get o13 "defs" = none := by
            rw [ho13]
            simp only [stageDefsWith, hd12]
            exact JObj.get_removeKey_self _ _
          rw [h13]
          exact SanProps.none
        | bool b =>
          have h13 : JObj.get o13 "defs" = none := by
            rw [ho13]
            simp only [stageDefsWith, hd12]
            exact JObj.get_removeKey_self _ _
          rw [h13]
          exact SanProps.none
        | num q =>
          have h13 : JObj.get o13 "defs" = none := by
            rw [ho13]
            simp only [stageDefsWith, hd12]
            exact JObj.get_removeKey_self _ _
          rw [h13]
          exact SanProps.none
        | str s =>
          have h13 : JObj.get o13 "defs" = none := by
            rw [ho13]
            simp only [stageDefsWith, hd12]
            exact JObj.get_removeKey_self _ _
          rw [h13]
          exact SanProps.none
        | arr ys =>
          have h13 : JObj.get o13 "defs" = none := by
            rw [ho13]
            simp only [stageDefsWith, hd12]
            exact JObj.get_removeKey_self _ _
          rw [h13]
          exact SanProps.none
    · rw [git16]
      rcases hi12 : JObj.get o12 "items" with _ | iv
      · have h15 : o15 = o14 := by
          rw [ho15]
          simp [stageItemsWith, git14.trans hi12]
        rw [h15, git14, hi12]
        exact SanItems.none
      · have hi14 : JObj.get o14 "items" = some iv := git14.trans hi12
        cases iv with
        | obj c =>
          have h15 : JObj.get o15 "items" = some (JVal.obj (sanitizeObj fuel c)) := by
            rw [ho15]
            simp only [stageItemsWith, hi14]
            exact JObj.get_insertKey_self _ _ _
          rw [h15]
          refine SanItems.some _ (ih c ?_)
          have h3 := jdepth_get_le o12 "items" (JVal.obj c) hi12
          have h4 : jdepth (JVal.obj c) = 1 + jdepthKvs c := rfl
          omega
        | arr xs =>
          rw [ho15]
          simp only [stageItemsWith, hi14]
          split
          next c hf =>
            rw [JObj.get_insertKey_self]
            refine SanItems.some _ (ih c ?_)
            obtain ⟨a, ha, hfa⟩ := List.exists_of_findSome?_eq_some hf
            have h3 := jdepth_get_le o12 "items" (JVal.arr xs) hi12
            have h4 : jdepth (JVal.arr xs) = 1 + jdepthList xs := rfl
            have h5 := jdepth_le_of_mem_list xs a ha
            cases a with
            | obj cc =>
              have hfa' : some cc = some c := hfa
              have hcc : cc = c := Option.some_inj.mp hfa'
              subst hcc
              have h6 : jdepth (JVal.obj cc) = 1 + jdepthKvs cc := rfl
              omega
            | null =>
              have hfa' : (none : Option (List (String × JVal))) = some c := hfa
              exact Option.noConfusion hfa'
            | bool b =>
              have hfa' : (none : Option (List (String × JVal))) = some c := hfa
              exact Option.noConfusion hfa'
            | num q =>
              have hfa' : (none : Option (List (String × JVal))) = some c := hfa
              exact Option.noConfusion hfa'
            | str s =>
              have hfa' : (none : Option (List (String × JVal))) = some c := hfa
              exact Option.noConfusion hfa'
            | arr ys =>
              have hfa' : (none : Option (List (String × JVal))) = some c := hfa
              exact Option.noConfusion hfa'
          next hf =>
            rw [JObj.get_removeKey_self]
            exact SanItems.none
        | null =>
          have h15 : JObj.get o15 "items" = none := by
            rw [ho15]
            simp only [stageItemsWith, hi14]
            exact JObj.get_removeKey_self _ _
          rw [h15]
          exact SanItems.none
        | bool b =>
          have h15 : JObj.get o15 "items" = none := by
            rw [ho15]
            simp only [stageItemsWith, hi14]
            exact JObj.get_removeKey_self _ _
          rw [h15]
          exact SanItems.none
        | num q =>
          have h15 : JObj.get o15 "items" = none := by
            rw [ho15]
            simp only [stageItemsWith, hi14]
            exact JObj.get_removeKey_self _ _
          rw [h15]
          exact SanItems.none
        | str s =>
          have h15 : JObj.get o15 "items" = none := by
            rw [ho15]
            simp only [stageItemsWith, hi14]
            exact JObj.get_removeKey_self _ _
          rw [h15]
          exact SanItems.none
    · rcases ha12 : JObj.get o12 "anyOf" with _ | av
      · have h16 : o16 = o15 := by
          rw [ho16]
          simp [stageAnyOfWith, gao15.trans ha12]
        rw [h16, gao15, ha12]
        exact SanAnyOf.none
      · have ha15 : JObj.get o15 "anyOf" = some av := gao15.trans ha12
        cases av with
        | arr xs =>
          rw [ho16]
          simp only [stageAnyOfWith, ha15]
          split
          next hemp =>
            rw [JObj.get_removeKey_self]
            exact SanAnyOf.none
          next hemp =>
            rw [JObj.get_insertKey_self]
            refine SanAnyOf.some _ ?_ (SanList_of_forall _ ?_)
            · intro hnil
              rw [hnil] at hemp
              exact hemp rfl
            · intro x hx
              obtain ⟨a, ha, hfa⟩ := List.mem_filterMap.mp hx
              have h3 := jdepth_get_le o12 "anyOf" (JVal.arr xs) ha12
              have h4 : jdepth (JVal.arr xs) = 1 + jdepthList xs := rfl
              have h5 := jdepth_le_of_mem_list xs a ha
              cases a with
              | obj c =>
                have hx' : JVal.obj (sanitizeObj fuel c) = x :=
                  Option.some_inj.mp hfa
                refine ⟨sanitizeObj fuel c, hx'.symm, ih c ?_⟩
                have h6 : jdepth (JVal.obj c) = 1 + jdepthKvs c := rfl
                omega
              | null =>
                have hfa' : (none : Option JVal) = some x := hfa
                exact Option.noConfusion hfa'
              | bool b =>
                have hfa' : (none : Option JVal) = some x := hfa
                exact Option.noConfusion hfa'
              | num q =>
                have hfa' : (none : Option JVal) = some x := hfa
                exact Option.noConfusion hfa'
              | str s =>
                have hfa' : (none : Option JVal) = some x := hfa
                exact Option.noConfusion hfa'
              | arr ys =>
                have hfa' : (none : Option JVal) = some x := hfa
                exact Option.noConfusion hfa'
        | null =>
          have h16 : JObj.get o16 "anyOf" = none := by
            rw [ho16]
            simp only [stageAnyOfWith, ha15]
            exact JObj.get_removeKey_self _ _
          rw [h16]
          exact SanAnyOf.none
        | bool b =>
          have h16 : JObj.get o16 "anyOf" = none := by
            rw [ho16]
            simp only [stageAnyOfWith, ha15]
            exact JObj.get_removeKey_self _ _
          rw [h16]
          exact SanAnyOf.none
        | num q =>
          have h16 : JObj.get o16 "anyOf" = none := by
            rw [ho16]
            simp only [stageAnyOfWith, ha15]
            exact JObj.get_removeKey_self _ _
          rw [h16]
          exact SanAnyOf.none
        | str s =>
          have h16 : JObj.get o16 "anyOf" = none := by
            rw [ho16]
            simp only [stageAnyOfWith, ha15]
            exact JObj.get_removeKey_self _ _
          rw [h16]
          exact SanAnyOf.none
        | obj kvs =>
          have h16 : JObj.get o16 "anyOf" = none := by
            rw [ho16]
            simp only [stageAnyOfWith, ha15]
            exact JObj.get_removeKey_self _ _
          rw [h16]
          exact SanAnyOf.none

/-- The claim's literal predicate: every key of every object anywhere in
the value (to the given nesting depth) lies in the allow-list. -/
def allKeysB : Nat → JVal → Bool
  | 0, _ => true
  | fuel + 1, .obj kvs =>
    kvs.all (fun kv => vertexAllowedKeys.contains kv.1 && allKeysB fuel kv.2)
  | fuel + 1, .arr xs => xs.all (fun x => allKeysB fuel x)
  | _ + 1, .null => true
  | _ + 1, .bool _ => true
  | _ + 1, .num _ => true
  | _ + 1, .str _ => true

/-- The allow-list property restricted to schema objects: the object's own
keys, and recursively the schema objects reachable through `properties`,
`defs`, `items` and `anyOf` (the positions the sanitiser recurses into). -/
def schemaKeysOkB : Nat → List (String × JVal) → Bool
  | 0, _ => true
  | fuel + 1, o =>
    o.all (fun kv => vertexAllowedKeys.contains kv.1) &&
    (match JObj.get o "properties" with
     | some (.obj p) => p.all (fun kv =>
         match kv.2 with
         | .obj c => schemaKeysOkB fuel c
         | _ => true)
     | _ => true) &&
    (match JObj.get o "defs" with
     | some (.obj p) => p.all (fun kv =>
         match kv.2 with
         | .obj c => schemaKeysOkB fuel c
         | _ => true)
     | _ => true) &&
    (match JObj.get o "items" with
     | some (.obj c) => schemaKeysOkB fuel c
     | _ => true) &&
    (match JObj.get o "anyOf" with
     | some (.arr xs) => xs.all (fun x =>
         match x with
         | .obj c => schemaKeysOkB fuel c
         | _ => true)
     | _ => true)

/-- A sanitised object passes the schema-object allow-list check at every
depth. -/
theorem sanObj_schemaKeysOkB : ∀ (fuel : Nat) (o : List (String × JVal)),
    SanObj o → schemaKeysOkB fuel o = true := by
  intro fuel
  induction fuel with
  | zero => intro o _; rfl
  | succ fuel ihf =>
    intro o h
    cases h with
    | intro o hkeys htS htN hen hrq hmn hmx hrf hds hnl hpr hdf hit hao =>
      simp only [schemaKeysOkB, Bool.and_eq_true]
      refine ⟨⟨⟨⟨?_, ?_⟩, ?_⟩, ?_⟩, ?_⟩
      · rw [List.all_eq_true]
        intro kv hkv
        exact List.elem_eq_true_of_mem (hkeys kv hkv)
      · rcases hp : JObj.get o "properties" with _ | pv
        · rfl
        · rw [hp] at hpr
          cases hpr with
          | some p hkvs =>
            rw [List.all_eq_true]
            intro kv hkv
            obtain ⟨c, hc, hsc⟩ := SanKvs_mem p kv hkvs hkv
            rw [hc]
            exact ihf c hsc
      · rcases hd : JObj.get o "defs" with _ | dv
        · rfl
        · rw [hd] at hdf
          cases hdf with
          | some p hkvs =>
            rw [List.all_eq_true]
            intro kv hkv
            obtain ⟨c, hc, hsc⟩ := SanKvs_mem p kv hkvs hkv
            rw [hc]
            exact ihf c hsc
      · rcases hi : JObj.get o "items" with _ | iv
        · rfl
        · rw [hi] at hit
          cases hit with
          | some c hc => exact ihf c hc
      · rcases ha : JObj.get o "anyOf" with _ | av
        · rfl
        · rw [ha] at hao
          cases hao with
          | some xs hne hl =>
            rw [List.all_eq_true]
            intro x hx
            obtain ⟨c, hc, hsc⟩ := SanList_mem xs x hl hx
            rw [hc]
            exact ihf c hsc

/-- The schema of the repository's own unit test
`schema_defaults_to_object_when_properties_present` (sanitize.rs lines
607-620): a bare `properties` map with one string-typed property. -/
def c7Input : List (String × JVal) :=
  [("properties", JVal.obj [("query", JVal.obj [("type", JVal.str "string")])])]

/-- C7, counterexample to the claim as stated.  The sanitised output of
`c7Input` keeps the property map under `properties`, whose keys are
property NAMES (`query`), not allow-listed schema keywords, so "every key
of every object in the sanitised output lies in the allow-list" is false.
The allow-list holds only for schema objects (see the amended theorem). -/
theorem c7_sanitize_allowlist_counterexample :
    sanitizeFunctionParametersSchema c7Input =
      [("properties", JVal.obj [("query", JVal.obj [("type", JVal.str "STRING")])]),
        ("type", JVal.str "OBJECT")] ∧
    allKeysB 4 (JVal.obj (sanitizeFunctionParametersSchema c7Input)) = false ∧
    "query" ∉ vertexAllowedKeys := by
  refine ⟨rfl, rfl, by decide⟩

/-- C7 (amended): the schema sanitiser is idempotent --
`sanitize_function_parameters_schema` applied twice equals one
application -- and every key of every SCHEMA object of the output (the
root and the objects reachable through `properties`, `defs`, `items` and
`anyOf`, at every depth) lies in the allow-list {type, properties,
required, description, enum, items, nullable, minimum, maximum, anyOf,
ref, defs}.  The claim's stronger reading -- every key of every object
whatsoever -- fails on property maps, whose keys are property names (see
the counterexample). -/
theorem c7_sanitize_idempotent_allowlist :
    (∀ x : List (String × JVal),
      sanitizeFunctionParametersSchema (sanitizeFunctionParametersSchema x) =
        sanitizeFunctionParametersSchema x) ∧
    (∀ (x : List (String × JVal)) (fuel : Nat),
      schemaKeysOkB fuel (sanitizeFunctionParametersSchema x) = true) := by
  have hsan : ∀ x : List (String × JVal),
      SanObj (sanitizeFunctionParametersSchema x) := fun x =>
    sanitizeObj_san (jdepthKvs x + 1) x (Nat.lt_succ_self _)
  constructor
  · intro x
    exact sanitizeObj_id _ _ (hsan x)
  · intro x fuel
    exact sanObj_schemaKeysOkB fuel _ (hsan x)

end Ant2Api
